import Mathlib

/-!
# commsec: the real-time flow-control layer, embedded in Lean

A shallow embedding of the JACK process callbacks of `jack_crypto_tx.cpp` and
`jack_crypto_rx.cpp`, of the push-to-talk helpers `microphone_enabled` and
`set_ptt_val`, and of the session set-up `initialize_crypto`.

Conventions of the embedding

* Samples (`jack_default_audio_sample_t`, `short`) are integers; `0` is silence.
* The static and global variables of the translation unit are the fields of
  `Tx.State` and `Rx.State`; what a callback reads from its collaborators (the
  JACK port buffers, the codec geometry, the GPIO results) is `Tx.Input` and
  `Rx.Input`.
* Every call a callback makes to a rate converter, the codec, the logger or a
  GPIO line is recorded, in program order, as an `Event`.
* Unsigned 32-bit arithmetic (`uint`, `jack_nframes_t`) is written with an
  explicit `% 2 ^ 32`, `size_t` arithmetic with `% 2 ^ 64`.
* A callback that does not return (fatal converter error, division by zero,
  a loop that never exits) yields a `Fault`.
-/

namespace Commsec

/-! ## Faults and the call trace -/

/-- The ways a callback can end without returning. -/
inductive Fault where
  /-- Call of `resampler::dequeue(buffer, n)` with `n > available_elems()`. -/
  | dequeue_beyond_available
  /-- An unsigned division by `nframes == 0`. -/
  | division_by_zero
  /-- A `while` loop whose condition never becomes false. -/
  | loop_does_not_exit
  deriving DecidableEq, Repr

/-- The two rate converters of a direction: `input_resampler`, `output_resampler`. -/
inductive Side where
  | input
  | output
  deriving DecidableEq, Repr

/-- One call made by a callback, with the data that went in or came out. -/
inductive Event where
  | log_error (msg : String)
  | set_sample_rates (r : Side) (in_rate out_rate : Nat)
  | enqueue (r : Side) (samples : List Int)
  | enqueue_zeroes (r : Side) (n : Nat)
  | clear (r : Side)
  | flush (r : Side) (extra : Nat)
  | dequeue (r : Side) (n : Nat) (samples : List Int)
  | transmit (voice_in mod_out : List Int)
  | force_rekey_next_frame
  | set_ptt_val (val : Bool)
  | gpiod_line_get_value (result : Int)
  | gpiod_line_set_value (level result : Int)
  deriving DecidableEq, Repr

/-! ## The rate converter -/

/-- Modelled from the spec: the sample-rate conversion that class `resampler`
(resampler.h, not among the sources) delegates to libsamplerate. The spec treats
it as a stateful converter with internal filter delay; here it is a parameter:
`run filter in_rate out_rate samples end_of_input` gives the new filter state
and the converted samples that become ready. -/
structure Converter where
  run : List Int → Nat → Nat → List Int → Bool → List Int × List Int

/-- Modelled from the spec: the state of a `resampler` (resampler.h is not among
the sources): the configured rates, the filter-internal state and the queue of
converted samples ready to dequeue. -/
structure resampler where
  in_rate : Nat
  out_rate : Nat
  filter : List Int
  ready : List Int
  deriving DecidableEq, Repr

namespace resampler

/-- Modelled from the spec: `set_rates(in_rate, out_rate)` reconfigures the
conversion ratio and does not discard anything queued. -/
def set_sample_rates (r : resampler) (in_rate out_rate : Nat) : resampler :=
  { r with in_rate := in_rate, out_rate := out_rate }

/-- Modelled from the spec: `available_elems()` is the count of converted
samples currently ready to dequeue. -/
def available_elems (r : resampler) : Nat :=
  r.ready.length

/-- Modelled from the spec: `enqueue(samples)` appends raw input samples for
conversion; what the converter emits is appended to the ready queue. -/
def enqueue (C : Converter) (r : resampler) (samples : List Int) : resampler :=
  { r with
    filter := (C.run r.filter r.in_rate r.out_rate samples false).1
    ready := r.ready ++ (C.run r.filter r.in_rate r.out_rate samples false).2 }

/-- Modelled from the spec: `enqueue_zeroes(n)` appends `n` silence samples. -/
def enqueue_zeroes (C : Converter) (r : resampler) (n : Nat) : resampler :=
  r.enqueue C (List.replicate n 0)

/-- Modelled from the spec: `dequeue(buffer, n)` requires
`available_elems() >= n` and is fatal otherwise; it removes the first `n` ready
samples, in order. -/
def dequeue (r : resampler) (n : Nat) : Except Fault (List Int × resampler) :=
  if n ≤ r.available_elems then
    .ok (r.ready.take n, { r with ready := r.ready.drop n })
  else
    .error .dequeue_beyond_available

/-- Modelled from the spec: `flush(extra)` pushes `extra` trailing zero samples
through the converter to force out what is trapped in the filter delay, and
resets the converter state. -/
def flush (C : Converter) (r : resampler) (extra : Nat) : resampler :=
  { r with
    filter := []
    ready := r.ready ++ (C.run r.filter r.in_rate r.out_rate (List.replicate extra 0) true).2 }

/-- Modelled from the spec: `clear()` discards all queued and filter-internal
state. -/
def clear (r : resampler) : resampler :=
  { r with filter := [], ready := [] }

end resampler

/-! ## The codec session -/

/-- Modelled from the spec: the opaque codec session (`crypto_tx_common`, not
among the sources), with session state `σ`. `transmit` takes one speech frame
and gives the `nout` modem samples it wrote to `mod_out`. -/
structure Codec (σ : Type) where
  transmit : σ → List Int → σ × List Int
  force_rekey_next_frame : σ → σ

/-- The two fields of `struct config` that the transmit callback reads
(`crypto_cfg.c` fills both with `atoi`). -/
structure config where
  ptt_enabled : Int
  ptt_gpio_num : Int
  deriving DecidableEq, Repr

namespace Cfg

/-! ## crypto_cfg.c: `get_key_path` and the C library calls it makes -/

/-- A store outside the destination array, which C leaves undefined. -/
inductive Fault where
  | write_out_of_bounds
  deriving DecidableEq, Repr

/-- The string constant `KEY_PREFIX` of `get_key_path`, as character codes. -/
def KEY_PREFIX : List Nat := "/etc/key".toList.map Char.toNat

/-- The digits of `k` in base ten, least significant first. The first argument
bounds the number of digits produced. -/
def decimal_digits : Nat → Nat → List Nat
  | 0, _ => []
  | fuel + 1, k => if k < 10 then [k] else (k % 10) :: decimal_digits fuel (k / 10)

/-- What the conversion `%u` of the C library prints for `k`: its decimal
digits, most significant first, as character codes. -/
def utoa (k : Nat) : List Nat :=
  (decimal_digits (k + 1) k).reverse.map (fun d => 48 + d)

/-- The C library function `strncpy(dest, src, n)` on the array `buffer`: it
stores exactly `n` characters, the first `n` of `src` and then NULs if `src` is
shorter, and no NUL if `src` has `n` characters or more. -/
def strncpy (buffer src : List Nat) (n : Nat) : Except Fault (List Nat) :=
  if n ≤ buffer.length then
    .ok (src.take n ++ List.replicate (n - src.length) 0 ++ buffer.drop n)
  else
    .error .write_out_of_bounds

/-- The C library function `snprintf(dest, n, ...)` on the array `buffer`, with
`text` the formatted output: for `n = 0` nothing is stored; otherwise the first
`n - 1` characters of `text` are stored, followed by a NUL. -/
def snprintf (buffer : List Nat) (n : Nat) (text : List Nat) : Except Fault (List Nat) :=
  if n = 0 then
    .ok buffer
  else if (text.take (n - 1)).length + 1 ≤ buffer.length then
    .ok (text.take (n - 1) ++ [0] ++ buffer.drop ((text.take (n - 1)).length + 1))
  else
    .error .write_out_of_bounds

/-- The assignment `buffer[i] = c`. -/
def store (buffer : List Nat) (i c : Nat) : Except Fault (List Nat) :=
  if i < buffer.length then .ok (buffer.set i c) else .error .write_out_of_bounds

/-- Lines 39-51 of `crypto_cfg.c`: `get_key_path(buffer, buffer_size, key_index)`
on the array `buffer`; `buffer_size - 1` is computed in `size_t`. -/
def get_key_path (buffer : List Nat) (buffer_size key_index : Nat) :
    Except Fault (List Nat) :=
  let n := (buffer_size + 2 ^ 64 - 1) % 2 ^ 64
  match (if key_index ≤ 1 then strncpy buffer KEY_PREFIX n
         else snprintf buffer n (KEY_PREFIX ++ utoa key_index)) with
  | .error f => .error f
  | .ok b => store b n 0

/-- Lines 63-65 of `crypto_cfg.c`: the `KeyIndex` entry of `ini_callback`, with
`value` what `atoi(Value)` returned; the `int` is converted to the `uint`
parameter, and `sizeof(cfg->key_file)` is the length of the array. -/
def ini_callback_KeyIndex (key_file : List Nat) (value : Int) : Except Fault (List Nat) :=
  get_key_path key_file key_file.length (value % 2 ^ 32).toNat

/-- The C string held in an array: the characters before the first NUL. -/
def c_str (buffer : List Nat) : List Nat :=
  buffer.takeWhile (fun c => c ≠ 0)

end Cfg

namespace Rx

/-! ## jack_crypto_rx.cpp -/

/-- Modelled from the spec: the opaque codec session of the receive direction
(`crypto_rx_common`, not among the sources), with session state `σ`.
`needed_modem_samples` may differ from one session state to the next;
`receive` takes the modem samples of one frame and gives the `nout` speech
samples it wrote to `voice_out`; `encrypted` says whether
`get_encryption_status()` is `CRYPTO_STATUS_ENCRYPTED`. -/
structure Codec (σ : Type) where
  needed_modem_samples : σ → Nat
  receive : σ → List Int → σ × List Int
  encrypted : σ → Bool

/-- One call made by the receive callback, with the data that went in or came
out. -/
inductive Event where
  | set_sample_rates (r : Side) (in_rate out_rate : Nat)
  | enqueue (r : Side) (samples : List Int)
  | dequeue (r : Side) (n : Nat) (samples : List Int)
  | needed_modem_samples (nin : Nat)
  | receive (demod_in voice_out : List Int)
  | get_encryption_status (encrypted : Bool)
  deriving DecidableEq, Repr

/-- The file-scope variables of `jack_crypto_rx.cpp` that `process` uses. -/
structure State (σ : Type) where
  crypto_rx : σ
  input_resampler : resampler
  output_resampler : resampler
  crypto_startup : List Int
  plain_startup : List Int
  wave_sound : List Int
  notification_buffer : List Int
  initialized : Int
  play_wav : Int

/-- What one invocation of the receive `process` reads from outside the
translation unit: the block length, the modem port buffer and the rates
reported by JACK and the codec session. -/
structure Input where
  nframes : Nat
  modem_frames : Nat → Int
  jack_sample_rate : Nat
  voice_sample_rate : Nat
  modem_sample_rate : Nat

/-- What one invocation of the receive `process` leaves behind for an
observer: the blocks written to the voice port and to the notification port,
its calls in order, the samples its triggers appended to the notification
queue, and the value of `n_notification_frames` (0 when the queue was
empty). -/
structure Output where
  voice_frames : List Int
  notification_frames : List Int
  events : List Event
  notification_queued : List Int
  n_notification_frames : Nat

/-- Lines 147-159: one pass through the body of the decode loop, entered with
the current `nin`. The result carries the re-queried `nin`. -/
def decode_iteration (C : Converter) (K : Codec σ) (nin : Nat) (inr outr : resampler)
    (k : σ) : Except Fault (Nat × resampler × resampler × σ × List Event) :=
  match inr.dequeue nin with
  | .error f => .error f
  | .ok (demod_in, inr1) =>
    .ok (K.needed_modem_samples (K.receive k demod_in).1, inr1,
         outr.enqueue C (K.receive k demod_in).2, (K.receive k demod_in).1,
         [.dequeue .input nin demod_in, .receive demod_in (K.receive k demod_in).2,
          .enqueue .output (K.receive k demod_in).2,
          .needed_modem_samples (K.needed_modem_samples (K.receive k demod_in).1)])

/-- Lines 145-160: `while (input_resampler->available_elems() >= nin)`. The
first argument bounds the number of loop tests; the loop not having exited
within that many tests is reported as `loop_does_not_exit`. The result carries
the value of `nin` at exit. -/
def decode_loop (C : Converter) (K : Codec σ) :
    Nat → Nat → resampler → resampler → σ →
      Except Fault (Nat × resampler × resampler × σ × List Event)
  | 0, _, _, _, _ => .error .loop_does_not_exit
  | fuel + 1, nin, inr, outr, k =>
    if inr.available_elems ≥ nin then
      match decode_iteration C K nin inr outr k with
      | .error f => .error f
      | .ok (nin1, inr1, outr1, k1, ev1) =>
        match decode_loop C K fuel nin1 inr1 outr1 k1 with
        | .error f => .error f
        | .ok (nin2, inr2, outr2, k2, ev2) => .ok (nin2, inr2, outr2, k2, ev1 ++ ev2)
    else
      .ok (nin, inr, outr, k, [])

/-- Lines 135-160: both converters are given the current rates, the modem
block is enqueued, and the decode loop runs. -/
def decode (C : Converter) (K : Codec σ) (fuel : Nat) (s : State σ) (i : Input) :
    Except Fault (State σ × List Event) :=
  let inr := (s.input_resampler.set_sample_rates i.jack_sample_rate i.modem_sample_rate).enqueue
    C ((List.range i.nframes).map i.modem_frames)
  let outr := s.output_resampler.set_sample_rates i.voice_sample_rate i.jack_sample_rate
  match decode_loop C K fuel (K.needed_modem_samples s.crypto_rx) inr outr s.crypto_rx with
  | .error f => .error f
  | .ok (_, inr1, outr1, k1, ev) =>
    .ok ({ s with input_resampler := inr1, output_resampler := outr1, crypto_rx := k1 },
         [.set_sample_rates .input i.jack_sample_rate i.modem_sample_rate,
          .set_sample_rates .output i.voice_sample_rate i.jack_sample_rate,
          .enqueue .input ((List.range i.nframes).map i.modem_frames),
          .needed_modem_samples (K.needed_modem_samples s.crypto_rx)] ++ ev)

/-- Lines 182-189: the voice block. -/
def voice_output (s : State σ) (i : Input) :
    Except Fault (State σ × List Int × List Event) :=
  let to_deque := min s.output_resampler.available_elems i.nframes
  let to_fill := i.nframes - to_deque
  match s.output_resampler.dequeue to_deque with
  | .error f => .error f
  | .ok (got, outr) =>
    .ok ({ s with output_resampler := outr }, got ++ List.replicate to_fill 0,
         [.dequeue .output to_deque got])

/-- Lines 191-211: what the triggers of this callback append to the
notification queue. -/
def queue_notifications (K : Codec σ) (s : State σ)
    (play_notification_sound play_wave_sound : Bool) : List Int × List Event :=
  ((if play_notification_sound then
      (if K.encrypted s.crypto_rx then s.crypto_startup else s.plain_startup)
    else []) ++ (if play_wave_sound then s.wave_sound else []),
   if play_notification_sound then [.get_encryption_status (K.encrypted s.crypto_rx)]
   else [])

/-- Lines 215-231: the notification block taken from the queue `q`. The result
is the block, the queue left, and `n_notification_frames` (0 when the queue
was empty). -/
def notification_output (q : List Int) (nframes : Nat) : List Int × List Int × Nat :=
  if q.isEmpty = false then
    (q.take (min nframes (q.length % 2 ^ 32)) ++
       (if min nframes (q.length % 2 ^ 32) < nframes then
          List.replicate (nframes - min nframes (q.length % 2 ^ 32)) 0
        else []),
     q.drop (min nframes (q.length % 2 ^ 32)),
     min nframes (q.length % 2 ^ 32))
  else
    (List.replicate nframes 0, q, 0)

/-- The JACK callback `process` of `jack_crypto_rx.cpp`; `fuel` bounds the
number of tests of the decode loop. -/
def process (C : Converter) (K : Codec σ) (fuel : Nat) (s : State σ) (i : Input) :
    Except Fault (State σ × Output) :=
  let play_notification_sound := decide (s.initialized ≠ 0)
  let play_wave_sound := decide (s.play_wav ≠ 0)
  match decode C K fuel { s with initialized := 0, play_wav := 0 } i with
  | .error f => .error f
  | .ok (s1, ev1) =>
    match voice_output s1 i with
    | .error f => .error f
    | .ok (s2, voice_frames, ev2) =>
      let queued := queue_notifications K s2 play_notification_sound play_wave_sound
      let n := notification_output (s2.notification_buffer ++ queued.1) i.nframes
      .ok ({ s2 with notification_buffer := n.2.1 },
           { voice_frames := voice_frames
             notification_frames := n.1
             events := ev1 ++ ev2 ++ queued.2
             notification_queued := queued.1
             n_notification_frames := n.2.2 })

/-- What happens between two receive callbacks, outside the real-time thread:
the client was (re)activated (`initialized = 1`), or the main loop has read a
notification file (`wave_sound` replaced, `play_wav = 1`). -/
structure Async where
  activated : Bool
  wav : Option (List Int)

/-- The effect of the asynchronous activity `a` on the shared variables. -/
def deliver (s : State σ) (a : Async) : State σ :=
  let s1 := if a.activated then { s with initialized := 1 } else s
  match a.wav with
  | none => s1
  | some f => { s1 with wave_sound := f, play_wav := 1 }

/-- A run of consecutive receive callbacks, each preceded by asynchronous
activity. The run stops at the first callback that does not return. -/
def run (C : Converter) (K : Codec σ) (fuel : Nat) :
    State σ → List (Async × Input) → Except Fault (State σ × List Output)
  | s, [] => .ok (s, [])
  | s, (a, i) :: rest =>
    match process C K fuel (deliver s a) i with
    | .error f => .error f
    | .ok (s1, o) =>
      match run C K fuel s1 rest with
      | .error f => .error f
      | .ok (s2, os) => .ok (s2, o :: os)

/-- The samples dequeued from the output converter, in order. -/
def out_dequeued : List Event → List Int
  | [] => []
  | .dequeue .output _ got :: rest => got ++ out_dequeued rest
  | _ :: rest => out_dequeued rest

/-! ## Concrete collaborators of the receive direction -/

/-- A codec that asks for two modem samples per frame and gives them back as
speech samples. -/
def echo : Codec Unit :=
  ⟨fun _ => 2, fun _ demod_in => ((), demod_in), fun _ => false⟩

/-- A codec that asks for two modem samples per frame and decodes no speech
from them. -/
def mute : Codec Unit :=
  ⟨fun _ => 2, fun _ _ => ((), []), fun _ => false⟩

/-- A codec whose `needed_modem_samples()` is always 0. -/
def stalled : Codec Unit :=
  ⟨fun _ => 0, fun _ _ => ((), []), fun _ => false⟩

/-- The receive state after start-up, before activation, with the notification
queue `q`. -/
def initial_state (q : List Int) : State Unit :=
  { crypto_rx := ()
    input_resampler := ⟨0, 0, [], []⟩
    output_resampler := ⟨0, 0, [], []⟩
    crypto_startup := []
    plain_startup := []
    wave_sound := []
    notification_buffer := q
    initialized := 0
    play_wav := 0 }

/-- A receive callback of `n` frames at 8000 Hz throughout, modem samples
`1, 2, 3, ...`. -/
def block (n : Nat) : Input :=
  { nframes := n
    modem_frames := fun j => (j : Int) + 1
    jack_sample_rate := 8000
    voice_sample_rate := 8000
    modem_sample_rate := 8000 }

/-- No asynchronous activity. -/
def quiet : Async := ⟨false, none⟩

/-- The state `initial_state []` after the callback `block 3` with the codec
`mute`. -/
def silent_state : State Unit :=
  { initial_state [] with
    input_resampler := ⟨8000, 8000, [], [3]⟩
    output_resampler := ⟨8000, 8000, [], []⟩ }

/-- What the callback `block 3` from `initial_state []` leaves behind with the
codec `mute`. -/
def silent_output : Output :=
  { voice_frames := [0, 0, 0]
    notification_frames := [0, 0, 0]
    events :=
      [.set_sample_rates .input 8000 8000, .set_sample_rates .output 8000 8000,
       .enqueue .input [1, 2, 3], .needed_modem_samples 2,
       .dequeue .input 2 [1, 2], .receive [1, 2] [], .enqueue .output [],
       .needed_modem_samples 2,
       .dequeue .output 0 []]
    notification_queued := []
    n_notification_frames := 0 }

/-- The state `initial_state q` once both converters carry the rates of
`block` and are empty. -/
def drained_state (q : List Int) : State Unit :=
  { initial_state q with
    input_resampler := ⟨8000, 8000, [], []⟩
    output_resampler := ⟨8000, 8000, [], []⟩ }

/-- What a callback `block 2` with the codec `echo` leaves behind when it
copied `n` samples into the notification block `b`. -/
def echo_output (b : List Int) (n : Nat) : Output :=
  { voice_frames := [1, 2]
    notification_frames := b
    events :=
      [.set_sample_rates .input 8000 8000, .set_sample_rates .output 8000 8000,
       .enqueue .input [1, 2], .needed_modem_samples 2,
       .dequeue .input 2 [1, 2], .receive [1, 2] [1, 2], .enqueue .output [1, 2],
       .needed_modem_samples 2,
       .dequeue .output 2 [1, 2]]
    notification_queued := []
    n_notification_frames := n }

/-! ## Observations on a receive call trace -/

/-- Whether a trace is a sequence of passes through the decode loop entered
with `nin`: each pass dequeues exactly the current `nin` samples from the input
converter, hands them to the codec, enqueues the result into the output
converter and queries `nin` again. -/
def chained : Nat → List Event → Bool
  | _, [] => true
  | nin, .dequeue .input n got :: .receive demod_in voice_out :: .enqueue .output samples
      :: .needed_modem_samples nin1 :: rest =>
    n == nin && got.length == nin && demod_in == got && samples == voice_out
      && chained nin1 rest
  | _, _ => false

/-- The most recently queried `nin`: that of the last `needed_modem_samples`
call of the trace, or `nin` if there is none. -/
def last_nin : Nat → List Event → Nat
  | nin, [] => nin
  | _, .needed_modem_samples nin1 :: rest => last_nin nin1 rest
  | nin, _ :: rest => last_nin nin rest

/-- The number of passes through the decode loop in a trace. -/
def frames_decoded : List Event → Nat
  | [] => 0
  | .receive _ _ :: rest => frames_decoded rest + 1
  | _ :: rest => frames_decoded rest

/-! ## Reloading the session: `initialize_crypto` and `main` of jack_crypto_rx.cpp -/

/-- The owning pointers `crypto_rx`, `input_resampler` and `output_resampler`
of `jack_crypto_rx.cpp` as the main thread sees them; `none` is `nullptr`. -/
structure Session (σ : Type) where
  crypto_rx : Option σ
  input_resampler : Option resampler
  output_resampler : Option resampler

/-- How the reload branch of the main loop ends: the client is activated again
with the pointers `p`, or the process exits with `status` while the pointers
are `p`. -/
inductive Reload (σ : Type) where
  | activated (p : Session σ)
  | exited (status : Nat) (p : Session σ)

/-- What `initialize_crypto` reads from JACK and from the new session. -/
structure Startup where
  jack_sample_rate : Nat
  speech_sample_rate : Nat
  modem_sample_rate : Nat
  jack_buffer_size : Nat
  max_speech_samples_per_frame : Nat

/-- Lines 307-343: `initialize_crypto`. `construct` is the outcome of
`new crypto_rx_common("crypto_rx", config_file)`: the new session, or `none`
when the constructor throws. The result is `.error p` when the exception leaves
the function with the pointers `p`. A newly constructed converter has nothing
queued and no rates set; both are given their rates and primed. -/
def initialize_crypto (C : Converter) (construct : Option σ) (j : Startup) (p : Session σ) :
    Except (Session σ) (Session σ) :=
  let p1 := { p with crypto_rx := none }
  let p2 := { p1 with input_resampler := none }
  let p3 := { p2 with output_resampler := none }
  match construct with
  | none => .error p3
  | some k =>
    let inr := (⟨0, 0, [], []⟩ : resampler).set_sample_rates j.jack_sample_rate
      j.modem_sample_rate
    let outr := (⟨0, 0, [], []⟩ : resampler).set_sample_rates j.speech_sample_rate
      j.jack_sample_rate
    .ok { crypto_rx := some k
          input_resampler := some (inr.enqueue_zeroes C j.jack_buffer_size).clear
          output_resampler := some (outr.enqueue_zeroes C j.max_speech_samples_per_frame).clear }

/-- Lines 459-473 of `main`: the reload branch. After `jack_deactivate`,
`initialize_crypto()` inside `try`; the handler calls `exit(1)`. -/
def reload (C : Converter) (construct : Option σ) (j : Startup) (p : Session σ) : Reload σ :=
  match initialize_crypto C construct j p with
  | .error q => .exited 1 q
  | .ok q => .activated q

/-- The speech frames the codec gave (`voice_out` of each `receive` call), in
order. -/
def decoded : List Event → List (List Int)
  | [] => []
  | .receive _ voice_out :: rest => voice_out :: decoded rest
  | _ :: rest => decoded rest

/-- The modem frames handed to the codec (`demod_in` of each `receive` call),
in order. -/
def demodulated : List Event → List (List Int)
  | [] => []
  | .receive demod_in _ :: rest => demod_in :: demodulated rest
  | _ :: rest => demodulated rest

/-- The codec applied to a sequence of modem frames, one `receive` call per
frame: the session state afterwards and the speech frames it gave, in order. -/
def decode_all (K : Codec σ) : σ → List (List Int) → σ × List (List Int)
  | k, [] => (k, [])
  | k, f :: fs =>
    ((decode_all K (K.receive k f).1 fs).1,
     (K.receive k f).2 :: (decode_all K (K.receive k f).1 fs).2)

/-- The input converter when the decode loop is reached: the one of the state
with the current rates and the modem block of the callback enqueued. -/
def input_at_loop (C : Converter) (s : State σ) (i : Input) : resampler :=
  (s.input_resampler.set_sample_rates i.jack_sample_rate i.modem_sample_rate).enqueue
    C ((List.range i.nframes).map i.modem_frames)

end Rx

namespace Tx

/-! ## jack_crypto_tx.cpp -/

/-- The hang-timer threshold, `PTT_DEAD_KEY_PERIODS`. -/
def PTT_DEAD_KEY_PERIODS : Nat := 4

/-- The file-scope and function-static variables of `jack_crypto_tx.cpp`.
`ptt_in_line` and `ptt_out_line` say whether the line pointer is non-null;
`prev_val` is the static of `set_ptt_val`; `delay_periods` and
`transmitting_prev` are the statics of `process`. -/
structure State (σ : Type) where
  crypto_tx : σ
  input_resampler : resampler
  output_resampler : resampler
  tts_file : List Int
  tts_buffer : List Int
  play_wav : Int
  sig_ptt_val : Int
  ptt_in_line : Bool
  ptt_out_line : Bool
  prev_val : Int
  delay_periods : Nat
  transmitting_prev : Bool

/-- What one invocation of `process` reads from outside the translation unit:
the block length, the voice port buffer, the rates and frame lengths reported
by JACK and the codec session, the value of
`get_nom_resampled_frames(n_nom_modem_samples, modem_sample_rate, jack_sample_rate)`
(the helper is not among the sources), the configuration, and the results the
GPIO library gives to a read of the input line and to a write of the output
line during this callback. -/
structure Input where
  nframes : Nat
  voice_frames : Nat → Int
  jack_sample_rate : Nat
  voice_sample_rate : Nat
  modem_sample_rate : Nat
  n_nom_modem_samples : Nat
  n_speech_samples : Nat
  modem_resampled_frames : Nat
  cfg : config
  gpiod_get_result : Int
  gpiod_set_result : Int

/-- What one invocation of `process` leaves behind for an observer: the branch
it took, the block written to the modem port, and its calls in order. -/
structure Output where
  transmitting_cur : Bool
  modem_frames : List Int
  events : List Event

/-- The signal handler `handle_sigptt`: `sig_ptt_val = !sig_ptt_val`. -/
def handle_sigptt (s : State σ) : State σ :=
  { s with sig_ptt_val := if s.sig_ptt_val = 0 then 1 else 0 }

/-- The function `microphone_enabled`; `line_value` is what
`gpiod_line_get_value(ptt_in_line)` returns if it is called. -/
def microphone_enabled (cfg : config) (sig_ptt_val : Int) (ptt_in_line : Bool)
    (line_value : Int) : Bool × List Event :=
  if cfg.ptt_enabled ≠ 0 ∧ cfg.ptt_gpio_num < 0 then
    (decide (sig_ptt_val ≠ 0), [])
  else if ptt_in_line then
    if line_value < 0 then
      (true, [.gpiod_line_get_value line_value, .log_error "Error reading PTT IO"])
    else
      (decide (line_value ≠ 0), [.gpiod_line_get_value line_value])
  else
    (true, [])

/-- The function `set_ptt_val`; `set_result` is what
`gpiod_line_set_value(ptt_out_line, cur_val)` returns if it is called. The
result is the new `prev_val` and the calls made. -/
def set_ptt_val (ptt_out_line : Bool) (prev_val : Int) (val : Bool)
    (set_result : Int) : Int × List Event :=
  let cur_val : Int := if val then 1 else 0
  if ptt_out_line = false then
    (-1, [.set_ptt_val val])
  else if prev_val ≠ cur_val then
    if set_result = 0 then
      (cur_val, [.set_ptt_val val, .gpiod_line_set_value cur_val set_result])
    else
      (prev_val, [.set_ptt_val val, .gpiod_line_set_value cur_val set_result])
  else
    (prev_val, [.set_ptt_val val])

/-- Lines 165-173 of `process`: the play trigger. -/
def play_trigger (s : State σ) (nframes : Nat) : State σ :=
  if s.play_wav ≠ 0 then
    { s with
      play_wav := 0
      tts_buffer := s.tts_buffer ++ List.replicate ((nframes * 6) % 2 ^ 32) 0 ++ s.tts_file }
  else
    s

/-- Lines 157-173 of `process`: both converters are given the current rates,
then the play trigger is served. -/
def entry (s : State σ) (i : Input) : State σ :=
  play_trigger
    { s with
      input_resampler :=
        s.input_resampler.set_sample_rates i.jack_sample_rate i.voice_sample_rate
      output_resampler :=
        s.output_resampler.set_sample_rates i.modem_sample_rate i.jack_sample_rate }
    i.nframes

/-- Lines 178-179: the value of `transmitting_cur` in a callback entered in
state `s`. -/
def transmit_intent (s : State σ) (i : Input) : Bool :=
  (microphone_enabled i.cfg s.sig_ptt_val s.ptt_in_line i.gpiod_get_result).1
    || !(entry s i).tts_buffer.isEmpty

/-- Lines 185-192: priming both converters. -/
def prime (C : Converter) (s : State σ) (i : Input) : State σ × List Event :=
  ({ s with
      input_resampler := (s.input_resampler.enqueue_zeroes C i.nframes).clear
      output_resampler := (s.output_resampler.enqueue_zeroes C i.n_nom_modem_samples).clear },
   [.enqueue_zeroes .input i.nframes, .clear .input,
    .enqueue_zeroes .output i.n_nom_modem_samples, .clear .output])

/-- Lines 197-215: the blend of queued TTS samples and live voice (or zeros)
that is enqueued into the input converter. -/
def blend (C : Converter) (s : State σ) (i : Input) (mic_enabled : Bool) :
    State σ × List Event :=
  let tts_to_add := min s.tts_buffer.length i.nframes
  let s1 : State σ × List Event :=
    if tts_to_add > 0 then
      ({ s with
          input_resampler := s.input_resampler.enqueue C (s.tts_buffer.take tts_to_add)
          tts_buffer := s.tts_buffer.drop tts_to_add },
       [.enqueue .input (s.tts_buffer.take tts_to_add)])
    else
      (s, [])
  let voice_to_add := (i.nframes - tts_to_add) % 2 ^ 32
  if mic_enabled then
    let voice := (List.range voice_to_add).map (fun j => i.voice_frames (tts_to_add + j))
    ({ s1.1 with input_resampler := s1.1.input_resampler.enqueue C voice },
     s1.2 ++ [.enqueue .input voice])
  else
    ({ s1.1 with input_resampler := s1.1.input_resampler.enqueue_zeroes C voice_to_add },
     s1.2 ++ [.enqueue_zeroes .input voice_to_add])

/-- Lines 218-227: `while (input_resampler->available_elems() >= n_speech_samples)`.
The first argument bounds the number of loop tests; running out of it means the
loop does not exit. -/
def encode_loop (C : Converter) (K : Codec σ) (n_speech_samples : Nat) :
    Nat → resampler → resampler → σ → Except Fault (resampler × resampler × σ × List Event)
  | 0, _, _, _ => .error .loop_does_not_exit
  | fuel + 1, inr, outr, k =>
    if inr.available_elems ≥ n_speech_samples then
      match inr.dequeue n_speech_samples with
      | .error f => .error f
      | .ok (voice_in, inr1) =>
        let r := K.transmit k voice_in
        match encode_loop C K n_speech_samples fuel inr1 (outr.enqueue C r.2) r.1 with
        | .error f => .error f
        | .ok (inr2, outr2, k2, ev) =>
          .ok (inr2, outr2, k2,
            [.dequeue .input n_speech_samples voice_in, .transmit voice_in r.2,
             .enqueue .output r.2] ++ ev)
    else
      .ok (inr, outr, k, [])

/-- Lines 233-235: `required_elems`, computed in `uint`. Only evaluated for
`nframes ≠ 0`. -/
def required_elems (i : Input) : Nat :=
  (i.nframes * (((i.modem_resampled_frames + (i.nframes - 1)) % 2 ^ 32) / i.nframes)) % 2 ^ 32

/-- Lines 229-243: the output stage of the transmitting branch. -/
def transmit_output (s : State σ) (i : Input) :
    Except Fault (State σ × List Int × List Event) :=
  if i.nframes = 0 then
    .error .division_by_zero
  else if s.output_resampler.available_elems ≥ required_elems i then
    match s.output_resampler.dequeue i.nframes with
    | .error f => .error f
    | .ok (got, outr) =>
      .ok ({ s with output_resampler := outr }, got, [.dequeue .output i.nframes got])
  else
    .ok (s, List.replicate i.nframes 0, [])

/-- Lines 182-215: the transmitting branch up to the encode loop: the hang
timer is reset, the converters are primed on a rising edge, the PTT output is
turned on and the input block is enqueued. -/
def tx_front (C : Converter) (s : State σ) (i : Input) (mic_enabled : Bool) :
    State σ × List Event :=
  let s0 := { s with delay_periods := 0 }
  let s1 := if !s.transmitting_prev then prime C s0 i else (s0, [])
  let p := set_ptt_val s.ptt_out_line s.prev_val true i.gpiod_set_result
  let s3 := blend C { s1.1 with prev_val := p.1 } i mic_enabled
  (s3.1, s1.2 ++ p.2 ++ s3.2)

/-- Lines 181-244: the transmitting branch. -/
def transmitting (C : Converter) (K : Codec σ) (s : State σ) (i : Input)
    (mic_enabled : Bool) : Except Fault (State σ × List Int × List Event) :=
  let f := tx_front C s i mic_enabled
  match encode_loop C K i.n_speech_samples (f.1.input_resampler.available_elems + 1)
      f.1.input_resampler f.1.output_resampler f.1.crypto_tx with
  | .error e => .error e
  | .ok (inr, outr, k, ev) =>
    match transmit_output
        { f.1 with input_resampler := inr, output_resampler := outr, crypto_tx := k } i with
    | .error e => .error e
    | .ok (s4, modem_frames, ev4) => .ok (s4, modem_frames, f.2 ++ ev ++ ev4)

/-- Lines 260-274: `while (input_resampler->available_elems() != 0)`, with the
zero-initialised `voice_in`. The first argument bounds the number of loop
tests; running out of it means the loop does not exit. -/
def drain_loop (C : Converter) (K : Codec σ) (n_speech_samples : Nat) :
    Nat → resampler → resampler → σ → Except Fault (resampler × resampler × σ × List Event)
  | 0, _, _, _ => .error .loop_does_not_exit
  | fuel + 1, inr, outr, k =>
    if inr.available_elems ≠ 0 then
      match inr.dequeue (min n_speech_samples inr.available_elems) with
      | .error f => .error f
      | .ok (got, inr1) =>
        let voice_in := got ++ List.replicate (n_speech_samples - got.length) 0
        let r := K.transmit k voice_in
        match drain_loop C K n_speech_samples fuel inr1 (outr.enqueue C r.2) r.1 with
        | .error f => .error f
        | .ok (inr2, outr2, k2, ev) =>
          .ok (inr2, outr2, k2,
            [.dequeue .input (min n_speech_samples inr.available_elems) got,
             .transmit voice_in r.2, .enqueue .output r.2] ++ ev)
    else
      .ok (inr, outr, k, [])

/-- Lines 248-280: the falling-edge flush (the body of `if (transmitting_prev)`). -/
def falling_edge (C : Converter) (K : Codec σ) (s : State σ) (i : Input) :
    Except Fault (State σ × List Event) :=
  let inr := s.input_resampler.flush C ((i.n_speech_samples * 2) % 2 ^ 64)
  match drain_loop C K i.n_speech_samples (inr.available_elems + 1) inr
      s.output_resampler s.crypto_tx with
  | .error f => .error f
  | .ok (inr1, outr1, k1, ev) =>
    .ok ({ s with
            input_resampler := inr1
            output_resampler := outr1.flush C ((i.nframes * 2) % 2 ^ 32)
            crypto_tx := k1 },
         [.flush .input ((i.n_speech_samples * 2) % 2 ^ 64)] ++ ev ++
           [.flush .output ((i.nframes * 2) % 2 ^ 32)])

/-- Lines 297-309: the dead-key hang timer. -/
def hang_timer (s : State σ) (i : Input) (available_frames : Nat) : State σ × List Event :=
  if available_frames = 0 then
    if s.delay_periods = PTT_DEAD_KEY_PERIODS then
      ({ s with prev_val := (set_ptt_val s.ptt_out_line s.prev_val false i.gpiod_set_result).1 },
       (set_ptt_val s.ptt_out_line s.prev_val false i.gpiod_set_result).2)
    else
      ({ s with delay_periods := (s.delay_periods + 1) % 2 ^ 32 }, [])
  else
    (s, [])

/-- Lines 282-309: what the idle branch does after the falling-edge flush. -/
def idle_output (K : Codec σ) (s : State σ) (i : Input) :
    Except Fault (State σ × List Int × List Event) :=
  let available_frames := min i.nframes s.output_resampler.available_elems
  let remaining_frames := i.nframes - available_frames
  match s.output_resampler.dequeue available_frames with
  | .error f => .error f
  | .ok (got, outr) =>
    let s1 := { s with
                output_resampler := outr
                crypto_tx := K.force_rekey_next_frame s.crypto_tx }
    let h := hang_timer s1 i available_frames
    .ok (h.1, got ++ List.replicate remaining_frames 0,
      [.dequeue .output available_frames got, .force_rekey_next_frame] ++ h.2)

/-- Lines 245-310: the idle branch. -/
def idle (C : Converter) (K : Codec σ) (s : State σ) (i : Input) :
    Except Fault (State σ × List Int × List Event) :=
  if s.transmitting_prev then
    match falling_edge C K s i with
    | .error f => .error f
    | .ok (s1, ev1) =>
      match idle_output K s1 i with
      | .error f => .error f
      | .ok (s2, modem_frames, ev2) => .ok (s2, modem_frames, ev1 ++ ev2)
  else
    idle_output K s i

/-- The JACK callback `process` of `jack_crypto_tx.cpp`. -/
def process (C : Converter) (K : Codec σ) (s : State σ) (i : Input) :
    Except Fault (State σ × Output) :=
  let mic := microphone_enabled i.cfg s.sig_ptt_val s.ptt_in_line i.gpiod_get_result
  let transmitting_cur := transmit_intent s i
  match (if transmitting_cur then transmitting C K (entry s i) i mic.1
         else idle C K (entry s i) i) with
  | .error f => .error f
  | .ok (s3, modem_frames, ev) =>
    .ok ({ s3 with transmitting_prev := transmitting_cur },
         { transmitting_cur := transmitting_cur
           modem_frames := modem_frames
           events :=
             [.set_sample_rates .input i.jack_sample_rate i.voice_sample_rate,
              .set_sample_rates .output i.modem_sample_rate i.jack_sample_rate]
             ++ mic.2 ++ ev })

/-- What happens between two callbacks, outside the real-time thread: `sigptt`
deliveries of the PTT signal (each runs `handle_sigptt`), and possibly the main
loop having read a new prompt file (`tts_file` replaced, `play_wav = 1`). -/
structure Async where
  sigptt : Nat
  wav : Option (List Int)

/-- The effect of the asynchronous activity `a` on the shared variables. -/
def deliver (s : State σ) (a : Async) : State σ :=
  let s1 := Nat.iterate handle_sigptt a.sigptt s
  match a.wav with
  | none => s1
  | some f => { s1 with tts_file := f, play_wav := 1 }

/-- A run of consecutive callbacks, each preceded by asynchronous activity. The
run stops at the first callback that does not return. -/
def run (C : Converter) (K : Codec σ) :
    State σ → List (Async × Input) → Except Fault (State σ × List Output)
  | s, [] => .ok (s, [])
  | s, (a, i) :: rest =>
    match process C K (deliver s a) i with
    | .error f => .error f
    | .ok (s1, o) =>
      match run C K s1 rest with
      | .error f => .error f
      | .ok (s2, os) => .ok (s2, o :: os)

/-! ## Observations on a call trace -/

/-- Whether an event is a call of `set_ptt_val` or a write to the PTT output line. -/
def is_ptt : Event → Bool
  | .set_ptt_val _ => true
  | .gpiod_line_set_value _ _ => true
  | _ => false

/-- The calls of `set_ptt_val` and the writes to the PTT output line, in order. -/
def ptt_events (evs : List Event) : List Event :=
  evs.filter is_ptt

/-- The samples dequeued from the output converter, in order. -/
def out_dequeued : List Event → List Int
  | [] => []
  | .dequeue .output _ got :: rest => got ++ out_dequeued rest
  | _ :: rest => out_dequeued rest

/-- Events of the encode and drain loops: a dequeue from the input converter, a
codec call, or an enqueue into the output converter. -/
def is_codec_step : Event → Bool
  | .dequeue .input _ _ => true
  | .transmit _ _ => true
  | .enqueue .output _ => true
  | _ => false

/-- The number of hardware writes of the de-asserted level (0) to the PTT
output line. -/
def deassert_writes (evs : List Event) : Nat :=
  (evs.filter (fun e => match e with
    | .gpiod_line_set_value level _ => decide (level = 0)
    | _ => false)).length

/-- The hardware writes of the de-asserted level over a run of callbacks. -/
def total_deassert_writes (outs : List Output) : Nat :=
  (outs.map (fun o => deassert_writes o.events)).sum

/-- The number of callbacks of a run in which nothing was dequeued from the
output converter. -/
def drained_callbacks (outs : List Output) : Nat :=
  (outs.filter (fun o => decide (out_dequeued o.events = []))).length

/-- The calls of the priming sequence of lines 187-191. -/
def priming_events (i : Input) : List Event :=
  [.enqueue_zeroes .input i.nframes, .clear .input,
   .enqueue_zeroes .output i.n_nom_modem_samples, .clear .output]

/-- The speech frames handed to the encoder (`voice_in` of each `transmit`
call), in order. -/
def encoder_frames : List Event → List (List Int)
  | [] => []
  | .transmit voice_in _ :: rest => voice_in :: encoder_frames rest
  | _ :: rest => encoder_frames rest

/-- The integer level `static_cast<int>(val)`. -/
def level (val : Bool) : Int := if val then 1 else 0

/-- A sequence of calls of `set_ptt_val` while an output line is configured:
each call is the requested value with the result the hardware write would give.
The result is the final `prev_val` and the calls made. -/
def set_ptt_val_seq (prev_val : Int) : List (Bool × Int) → Int × List Event
  | [] => (prev_val, [])
  | (val, set_result) :: rest =>
    ((set_ptt_val_seq (set_ptt_val true prev_val val set_result).1 rest).1,
     (set_ptt_val true prev_val val set_result).2 ++
       (set_ptt_val_seq (set_ptt_val true prev_val val set_result).1 rest).2)

/-- The level of the last hardware write that succeeded, `none_yet` if there is
no such write. -/
def last_written (none_yet : Int) : List Event → Int
  | [] => none_yet
  | .gpiod_line_set_value level result :: rest =>
    last_written (if result = 0 then level else none_yet) rest
  | _ :: rest => last_written none_yet rest

/-! ## Concrete collaborators, states and callbacks, used to exercise the definitions -/

/-- A converter between equal rates without filter delay: what goes in comes
out unchanged, and nothing is trapped. -/
def passthrough : Converter :=
  ⟨fun _ _ _ samples _ => ([], samples)⟩

/-- A converter without filter delay whose flush forces out nothing. -/
def dry : Converter :=
  ⟨fun _ _ _ samples end_of_input => ([], if end_of_input then [] else samples)⟩

/-- A codec whose modem frame is the speech frame it was given. -/
def loopback : Codec Unit :=
  ⟨fun _ voice_in => ((), voice_in), fun _ => ()⟩

/-- Software PTT: `ptt_enabled = 1`, no input GPIO. -/
def software_ptt : config :=
  ⟨1, -1⟩

/-- Hardware PTT on GPIO 17. -/
def hardware_ptt : config :=
  ⟨1, 17⟩

/-- The state after start-up with an output line opened and software PTT off. -/
def initial_state : State Unit :=
  { crypto_tx := ()
    input_resampler := ⟨0, 0, [], []⟩
    output_resampler := ⟨0, 0, [], []⟩
    tts_file := []
    tts_buffer := []
    play_wav := 0
    sig_ptt_val := 0
    ptt_in_line := false
    ptt_out_line := true
    prev_val := -1
    delay_periods := 0
    transmitting_prev := false }

/-- A callback of two frames at 8000 Hz throughout, speech and modem frames of
two samples, every GPIO call succeeding, voice samples `1, 2, 3, ...`. -/
def block2 : Input :=
  { nframes := 2
    voice_frames := fun j => (j : Int) + 1
    jack_sample_rate := 8000
    voice_sample_rate := 8000
    modem_sample_rate := 8000
    n_nom_modem_samples := 2
    n_speech_samples := 2
    modem_resampled_frames := 2
    cfg := software_ptt
    gpiod_get_result := 0
    gpiod_set_result := 0 }

/-- A keyed callback like `block2` with voice samples `v, v + 1` and a modem
frame of six samples at the host rate, so that the output stage waits for six
queued samples before it writes any. -/
def block2_held (v : Int) : Input :=
  { block2 with
    voice_frames := fun j => (j : Int) + v
    modem_resampled_frames := 6 }

/-- No asynchronous activity. -/
def quiet : Async := ⟨0, none⟩

/-- One delivery of the PTT signal. -/
def toggle : Async := ⟨1, none⟩

/-- The state after the first keyed callback `block2` from `initial_state`. -/
def keyed_state : State Unit :=
  { crypto_tx := ()
    input_resampler := ⟨8000, 8000, [], []⟩
    output_resampler := ⟨8000, 8000, [], []⟩
    tts_file := []
    tts_buffer := []
    play_wav := 0
    sig_ptt_val := 1
    ptt_in_line := false
    ptt_out_line := true
    prev_val := 1
    delay_periods := 0
    transmitting_prev := true }

/-- What the first keyed callback `block2` from `initial_state` leaves behind. -/
def keyed_output : Output :=
  { transmitting_cur := true
    modem_frames := [1, 2]
    events :=
      [.set_sample_rates .input 8000 8000, .set_sample_rates .output 8000 8000,
       .enqueue_zeroes .input 2, .clear .input, .enqueue_zeroes .output 2, .clear .output,
       .set_ptt_val true, .gpiod_line_set_value 1 0,
       .enqueue .input [1, 2],
       .dequeue .input 2 [1, 2], .transmit [1, 2] [1, 2], .enqueue .output [1, 2],
       .dequeue .output 2 [1, 2]] }

/-- The state `keyed_state` after the PTT signal was released and `n` idle
callbacks `block2` found nothing to write; `prev_val` is given. -/
def unkeyed_state (n : Nat) (prev_val : Int) : State Unit :=
  { keyed_state with
    sig_ptt_val := 0
    prev_val := prev_val
    delay_periods := n
    transmitting_prev := false }

/-- The falling-edge callback `block2` from `keyed_state` with the converter
`passthrough`. -/
def falling_output : Output :=
  { transmitting_cur := false
    modem_frames := [0, 0]
    events :=
      [.set_sample_rates .input 8000 8000, .set_sample_rates .output 8000 8000,
       .flush .input 4,
       .dequeue .input 2 [0, 0], .transmit [0, 0] [0, 0], .enqueue .output [0, 0],
       .dequeue .input 2 [0, 0], .transmit [0, 0] [0, 0], .enqueue .output [0, 0],
       .flush .output 4,
       .dequeue .output 2 [0, 0], .force_rekey_next_frame] }

/-- The falling-edge callback `block2` from `keyed_state` with the converter
`dry`. -/
def falling_dry_output : Output :=
  { transmitting_cur := false
    modem_frames := [0, 0]
    events :=
      [.set_sample_rates .input 8000 8000, .set_sample_rates .output 8000 8000,
       .flush .input 4, .flush .output 4,
       .dequeue .output 0 [], .force_rekey_next_frame] }

/-- A keyed callback `block2` on a rising edge with the output line already
high. -/
def rekeyed_output : Output :=
  { transmitting_cur := true
    modem_frames := [1, 2]
    events :=
      [.set_sample_rates .input 8000 8000, .set_sample_rates .output 8000 8000,
       .enqueue_zeroes .input 2, .clear .input, .enqueue_zeroes .output 2, .clear .output,
       .set_ptt_val true,
       .enqueue .input [1, 2],
       .dequeue .input 2 [1, 2], .transmit [1, 2] [1, 2], .enqueue .output [1, 2],
       .dequeue .output 2 [1, 2]] }

/-- An idle callback `block2` that finds the output converter empty, before the
hang timer has run out. -/
def idle_empty_output : Output :=
  { transmitting_cur := false
    modem_frames := [0, 0]
    events :=
      [.set_sample_rates .input 8000 8000, .set_sample_rates .output 8000 8000,
       .dequeue .output 0 [], .force_rekey_next_frame] }

/-- The idle callback `block2` that turns the PTT output off. -/
def release_output : Output :=
  { transmitting_cur := false
    modem_frames := [0, 0]
    events :=
      [.set_sample_rates .input 8000 8000, .set_sample_rates .output 8000 8000,
       .dequeue .output 0 [], .force_rekey_next_frame,
       .set_ptt_val false, .gpiod_line_set_value 0 0] }

/-! ## Further observations and concrete callbacks -/

/-- Whether a trace is a sequence of passes through the falling-edge drain
loop with speech frames of `n` samples: each pass dequeues from the input
converter, hands the encoder what it got followed by zeros up to `n` samples,
and enqueues the encoder result into the output converter. -/
def drain_steps (n : Nat) : List Event → Bool
  | [] => true
  | .dequeue .input m got :: .transmit voice_in mod_out :: .enqueue .output samples :: rest =>
    m == got.length && voice_in == got ++ List.replicate (n - got.length) 0
      && samples == mod_out && drain_steps n rest
  | _ => false

/-- The encoder results (`mod_out` of each `transmit` call), in order. -/
def encoder_results : List Event → List (List Int)
  | [] => []
  | .transmit _ mod_out :: rest => mod_out :: encoder_results rest
  | _ :: rest => encoder_results rest

/-- The state `keyed_state` with the PTT signal released and one sample, 7,
still queued in the input converter. -/
def residue_state : State Unit :=
  { keyed_state with sig_ptt_val := 0, input_resampler := ⟨8000, 8000, [], [7]⟩ }

/-- A keyed callback `block2` from `keyed_state`: no priming, and the PTT
output is already on. -/
def held_output : Output :=
  { transmitting_cur := true
    modem_frames := [1, 2]
    events :=
      [.set_sample_rates .input 8000 8000, .set_sample_rates .output 8000 8000,
       .set_ptt_val true,
       .enqueue .input [1, 2],
       .dequeue .input 2 [1, 2], .transmit [1, 2] [1, 2], .enqueue .output [1, 2],
       .dequeue .output 2 [1, 2]] }

/-- The state at start-up with a one-sample prompt read by the main loop and
the play trigger set. -/
def prompt_state : State Unit :=
  { initial_state with tts_file := [5], play_wav := 1 }

/-- The first callback `block2` from `prompt_state`: a rising edge, with two
zeros of the padding as input block. -/
def prompt_first_output : Output :=
  { transmitting_cur := true
    modem_frames := [0, 0]
    events :=
      [.set_sample_rates .input 8000 8000, .set_sample_rates .output 8000 8000,
       .enqueue_zeroes .input 2, .clear .input, .enqueue_zeroes .output 2, .clear .output,
       .set_ptt_val true, .gpiod_line_set_value 1 0,
       .enqueue .input [0, 0], .enqueue_zeroes .input 0,
       .dequeue .input 2 [0, 0], .transmit [0, 0] [0, 0], .enqueue .output [0, 0],
       .dequeue .output 2 [0, 0]] }

/-- The callbacks 2 to 6 from `prompt_state`: two more zeros of the padding. -/
def prompt_pad_output : Output :=
  { transmitting_cur := true
    modem_frames := [0, 0]
    events :=
      [.set_sample_rates .input 8000 8000, .set_sample_rates .output 8000 8000,
       .set_ptt_val true,
       .enqueue .input [0, 0], .enqueue_zeroes .input 0,
       .dequeue .input 2 [0, 0], .transmit [0, 0] [0, 0], .enqueue .output [0, 0],
       .dequeue .output 2 [0, 0]] }

/-- The callback 7 from `prompt_state`: the prompt sample, then a zero. -/
def prompt_last_output : Output :=
  { transmitting_cur := true
    modem_frames := [5, 0]
    events :=
      [.set_sample_rates .input 8000 8000, .set_sample_rates .output 8000 8000,
       .set_ptt_val true,
       .enqueue .input [5], .enqueue_zeroes .input 1,
       .dequeue .input 2 [5, 0], .transmit [5, 0] [5, 0], .enqueue .output [5, 0],
       .dequeue .output 2 [5, 0]] }

/-- The state eight callbacks `block2` after `prompt_state`. -/
def prompt_done_state : State Unit :=
  { crypto_tx := ()
    input_resampler := ⟨8000, 8000, [], []⟩
    output_resampler := ⟨8000, 8000, [], [0, 0, 0, 0, 0, 0]⟩
    tts_file := [5]
    tts_buffer := []
    play_wav := 0
    sig_ptt_val := 0
    ptt_in_line := false
    ptt_out_line := true
    prev_val := 1
    delay_periods := 0
    transmitting_prev := false }

/-- A callback of 715827883 frames, for which `nframes * 6` wraps to 2 in
32 bits. -/
def wrap_block : Input :=
  { block2 with nframes := 715827883, modem_resampled_frames := 715827883 }

/-! ## Reloading the session: `initialize_crypto` and `main` of jack_crypto_tx.cpp -/

/-- The owning pointers `crypto_tx`, `input_resampler` and `output_resampler`
of `jack_crypto_tx.cpp` as the main thread sees them; `none` is `nullptr`. -/
structure Session (σ : Type) where
  crypto_tx : Option σ
  input_resampler : Option resampler
  output_resampler : Option resampler

/-- How the reload branch of the main loop ends: the client is activated again
with the pointers `p`, or the process exits with `status` while the pointers
are `p`. -/
inductive Reload (σ : Type) where
  | activated (p : Session σ)
  | exited (status : Nat) (p : Session σ)

/-- Lines 377-396: `initialize_crypto`. `construct` is the outcome of
`new crypto_tx_common("crypto_tx", config_file)`: the new session, or `none`
when the constructor throws. The result is `.error p` when the exception leaves
the function with the pointers `p`. A newly constructed converter has nothing
queued and no rates set. -/
def initialize_crypto (construct : Option σ) (p : Session σ) :
    Except (Session σ) (Session σ) :=
  let p1 := { p with crypto_tx := none }
  let p2 := { p1 with input_resampler := none }
  let p3 := { p2 with output_resampler := none }
  match construct with
  | none => .error p3
  | some k =>
    let p4 := { p3 with crypto_tx := some k }
    let p5 := { p4 with input_resampler := some ⟨0, 0, [], []⟩ }
    .ok { p5 with output_resampler := some ⟨0, 0, [], []⟩ }

/-- Lines 549-564 of `main`: the reload branch. After `jack_deactivate`,
`crypto_tx = nullptr`, then `initialize_crypto()` inside `try`; the handler
calls `exit(1)`. -/
def reload (construct : Option σ) (p : Session σ) : Reload σ :=
  match initialize_crypto construct { p with crypto_tx := none } with
  | .error q => .exited 1 q
  | .ok q => .activated q

/-- A callback like `block2` configured for hardware PTT. -/
def block2_hardware : Input :=
  { block2 with cfg := hardware_ptt }

/-- The codec applied to a sequence of speech frames, one `transmit` call per
frame: the session state afterwards and the modem frames it gave, in order. -/
def encode_all (K : Codec σ) : σ → List (List Int) → σ × List (List Int)
  | k, [] => (k, [])
  | k, f :: fs =>
    ((encode_all K (K.transmit k f).1 fs).1,
     (K.transmit k f).2 :: (encode_all K (K.transmit k f).1 fs).2)

/-- The output converter a transmitting callback starts from: the one of the
state with the current rates, primed and cleared on a rising edge. -/
def output_at_entry (C : Converter) (s : State σ) (i : Input) : resampler :=
  if s.transmitting_prev then
    s.output_resampler.set_sample_rates i.modem_sample_rate i.jack_sample_rate
  else
    ((s.output_resampler.set_sample_rates i.modem_sample_rate i.jack_sample_rate).enqueue_zeroes
      C i.n_nom_modem_samples).clear

/-- A callback like `block2` of 4294967295 frames, the largest value of
`jack_nframes_t`. -/
def block_max : Input :=
  { block2 with nframes := 4294967295 }

/-- A callback like `block2` for a codec whose `speech_samples_per_frame()` is
0. -/
def block2_unframed : Input :=
  { block2 with n_speech_samples := 0 }

/-! ## Supporting lemmas: traces and the frame of each stage -/

theorem ptt_events_append (a b : List Event) :
    ptt_events (a ++ b) = ptt_events a ++ ptt_events b := by
  simp [ptt_events]

theorem out_dequeued_append (a b : List Event) :
    out_dequeued (a ++ b) = out_dequeued a ++ out_dequeued b := by
  induction a with
  | nil => rfl
  | cons e a ih =>
    cases e <;> simp [out_dequeued, ih]
    rename_i r n got
    cases r <;> simp [out_dequeued, ih]

theorem ptt_events_of_codec_steps (evs : List Event)
    (h : ∀ e ∈ evs, is_codec_step e = true) : ptt_events evs = [] := by
  induction evs with
  | nil => rfl
  | cons e evs ih =>
    have he := h e (List.mem_cons_self _ _)
    have ht := ih (fun x hx => h x (List.mem_cons_of_mem _ hx))
    cases e <;> simp_all [ptt_events, is_ptt, is_codec_step]

theorem out_dequeued_of_codec_steps (evs : List Event)
    (h : ∀ e ∈ evs, is_codec_step e = true) : out_dequeued evs = [] := by
  induction evs with
  | nil => rfl
  | cons e evs ih =>
    have he := h e (List.mem_cons_self _ _)
    have ht := ih (fun x hx => h x (List.mem_cons_of_mem _ hx))
    cases e <;> simp_all [out_dequeued, is_codec_step]
    rename_i r n got
    cases r <;> simp_all [out_dequeued, is_codec_step]

theorem microphone_enabled_no_ptt (cfg : config) (v : Int) (l : Bool) (r : Int) :
    ptt_events (microphone_enabled cfg v l r).2 = [] := by
  unfold microphone_enabled
  split
  · rfl
  · split
    · split <;> rfl
    · rfl

theorem microphone_enabled_no_out_dequeue (cfg : config) (v : Int) (l : Bool) (r : Int) :
    out_dequeued (microphone_enabled cfg v l r).2 = [] := by
  unfold microphone_enabled
  split
  · rfl
  · split
    · split <;> rfl
    · rfl

theorem encode_loop_codec_steps (C : Converter) (K : Codec σ) (n : Nat) :
    ∀ (fuel : Nat) (inr outr : resampler) (k : σ) (r : resampler × resampler × σ × List Event),
      encode_loop C K n fuel inr outr k = .ok r → ∀ e ∈ r.2.2.2, is_codec_step e = true := by
  intro fuel
  induction fuel with
  | zero => intro inr outr k r h; simp [encode_loop] at h
  | succ fuel ih =>
    intro inr outr k r h
    unfold encode_loop at h
    split at h
    · split at h
      · simp at h
      · dsimp only at h
        split at h
        · simp at h
        · rename_i h2
          have := ih _ _ _ _ h2
          simp only [Except.ok.injEq] at h
          subst h
          intro e he
          simp only [List.cons_append, List.nil_append, List.mem_cons] at he
          rcases he with rfl | rfl | rfl | he
          · rfl
          · rfl
          · rfl
          · exact this e he
    · simp only [Except.ok.injEq] at h
      subst h
      simp

theorem drain_loop_codec_steps (C : Converter) (K : Codec σ) (n : Nat) :
    ∀ (fuel : Nat) (inr outr : resampler) (k : σ) (r : resampler × resampler × σ × List Event),
      drain_loop C K n fuel inr outr k = .ok r → ∀ e ∈ r.2.2.2, is_codec_step e = true := by
  intro fuel
  induction fuel with
  | zero => intro inr outr k r h; simp [drain_loop] at h
  | succ fuel ih =>
    intro inr outr k r h
    unfold drain_loop at h
    split at h
    · split at h
      · simp at h
      · dsimp only at h
        split at h
        · simp at h
        · rename_i h2
          have := ih _ _ _ _ h2
          simp only [Except.ok.injEq] at h
          subst h
          intro e he
          simp only [List.cons_append, List.nil_append, List.mem_cons] at he
          rcases he with rfl | rfl | rfl | he
          · rfl
          · rfl
          · rfl
          · exact this e he
    · simp only [Except.ok.injEq] at h
      subst h
      simp

theorem blend_fields (C : Converter) (s : State σ) (i : Input) (m : Bool) :
    (blend C s i m).1.delay_periods = s.delay_periods ∧
    (blend C s i m).1.prev_val = s.prev_val ∧
    (blend C s i m).1.ptt_out_line = s.ptt_out_line ∧
    (blend C s i m).1.ptt_in_line = s.ptt_in_line ∧
    (blend C s i m).1.sig_ptt_val = s.sig_ptt_val ∧
    (blend C s i m).1.play_wav = s.play_wav ∧
    (blend C s i m).1.tts_file = s.tts_file ∧
    (blend C s i m).1.transmitting_prev = s.transmitting_prev ∧
    (blend C s i m).1.output_resampler = s.output_resampler ∧
    (blend C s i m).1.crypto_tx = s.crypto_tx ∧
    (blend C s i m).1.tts_buffer = s.tts_buffer.drop (min s.tts_buffer.length i.nframes) ∧
    ptt_events (blend C s i m).2 = [] ∧
    out_dequeued (blend C s i m).2 = [] := by
  unfold blend
  by_cases h : min s.tts_buffer.length i.nframes > 0 <;> cases m <;>
    simp [h, ptt_events, is_ptt, out_dequeued]
  all_goals
    have h0 : min s.tts_buffer.length i.nframes = 0 := by omega
    rw [h0]
    rfl


theorem set_ptt_val_ptt_events (l : Bool) (p : Int) (v : Bool) (r : Int) :
    ptt_events (set_ptt_val l p v r).2 = (set_ptt_val l p v r).2 := by
  unfold set_ptt_val
  dsimp only
  split_ifs <;> rfl

theorem set_ptt_val_no_out_dequeue (l : Bool) (p : Int) (v : Bool) (r : Int) :
    out_dequeued (set_ptt_val l p v r).2 = [] := by
  unfold set_ptt_val
  dsimp only
  split_ifs <;> rfl

theorem transmit_output_ok {s s4 : State σ} {i : Input} {mf : List Int} {ev : List Event}
    (h : transmit_output s i = .ok (s4, mf, ev)) :
    s4.delay_periods = s.delay_periods ∧ s4.prev_val = s.prev_val ∧
    s4.ptt_out_line = s.ptt_out_line ∧ s4.ptt_in_line = s.ptt_in_line ∧
    s4.sig_ptt_val = s.sig_ptt_val ∧ s4.play_wav = s.play_wav ∧
    s4.tts_file = s.tts_file ∧ s4.tts_buffer = s.tts_buffer ∧
    s4.input_resampler = s.input_resampler ∧ s4.crypto_tx = s.crypto_tx ∧
    s4.transmitting_prev = s.transmitting_prev ∧
    ptt_events ev = [] ∧ i.nframes ≠ 0 ∧
    ((required_elems i ≤ s.output_resampler.available_elems ∧
        i.nframes ≤ s.output_resampler.available_elems ∧
        mf = s.output_resampler.ready.take i.nframes ∧
        s4.output_resampler = { s.output_resampler with
          ready := s.output_resampler.ready.drop i.nframes } ∧
        ev = [.dequeue .output i.nframes mf]) ∨
     (s.output_resampler.available_elems < required_elems i ∧
        mf = List.replicate i.nframes 0 ∧ s4.output_resampler = s.output_resampler ∧
        ev = [])) := by
  unfold transmit_output at h
  split at h
  · simp at h
  · rename_i hn
    split at h
    · rename_i hreq
      unfold resampler.dequeue at h
      split at h
      · simp at h
      · rename_i got outr hd
        split at hd
        · rename_i hle
          simp only [Except.ok.injEq, Prod.mk.injEq] at hd h
          obtain ⟨rfl, rfl⟩ := hd
          obtain ⟨rfl, rfl, rfl⟩ := h
          simp [ptt_events, is_ptt, hn, hle]
          exact hreq
        · simp at hd
    · rename_i hreq
      simp only [Except.ok.injEq, Prod.mk.injEq] at h
      obtain ⟨rfl, rfl, rfl⟩ := h
      simp [ptt_events, hn]
      omega


theorem prime_fields (C : Converter) (s : State σ) (i : Input) :
    (prime C s i).1.delay_periods = s.delay_periods ∧
    (prime C s i).1.prev_val = s.prev_val ∧
    (prime C s i).1.ptt_out_line = s.ptt_out_line ∧
    (prime C s i).1.ptt_in_line = s.ptt_in_line ∧
    (prime C s i).1.sig_ptt_val = s.sig_ptt_val ∧
    (prime C s i).1.play_wav = s.play_wav ∧
    (prime C s i).1.tts_file = s.tts_file ∧
    (prime C s i).1.tts_buffer = s.tts_buffer ∧
    (prime C s i).1.crypto_tx = s.crypto_tx ∧
    ptt_events (prime C s i).2 = [] ∧
    out_dequeued (prime C s i).2 = [] := by
  simp [prime, ptt_events, is_ptt, out_dequeued]

theorem tx_front_fields (C : Converter) (s : State σ) (i : Input) (m : Bool) :
    (tx_front C s i m).1.delay_periods = 0 ∧
    (tx_front C s i m).1.prev_val =
      (set_ptt_val s.ptt_out_line s.prev_val true i.gpiod_set_result).1 ∧
    (tx_front C s i m).1.ptt_out_line = s.ptt_out_line ∧
    (tx_front C s i m).1.ptt_in_line = s.ptt_in_line ∧
    (tx_front C s i m).1.sig_ptt_val = s.sig_ptt_val ∧
    (tx_front C s i m).1.play_wav = s.play_wav ∧
    (tx_front C s i m).1.tts_file = s.tts_file ∧
    (tx_front C s i m).1.tts_buffer =
      s.tts_buffer.drop (min s.tts_buffer.length i.nframes) ∧
    (tx_front C s i m).1.crypto_tx = s.crypto_tx ∧
    ptt_events (tx_front C s i m).2 =
      (set_ptt_val s.ptt_out_line s.prev_val true i.gpiod_set_result).2 ∧
    out_dequeued (tx_front C s i m).2 = [] := by
  unfold tx_front
  dsimp only
  cases hp : s.transmitting_prev
  · simp [blend_fields, prime_fields, ptt_events_append, out_dequeued_append,
      set_ptt_val_ptt_events, set_ptt_val_no_out_dequeue]
  · have e1 : ptt_events [] = [] := rfl
    have e2 : out_dequeued [] = [] := rfl
    simp [blend_fields, ptt_events_append, out_dequeued_append,
      set_ptt_val_ptt_events, set_ptt_val_no_out_dequeue, e1, e2]

theorem transmitting_ok {C : Converter} {K : Codec σ} {s s4 : State σ} {i : Input}
    {m : Bool} {mf : List Int} {evs : List Event}
    (h : transmitting C K s i m = .ok (s4, mf, evs)) :
    ∃ inr outr k ev ev4,
      encode_loop C K i.n_speech_samples
        ((tx_front C s i m).1.input_resampler.available_elems + 1)
        (tx_front C s i m).1.input_resampler (tx_front C s i m).1.output_resampler
        (tx_front C s i m).1.crypto_tx = .ok (inr, outr, k, ev) ∧
      transmit_output { (tx_front C s i m).1 with
        input_resampler := inr, output_resampler := outr, crypto_tx := k } i
        = .ok (s4, mf, ev4) ∧
      evs = (tx_front C s i m).2 ++ ev ++ ev4 := by
  unfold transmitting at h
  dsimp only at h
  split at h
  · simp at h
  · rename_i inr outr k ev hl
    split at h
    · simp at h
    · rename_i s4' mf' ev4 ho
      simp only [Except.ok.injEq, Prod.mk.injEq] at h
      obtain ⟨rfl, rfl, rfl⟩ := h
      exact ⟨inr, outr, k, ev, ev4, hl, ho, rfl⟩

theorem transmitting_ptt {C : Converter} {K : Codec σ} {s s4 : State σ} {i : Input}
    {m : Bool} {mf : List Int} {evs : List Event}
    (h : transmitting C K s i m = .ok (s4, mf, evs)) :
    s4.delay_periods = 0 ∧
    s4.prev_val = (set_ptt_val s.ptt_out_line s.prev_val true i.gpiod_set_result).1 ∧
    s4.ptt_out_line = s.ptt_out_line ∧
    ptt_events evs = (set_ptt_val s.ptt_out_line s.prev_val true i.gpiod_set_result).2 := by
  obtain ⟨inr, outr, k, ev, ev4, hl, ho, rfl⟩ := transmitting_ok h
  have hf := tx_front_fields C s i m
  have ht := transmit_output_ok ho
  have hc := ptt_events_of_codec_steps _ (encode_loop_codec_steps C K _ _ _ _ _ _ hl)
  dsimp only at ht hc
  refine ⟨by rw [ht.1]; exact hf.1, by rw [ht.2.1]; exact hf.2.1,
    by rw [ht.2.2.1]; exact hf.2.2.1, ?_⟩
  rw [ptt_events_append, ptt_events_append, hc, ht.2.2.2.2.2.2.2.2.2.2.2.1,
    hf.2.2.2.2.2.2.2.2.2.1]
  simp


theorem hang_timer_fields (s : State σ) (i : Input) (af : Nat) :
    (hang_timer s i af).1.ptt_out_line = s.ptt_out_line ∧
    (hang_timer s i af).1.ptt_in_line = s.ptt_in_line ∧
    (hang_timer s i af).1.sig_ptt_val = s.sig_ptt_val ∧
    (hang_timer s i af).1.play_wav = s.play_wav ∧
    (hang_timer s i af).1.tts_file = s.tts_file ∧
    (hang_timer s i af).1.tts_buffer = s.tts_buffer ∧
    (hang_timer s i af).1.input_resampler = s.input_resampler ∧
    (hang_timer s i af).1.output_resampler = s.output_resampler ∧
    (hang_timer s i af).1.crypto_tx = s.crypto_tx ∧
    (hang_timer s i af).1.transmitting_prev = s.transmitting_prev ∧
    ptt_events (hang_timer s i af).2 = (hang_timer s i af).2 ∧
    out_dequeued (hang_timer s i af).2 = [] := by
  unfold hang_timer
  have e1 : ptt_events [] = [] := rfl
  have e2 : out_dequeued [] = [] := rfl
  split_ifs <;>
    simp [set_ptt_val_ptt_events, set_ptt_val_no_out_dequeue, e1, e2]

theorem hang_timer_congr (s t : State σ) (i : Input) (af : Nat)
    (h1 : s.ptt_out_line = t.ptt_out_line) (h2 : s.prev_val = t.prev_val)
    (h3 : s.delay_periods = t.delay_periods) :
    (hang_timer s i af).1.delay_periods = (hang_timer t i af).1.delay_periods ∧
    (hang_timer s i af).1.prev_val = (hang_timer t i af).1.prev_val ∧
    (hang_timer s i af).2 = (hang_timer t i af).2 := by
  unfold hang_timer
  rw [h1, h2, h3]
  split_ifs <;> simp [h2, h3]

theorem idle_output_eq (K : Codec σ) (s : State σ) (i : Input) :
    idle_output K s i =
      .ok ((hang_timer
              { s with
                output_resampler := { s.output_resampler with
                  ready := s.output_resampler.ready.drop
                    (min i.nframes s.output_resampler.available_elems) }
                crypto_tx := K.force_rekey_next_frame s.crypto_tx }
              i (min i.nframes s.output_resampler.available_elems)).1,
           s.output_resampler.ready.take (min i.nframes s.output_resampler.available_elems)
             ++ List.replicate (i.nframes - min i.nframes s.output_resampler.available_elems) 0,
           [.dequeue .output (min i.nframes s.output_resampler.available_elems)
              (s.output_resampler.ready.take (min i.nframes s.output_resampler.available_elems)),
            .force_rekey_next_frame] ++
           (hang_timer
              { s with
                output_resampler := { s.output_resampler with
                  ready := s.output_resampler.ready.drop
                    (min i.nframes s.output_resampler.available_elems) }
                crypto_tx := K.force_rekey_next_frame s.crypto_tx }
              i (min i.nframes s.output_resampler.available_elems)).2) := by
  unfold idle_output resampler.dequeue
  simp

theorem idle_output_ptt {K : Codec σ} {s s2 : State σ} {i : Input} {mf : List Int}
    {evs : List Event} (h : idle_output K s i = .ok (s2, mf, evs)) :
    s2.ptt_out_line = s.ptt_out_line ∧
    s2.delay_periods = (hang_timer s i (out_dequeued evs).length).1.delay_periods ∧
    s2.prev_val = (hang_timer s i (out_dequeued evs).length).1.prev_val ∧
    ptt_events evs = (hang_timer s i (out_dequeued evs).length).2 ∧
    (out_dequeued evs).length = min i.nframes s.output_resampler.available_elems ∧
    out_dequeued evs = s.output_resampler.ready.take (out_dequeued evs).length ∧
    s2.output_resampler.ready = s.output_resampler.ready.drop (out_dequeued evs).length ∧
    mf = out_dequeued evs ++ List.replicate (i.nframes - (out_dequeued evs).length) 0 := by
  rw [idle_output_eq] at h
  simp only [Except.ok.injEq, Prod.mk.injEq] at h
  obtain ⟨rfl, rfl, rfl⟩ := h
  have hlen : (s.output_resampler.ready.take
      (min i.nframes s.output_resampler.available_elems)).length
      = min i.nframes s.output_resampler.available_elems := by
    simp [resampler.available_elems]
  have hd : ∀ t : List Event, out_dequeued t = [] →
      out_dequeued ([Event.dequeue Side.output (min i.nframes s.output_resampler.available_elems)
              (s.output_resampler.ready.take (min i.nframes s.output_resampler.available_elems)),
            Event.force_rekey_next_frame] ++ t)
        = s.output_resampler.ready.take (min i.nframes s.output_resampler.available_elems) := by
    intro t ht
    simp [out_dequeued, ht]
  have hp : ∀ t : List Event, ptt_events ([Event.dequeue Side.output
      (min i.nframes s.output_resampler.available_elems)
      (s.output_resampler.ready.take (min i.nframes s.output_resampler.available_elems)),
      Event.force_rekey_next_frame] ++ t) = ptt_events t := by
    intro t
    simp [ptt_events, is_ptt]
  rw [hd _ (hang_timer_fields _ _ _).2.2.2.2.2.2.2.2.2.2.2, hp, hlen,
    (hang_timer_fields _ _ _).2.2.2.2.2.2.2.2.2.2.1]
  have hc := hang_timer_congr
    { s with
      output_resampler := { s.output_resampler with
        ready := s.output_resampler.ready.drop
          (min i.nframes s.output_resampler.available_elems) }
      crypto_tx := K.force_rekey_next_frame s.crypto_tx } s i
    (min i.nframes s.output_resampler.available_elems) rfl rfl rfl
  refine ⟨?_, hc.1, hc.2.1, hc.2.2, rfl, rfl, ?_, rfl⟩
  · rw [(hang_timer_fields _ _ _).1]
  · rw [(hang_timer_fields _ _ _).2.2.2.2.2.2.2.1]


theorem falling_edge_ok {C : Converter} {K : Codec σ} {s s1 : State σ} {i : Input}
    {ev1 : List Event} (h : falling_edge C K s i = .ok (s1, ev1)) :
    ∃ inr1 outr1 k1 ev,
      drain_loop C K i.n_speech_samples
        ((s.input_resampler.flush C ((i.n_speech_samples * 2) % 2 ^ 64)).available_elems + 1)
        (s.input_resampler.flush C ((i.n_speech_samples * 2) % 2 ^ 64))
        s.output_resampler s.crypto_tx = .ok (inr1, outr1, k1, ev) ∧
      s1 = { s with
              input_resampler := inr1
              output_resampler := outr1.flush C ((i.nframes * 2) % 2 ^ 32)
              crypto_tx := k1 } ∧
      ev1 = [.flush .input ((i.n_speech_samples * 2) % 2 ^ 64)] ++ ev ++
           [.flush .output ((i.nframes * 2) % 2 ^ 32)] := by
  unfold falling_edge at h
  dsimp only at h
  split at h
  · simp at h
  · rename_i inr1 outr1 k1 ev hl
    simp only [Except.ok.injEq, Prod.mk.injEq] at h
    obtain ⟨rfl, rfl⟩ := h
    exact ⟨inr1, outr1, k1, ev, hl, rfl, rfl⟩

theorem falling_edge_quiet {C : Converter} {K : Codec σ} {s s1 : State σ} {i : Input}
    {ev1 : List Event} (h : falling_edge C K s i = .ok (s1, ev1)) :
    s1.ptt_out_line = s.ptt_out_line ∧ s1.prev_val = s.prev_val ∧
    s1.delay_periods = s.delay_periods ∧ ptt_events ev1 = [] ∧ out_dequeued ev1 = [] := by
  obtain ⟨inr1, outr1, k1, ev, hl, rfl, rfl⟩ := falling_edge_ok h
  have hc := drain_loop_codec_steps C K _ _ _ _ _ _ hl
  dsimp only at hc
  refine ⟨rfl, rfl, rfl, ?_, ?_⟩
  · rw [ptt_events_append, ptt_events_append, ptt_events_of_codec_steps _ hc]
    rfl
  · rw [out_dequeued_append, out_dequeued_append, out_dequeued_of_codec_steps _ hc]
    rfl

theorem idle_ptt {C : Converter} {K : Codec σ} {s s2 : State σ} {i : Input}
    {mf : List Int} {evs : List Event} (h : idle C K s i = .ok (s2, mf, evs)) :
    s2.ptt_out_line = s.ptt_out_line ∧
    s2.delay_periods = (hang_timer s i (out_dequeued evs).length).1.delay_periods ∧
    s2.prev_val = (hang_timer s i (out_dequeued evs).length).1.prev_val ∧
    ptt_events evs = (hang_timer s i (out_dequeued evs).length).2 ∧
    (out_dequeued evs).length ≤ i.nframes ∧
    mf = out_dequeued evs ++ List.replicate (i.nframes - (out_dequeued evs).length) 0 := by
  unfold idle at h
  split at h
  · split at h
    · simp at h
    · rename_i s1 ev1 hf
      split at h
      · simp at h
      · rename_i s2' mf' ev2 ho
        simp only [Except.ok.injEq, Prod.mk.injEq] at h
        obtain ⟨rfl, rfl, rfl⟩ := h
        have hq := falling_edge_quiet hf
        have hi := idle_output_ptt ho
        have hc := hang_timer_congr s1 s i (out_dequeued ev2).length hq.1 hq.2.1 hq.2.2.1
        rw [out_dequeued_append, ptt_events_append, hq.2.2.2.1, hq.2.2.2.2]
        simp only [List.nil_append]
        refine ⟨hi.1.trans hq.1, hi.2.1.trans hc.1, hi.2.2.1.trans hc.2.1,
          hi.2.2.2.1.trans hc.2.2, ?_, hi.2.2.2.2.2.2.2⟩
        rw [hi.2.2.2.2.1]
        exact Nat.min_le_left _ _
  · have hi := idle_output_ptt h
    refine ⟨hi.1, hi.2.1, hi.2.2.1, hi.2.2.2.1, ?_, hi.2.2.2.2.2.2.2⟩
    rw [hi.2.2.2.2.1]
    exact Nat.min_le_left _ _

theorem play_trigger_fields (s : State σ) (n : Nat) :
    (play_trigger s n).ptt_out_line = s.ptt_out_line ∧
    (play_trigger s n).prev_val = s.prev_val ∧
    (play_trigger s n).delay_periods = s.delay_periods ∧
    (play_trigger s n).ptt_in_line = s.ptt_in_line ∧
    (play_trigger s n).sig_ptt_val = s.sig_ptt_val ∧
    (play_trigger s n).tts_file = s.tts_file ∧
    (play_trigger s n).crypto_tx = s.crypto_tx ∧
    (play_trigger s n).input_resampler = s.input_resampler ∧
    (play_trigger s n).output_resampler = s.output_resampler ∧
    (play_trigger s n).transmitting_prev = s.transmitting_prev := by
  unfold play_trigger
  split <;> simp

theorem entry_fields (s : State σ) (i : Input) :
    (entry s i).ptt_out_line = s.ptt_out_line ∧
    (entry s i).prev_val = s.prev_val ∧
    (entry s i).delay_periods = s.delay_periods ∧
    (entry s i).ptt_in_line = s.ptt_in_line ∧
    (entry s i).sig_ptt_val = s.sig_ptt_val ∧
    (entry s i).tts_file = s.tts_file ∧
    (entry s i).crypto_tx = s.crypto_tx ∧
    (entry s i).transmitting_prev = s.transmitting_prev ∧
    (entry s i).input_resampler =
      s.input_resampler.set_sample_rates i.jack_sample_rate i.voice_sample_rate ∧
    (entry s i).output_resampler =
      s.output_resampler.set_sample_rates i.modem_sample_rate i.jack_sample_rate := by
  unfold entry
  simp [play_trigger_fields]

theorem process_ok {C : Converter} {K : Codec σ} {s s' : State σ} {i : Input} {o : Output}
    (h : process C K s i = .ok (s', o)) :
    ∃ s3 ev,
      (if transmit_intent s i then
          transmitting C K (entry s i) i
            (microphone_enabled i.cfg s.sig_ptt_val s.ptt_in_line i.gpiod_get_result).1
        else idle C K (entry s i) i) = .ok (s3, o.modem_frames, ev) ∧
      s' = { s3 with transmitting_prev := transmit_intent s i } ∧
      o.transmitting_cur = transmit_intent s i ∧
      o.events =
        [.set_sample_rates .input i.jack_sample_rate i.voice_sample_rate,
         .set_sample_rates .output i.modem_sample_rate i.jack_sample_rate]
        ++ (microphone_enabled i.cfg s.sig_ptt_val s.ptt_in_line i.gpiod_get_result).2
        ++ ev := by
  unfold process at h
  dsimp only at h
  split at h
  · simp at h
  · rename_i s3 mf ev hb
    simp only [Except.ok.injEq, Prod.mk.injEq] at h
    obtain ⟨rfl, rfl⟩ := h
    exact ⟨s3, ev, hb, rfl, rfl, rfl⟩

/-- The push-to-talk view of one callback: what `process` does to the hang
timer, to `prev_val` and to the output line, in terms of `set_ptt_val` and
`hang_timer` applied to the state at entry. -/
theorem process_ptt {C : Converter} {K : Codec σ} {s s' : State σ} {i : Input} {o : Output}
    (h : process C K s i = .ok (s', o)) :
    o.transmitting_cur = transmit_intent s i ∧
    s'.transmitting_prev = transmit_intent s i ∧
    s'.ptt_out_line = s.ptt_out_line ∧
    (transmit_intent s i = true →
      s'.delay_periods = 0 ∧
      s'.prev_val = (set_ptt_val s.ptt_out_line s.prev_val true i.gpiod_set_result).1 ∧
      ptt_events o.events
        = (set_ptt_val s.ptt_out_line s.prev_val true i.gpiod_set_result).2) ∧
    (transmit_intent s i = false →
      s'.delay_periods = (hang_timer s i (out_dequeued o.events).length).1.delay_periods ∧
      s'.prev_val = (hang_timer s i (out_dequeued o.events).length).1.prev_val ∧
      ptt_events o.events = (hang_timer s i (out_dequeued o.events).length).2 ∧
      (out_dequeued o.events).length ≤ i.nframes ∧
      o.modem_frames = out_dequeued o.events ++
        List.replicate (i.nframes - (out_dequeued o.events).length) 0) := by
  obtain ⟨s3, ev, hb, rfl, hc, he⟩ := process_ok h
  have hE := entry_fields s i
  have hpe : ptt_events o.events = ptt_events ev := by
    rw [he, ptt_events_append, ptt_events_append, microphone_enabled_no_ptt]
    rfl
  have hde : out_dequeued o.events = out_dequeued ev := by
    rw [he, out_dequeued_append, out_dequeued_append, microphone_enabled_no_out_dequeue]
    rfl
  refine ⟨hc, rfl, ?_, ?_, ?_⟩
  · cases ht : transmit_intent s i
    · rw [ht] at hb
      simp only [Bool.false_eq_true, if_false] at hb
      exact (idle_ptt hb).1.trans hE.1
    · rw [ht] at hb
      simp only [if_true] at hb
      exact (transmitting_ptt hb).2.2.1.trans hE.1
  · intro ht
    rw [ht] at hb
    simp only [if_true] at hb
    have := transmitting_ptt hb
    rw [hE.1, hE.2.1] at this
    exact ⟨this.1, this.2.1, hpe.trans this.2.2.2⟩
  · intro ht
    rw [ht] at hb
    simp only [Bool.false_eq_true, if_false] at hb
    have := idle_ptt hb
    have hc := hang_timer_congr (entry s i) s i (out_dequeued ev).length hE.1 hE.2.1 hE.2.2.1
    rw [hde, hpe]
    exact ⟨this.2.1.trans hc.1, this.2.2.1.trans hc.2.1, this.2.2.2.1.trans hc.2.2,
      this.2.2.2.2.1, this.2.2.2.2.2⟩

/-! ## The helpers `set_ptt_val` and `microphone_enabled` (C4, C6) -/

theorem last_written_set_ptt_val (p : Int) (v : Bool) (r : Int) (rest : List Event) :
    last_written p ((set_ptt_val true p v r).2 ++ rest)
      = last_written (set_ptt_val true p v r).1 rest := by
  unfold set_ptt_val
  dsimp only
  split_ifs <;> simp_all [last_written]

theorem set_ptt_val_seq_last (calls : List (Bool × Int)) :
    ∀ p : Int, (set_ptt_val_seq p calls).1 = last_written p (set_ptt_val_seq p calls).2 := by
  induction calls with
  | nil => intro p; rfl
  | cons c calls ih =>
    intro p
    obtain ⟨v, r⟩ := c
    simp only [set_ptt_val_seq]
    rw [last_written_set_ptt_val]
    exact ih _

/-- C4. While an output line is configured, after any sequence of `set_ptt_val`
calls `prev_val` is the last level that was written successfully (-1 when
there is none). The next call issues a hardware write exactly when the
requested level differs from it; a call requesting that level issues no write
and keeps `prev_val`; a failed write keeps `prev_val`; a successful write makes
`prev_val` the requested level. -/
theorem set_ptt_val_minimal_writes (calls : List (Bool × Int)) (val : Bool) (set_result : Int) :
    (set_ptt_val_seq (-1) calls).1 = last_written (-1) (set_ptt_val_seq (-1) calls).2 ∧
    (set_ptt_val true (set_ptt_val_seq (-1) calls).1 val set_result).2 =
      (if level val = (set_ptt_val_seq (-1) calls).1 then [Event.set_ptt_val val]
       else [Event.set_ptt_val val, Event.gpiod_line_set_value (level val) set_result]) ∧
    (set_ptt_val true (set_ptt_val_seq (-1) calls).1 val set_result).1 =
      (if level val = (set_ptt_val_seq (-1) calls).1 then (set_ptt_val_seq (-1) calls).1
       else if set_result = 0 then level val
       else (set_ptt_val_seq (-1) calls).1) := by
  refine ⟨set_ptt_val_seq_last calls (-1), ?_, ?_⟩
  · generalize (set_ptt_val_seq (-1) calls).1 = p
    unfold set_ptt_val level
    cases val <;> dsimp only <;> split_ifs <;> first | rfl | (exfalso; omega) | simp_all
  · generalize (set_ptt_val_seq (-1) calls).1 = p
    unfold set_ptt_val level
    cases val <;> dsimp only <;> split_ifs <;> first | rfl | (exfalso; omega) | simp_all

/-- C6. With a hardware PTT input line open and software PTT not selected,
`microphone_enabled` returns true for every negative result of the line read,
after logging an error, and otherwise returns true exactly when the level read
is non-zero. -/
theorem microphone_enabled_read_error (cfg : config) (sig_ptt_val line_value : Int)
    (hsoft : ¬ (cfg.ptt_enabled ≠ 0 ∧ cfg.ptt_gpio_num < 0)) :
    (line_value < 0 →
      microphone_enabled cfg sig_ptt_val true line_value =
        (true, [Event.gpiod_line_get_value line_value,
                Event.log_error "Error reading PTT IO"])) ∧
    (0 ≤ line_value →
      microphone_enabled cfg sig_ptt_val true line_value =
        (decide (line_value ≠ 0), [Event.gpiod_line_get_value line_value])) := by
  unfold microphone_enabled
  rw [if_neg hsoft]
  constructor
  · intro h
    simp [h]
  · intro h
    have : ¬ line_value < 0 := by omega
    simp [this]

theorem microphone_enabled_read_error_witness :
    ¬ (hardware_ptt.ptt_enabled ≠ 0 ∧ hardware_ptt.ptt_gpio_num < 0) ∧
    ((-1 : Int) < 0 →
      microphone_enabled hardware_ptt 0 true (-1) =
        (true, [Event.gpiod_line_get_value (-1),
                Event.log_error "Error reading PTT IO"])) ∧
    ((0 : Int) ≤ -1 →
      microphone_enabled hardware_ptt 0 true (-1) =
        (decide ((-1 : Int) ≠ 0), [Event.gpiod_line_get_value (-1)])) :=
  ⟨by decide, microphone_enabled_read_error hardware_ptt 0 (-1) (by decide)⟩

/-! ## Transmit-intent and the branch taken (C5) -/

theorem mem_ptt_events {e : Event} {evs : List Event} :
    e ∈ ptt_events evs ↔ e ∈ evs ∧ is_ptt e = true := by
  simp [ptt_events]

theorem set_ptt_val_true_events (l : Bool) (p r : Int) :
    Event.set_ptt_val true ∈ (set_ptt_val l p true r).2 ∧
    Event.set_ptt_val false ∉ (set_ptt_val l p true r).2 ∧
    ∀ x, Event.gpiod_line_set_value 0 x ∉ (set_ptt_val l p true r).2 := by
  unfold set_ptt_val
  dsimp only
  split_ifs <;> simp_all

theorem set_ptt_val_false_events (l : Bool) (p r : Int) :
    Event.set_ptt_val true ∉ (set_ptt_val l p false r).2 := by
  unfold set_ptt_val
  dsimp only
  split_ifs <;> simp_all

theorem hang_timer_no_true (s : State σ) (i : Input) (af : Nat) :
    Event.set_ptt_val true ∉ (hang_timer s i af).2 := by
  unfold hang_timer
  split_ifs
  · exact set_ptt_val_false_events _ _ _
  · simp
  · simp

theorem deliver_fields (s : State σ) (a : Async) :
    (deliver s a).ptt_out_line = s.ptt_out_line ∧
    (deliver s a).prev_val = s.prev_val ∧
    (deliver s a).delay_periods = s.delay_periods ∧
    (deliver s a).transmitting_prev = s.transmitting_prev ∧
    (deliver s a).input_resampler = s.input_resampler ∧
    (deliver s a).output_resampler = s.output_resampler ∧
    (deliver s a).crypto_tx = s.crypto_tx ∧
    (deliver s a).tts_buffer = s.tts_buffer ∧
    (deliver s a).ptt_in_line = s.ptt_in_line := by
  have hit : ∀ (n : Nat) (t : State σ),
      (Nat.iterate handle_sigptt n t).ptt_out_line = t.ptt_out_line ∧
      (Nat.iterate handle_sigptt n t).prev_val = t.prev_val ∧
      (Nat.iterate handle_sigptt n t).delay_periods = t.delay_periods ∧
      (Nat.iterate handle_sigptt n t).transmitting_prev = t.transmitting_prev ∧
      (Nat.iterate handle_sigptt n t).input_resampler = t.input_resampler ∧
      (Nat.iterate handle_sigptt n t).output_resampler = t.output_resampler ∧
      (Nat.iterate handle_sigptt n t).crypto_tx = t.crypto_tx ∧
      (Nat.iterate handle_sigptt n t).tts_buffer = t.tts_buffer ∧
      (Nat.iterate handle_sigptt n t).ptt_in_line = t.ptt_in_line := by
    intro n
    induction n with
    | zero => intro t; simp
    | succ n ih =>
      intro t
      rw [Function.iterate_succ_apply]
      have := ih (handle_sigptt t)
      simpa [handle_sigptt] using this
  unfold deliver
  dsimp only
  split
  · exact hit _ _
  · simpa using hit a.sigptt s

theorem run_cons_ok {C : Converter} {K : Codec σ} {s s' : State σ} {a : Async} {i : Input}
    {rest : List (Async × Input)} {outs : List Output}
    (h : run C K s ((a, i) :: rest) = .ok (s', outs)) :
    ∃ s1 o os, process C K (deliver s a) i = .ok (s1, o) ∧
      run C K s1 rest = .ok (s', os) ∧ outs = o :: os := by
  simp only [run] at h
  split at h
  · simp at h
  · rename_i s1 o hp
    split at h
    · simp at h
    · rename_i s2 os hr
      simp only [Except.ok.injEq, Prod.mk.injEq] at h
      obtain ⟨rfl, rfl⟩ := h
      exact ⟨s1, o, os, hp, hr, rfl⟩

theorem run_nil_ok {C : Converter} {K : Codec σ} {s s' : State σ} {outs : List Output}
    (h : run C K s [] = .ok (s', outs)) : s' = s ∧ outs = [] := by
  simp only [run, Except.ok.injEq, Prod.mk.injEq] at h
  exact ⟨h.1.symm, h.2.symm⟩

theorem set_ptt_val_no_rekey (l : Bool) (p : Int) (v : Bool) (r : Int) :
    Event.force_rekey_next_frame ∉ (set_ptt_val l p v r).2 := by
  unfold set_ptt_val
  dsimp only
  split_ifs <;> simp

theorem microphone_enabled_no_rekey (cfg : config) (v : Int) (l : Bool) (r : Int) :
    Event.force_rekey_next_frame ∉ (microphone_enabled cfg v l r).2 := by
  unfold microphone_enabled
  split_ifs <;> simp

theorem codec_steps_no_rekey (evs : List Event)
    (h : ∀ e ∈ evs, is_codec_step e = true) : Event.force_rekey_next_frame ∉ evs := by
  intro hm
  have := h _ hm
  simp [is_codec_step] at this

theorem tx_front_no_rekey (C : Converter) (s : State σ) (i : Input) (m : Bool) :
    Event.force_rekey_next_frame ∉ (tx_front C s i m).2 := by
  unfold tx_front
  dsimp only
  simp only [List.mem_append, not_or]
  refine ⟨⟨?_, set_ptt_val_no_rekey _ _ _ _⟩, ?_⟩
  · split <;> simp [prime]
  · unfold blend
    dsimp only
    split_ifs <;> simp

theorem transmitting_no_rekey {C : Converter} {K : Codec σ} {s s4 : State σ} {i : Input}
    {m : Bool} {mf : List Int} {evs : List Event}
    (h : transmitting C K s i m = .ok (s4, mf, evs)) :
    Event.force_rekey_next_frame ∉ evs := by
  obtain ⟨inr, outr, k, ev, ev4, hl, ho, rfl⟩ := transmitting_ok h
  have hc := codec_steps_no_rekey _ (encode_loop_codec_steps C K _ _ _ _ _ _ hl)
  have ht := (transmit_output_ok ho).2.2.2.2.2.2.2.2.2.2.2.2.2
  dsimp only at hc
  simp only [List.mem_append, not_or]
  refine ⟨⟨tx_front_no_rekey C s i m, hc⟩, ?_⟩
  rcases ht with ⟨_, _, _, _, rfl⟩ | ⟨_, _, _, rfl⟩ <;> simp

theorem idle_rekey {C : Converter} {K : Codec σ} {s s2 : State σ} {i : Input}
    {mf : List Int} {evs : List Event} (h : idle C K s i = .ok (s2, mf, evs)) :
    Event.force_rekey_next_frame ∈ evs := by
  unfold idle at h
  split at h
  · split at h
    · simp at h
    · split at h
      · simp at h
      · rename_i s2' mf' ev2 ho
        simp only [Except.ok.injEq, Prod.mk.injEq] at h
        obtain ⟨rfl, rfl, rfl⟩ := h
        rw [idle_output_eq] at ho
        simp only [Except.ok.injEq, Prod.mk.injEq] at ho
        obtain ⟨_, _, rfl⟩ := ho
        simp
  · rw [idle_output_eq] at h
    simp only [Except.ok.injEq, Prod.mk.injEq] at h
    obtain ⟨_, _, rfl⟩ := h
    simp

/-- C5. In every callback that returns, `transmitting_cur` is
`microphone_enabled(cfg) || !tts_buffer.empty()` with the TTS buffer taken after
the play trigger of the same callback; the transmitting branch (which alone
calls `set_ptt_val(true)`) ran exactly when it is true, the idle branch (which
alone calls `force_rekey_next_frame`) exactly when it is false. A callback that
does not return faults in the branch this value selects. -/
theorem transmit_intent_selects_branch (C : Converter) (K : Codec σ) (s : State σ) (i : Input) :
    transmit_intent s i =
      ((microphone_enabled i.cfg s.sig_ptt_val s.ptt_in_line i.gpiod_get_result).1
        || decide ((play_trigger s i.nframes).tts_buffer ≠ [])) ∧
    (∀ f, process C K s i = .error f ↔
      (if transmit_intent s i then
          transmitting C K (entry s i) i
            (microphone_enabled i.cfg s.sig_ptt_val s.ptt_in_line i.gpiod_get_result).1
        else idle C K (entry s i) i) = .error f) ∧
    (∀ s' o, process C K s i = .ok (s', o) →
      o.transmitting_cur = transmit_intent s i ∧
      (Event.set_ptt_val true ∈ o.events ↔ o.transmitting_cur = true) ∧
      (Event.force_rekey_next_frame ∈ o.events ↔ o.transmitting_cur = false)) := by
  refine ⟨?_, ?_, ?_⟩
  · have hb : (entry s i).tts_buffer = (play_trigger s i.nframes).tts_buffer := by
      unfold entry play_trigger
      dsimp only
      split <;> rfl
    unfold transmit_intent
    rw [hb]
    cases (play_trigger s i.nframes).tts_buffer <;> simp
  · intro f
    unfold process
    dsimp only
    split
    · rename_i e he
      rw [he]
      simp
    · rename_i he
      rw [he]
      simp
  · intro s' o h
    have hp := process_ptt h
    obtain ⟨s3, ev, hb, -, hc, he⟩ := process_ok h
    refine ⟨hp.1, ?_, ?_⟩
    · cases ht : transmit_intent s i
      · have h2 := (hp.2.2.2.2 ht).2.2.1
        rw [hp.1, ht]
        simp only [Bool.false_eq_true, iff_false]
        intro hm
        have : Event.set_ptt_val true ∈ ptt_events o.events :=
          mem_ptt_events.2 ⟨hm, rfl⟩
        rw [h2] at this
        exact hang_timer_no_true _ _ _ this
      · have h2 := (hp.2.2.2.1 ht).2.2
        rw [hp.1, ht]
        simp only [iff_true]
        have : Event.set_ptt_val true ∈ ptt_events o.events := by
          rw [h2]
          exact (set_ptt_val_true_events _ _ _).1
        exact (mem_ptt_events.1 this).1
    · cases ht : transmit_intent s i
      · rw [ht] at hb
        simp only [Bool.false_eq_true, if_false] at hb
        rw [hp.1, ht, he]
        simp only [iff_true, List.mem_append]
        exact Or.inr (idle_rekey hb)
      · rw [ht] at hb
        simp only [if_true] at hb
        rw [hp.1, ht, he]
        simp only [Bool.true_eq_false, iff_false, List.mem_append, not_or]
        exact ⟨⟨by simp, microphone_enabled_no_rekey _ _ _ _⟩, transmitting_no_rekey hb⟩

theorem transmit_intent_selects_branch_witness :
    process passthrough loopback (deliver initial_state toggle) block2
      = .ok (keyed_state, keyed_output) ∧
    keyed_output.transmitting_cur = transmit_intent (deliver initial_state toggle) block2 ∧
    (Event.set_ptt_val true ∈ keyed_output.events ↔ keyed_output.transmitting_cur = true) ∧
    (Event.force_rekey_next_frame ∈ keyed_output.events
      ↔ keyed_output.transmitting_cur = false) :=
  ⟨rfl, (transmit_intent_selects_branch passthrough loopback
      (deliver initial_state toggle) block2).2.2 keyed_state keyed_output rfl⟩

/-! ## The dead-key hang timer (C1, C2, C3) -/

theorem hang_timer_below (s : State σ) (i : Input) (af : Nat)
    (h : s.delay_periods < PTT_DEAD_KEY_PERIODS) :
    (hang_timer s i af).2 = [] ∧
    (hang_timer s i af).1.delay_periods ≤ s.delay_periods + 1 ∧
    (hang_timer s i af).1.prev_val = s.prev_val := by
  unfold hang_timer
  unfold PTT_DEAD_KEY_PERIODS at h ⊢
  have h2 : (s.delay_periods + 1) % 2 ^ 32 = s.delay_periods + 1 := by
    apply Nat.mod_eq_of_lt
    omega
  split_ifs with h0 h1
  · omega
  · norm_num at h2 ⊢
    omega
  · simp

theorem run_append_ok {C : Converter} {K : Codec σ} :
    ∀ (os1 os2 : List Output) (steps : List (Async × Input)) (s s' : State σ),
      run C K s steps = .ok (s', os1 ++ os2) →
      ∃ st1 st2 smid, steps = st1 ++ st2 ∧ run C K s st1 = .ok (smid, os1) ∧
        run C K smid st2 = .ok (s', os2) := by
  intro os1
  induction os1 with
  | nil =>
    intro os2 steps s s' h
    exact ⟨[], steps, s, rfl, rfl, h⟩
  | cons o os1 ih =>
    intro os2 steps s s' h
    cases steps with
    | nil =>
      have := (run_nil_ok h).2
      simp at this
    | cons st rest =>
      obtain ⟨a, i⟩ := st
      obtain ⟨s1, o', os, hp, hr, ho⟩ := run_cons_ok h
      simp only [List.cons_append, List.cons.injEq] at ho
      obtain ⟨rfl, rfl⟩ := ho
      obtain ⟨st1, st2, smid, rfl, h1, h2⟩ := ih os2 rest s1 s' hr
      refine ⟨(a, i) :: st1, st2, smid, rfl, ?_, h2⟩
      simp only [run, hp, h1]

theorem run_single_ok {C : Converter} {K : Codec σ} {steps : List (Async × Input)}
    {s s' : State σ} {o : Output} (h : run C K s steps = .ok (s', [o])) :
    ∃ a i, steps = [(a, i)] ∧ process C K (deliver s a) i = .ok (s', o) := by
  cases steps with
  | nil =>
    have := (run_nil_ok h).2
    simp at this
  | cons st rest =>
    obtain ⟨a, i⟩ := st
    obtain ⟨s1, o', os, hp, hr, ho⟩ := run_cons_ok h
    simp only [List.cons.injEq] at ho
    obtain ⟨rfl, rfl⟩ := ho
    cases rest with
    | nil =>
      obtain ⟨rfl, -⟩ := run_nil_ok hr
      exact ⟨a, i, rfl, hp⟩
    | cons st2 rest2 =>
      obtain ⟨a2, i2⟩ := st2
      obtain ⟨_, _, _, _, _, ho2⟩ := run_cons_ok hr
      simp at ho2

/-- While the hang timer started low enough not to reach the threshold, a run
of idle callbacks makes no push-to-talk call at all. -/
theorem run_idle_hold {C : Converter} {K : Codec σ} :
    ∀ (steps : List (Async × Input)) (s s' : State σ) (outs : List Output),
      run C K s steps = .ok (s', outs) →
      (∀ o ∈ outs, o.transmitting_cur = false) →
      s.delay_periods + outs.length ≤ PTT_DEAD_KEY_PERIODS →
      s'.delay_periods ≤ s.delay_periods + outs.length ∧
      s'.prev_val = s.prev_val ∧
      ∀ o ∈ outs, ptt_events o.events = [] := by
  intro steps
  induction steps with
  | nil =>
    intro s s' outs h _ _
    obtain ⟨rfl, rfl⟩ := run_nil_ok h
    simp
  | cons st rest ih =>
    intro s s' outs h hidle hd
    obtain ⟨a, i⟩ := st
    obtain ⟨s1, o, os, hp, hr, rfl⟩ := run_cons_ok h
    have hD := deliver_fields s a
    have hP := process_ptt hp
    have ho : o.transmitting_cur = false := hidle o (List.mem_cons_self _ _)
    have hi : transmit_intent (deliver s a) i = false := by rw [← hP.1]; exact ho
    have hI := hP.2.2.2.2 hi
    simp only [List.length_cons] at hd ⊢
    have hlt : (deliver s a).delay_periods < PTT_DEAD_KEY_PERIODS := by
      rw [hD.2.2.1]; omega
    have hB := hang_timer_below (deliver s a) i (out_dequeued o.events).length hlt
    rw [hD.2.2.1, hD.2.1] at hB
    have h1d : s1.delay_periods ≤ s.delay_periods + 1 := by rw [hI.1]; exact hB.2.1
    have h1p : s1.prev_val = s.prev_val := by rw [hI.2.1]; exact hB.2.2
    have := ih s1 s' os hr (fun x hx => hidle x (List.mem_cons_of_mem _ hx)) (by omega)
    refine ⟨by omega, this.2.1.trans h1p, ?_⟩
    intro x hx
    rcases List.mem_cons.1 hx with rfl | hx
    · rw [hI.2.2.1]; exact hB.1
    · exact this.2.2 x hx

/-- C1. Starting right after a callback in which transmit-intent was true: if
transmit-intent is false for `k < PTT_DEAD_KEY_PERIODS` consecutive callbacks
and then true again, no callback of the run calls `set_ptt_val(false)` or
writes the de-asserted level to the output line, and the re-asserting callback
leaves `delay_periods` at 0. -/
theorem ptt_hysteresis_holds (C : Converter) (K : Codec σ) (s0 s1 s' : State σ) (i0 : Input)
    (o0 : Output) (k : Nat) (steps : List (Async × Input)) (idle_outs : List Output)
    (last : Output)
    (h0 : process C K s0 i0 = .ok (s1, o0)) (ht0 : o0.transmitting_cur = true)
    (hk : k < PTT_DEAD_KEY_PERIODS)
    (hrun : run C K s1 steps = .ok (s', idle_outs ++ [last]))
    (hlen : idle_outs.length = k)
    (hidle : ∀ o ∈ idle_outs, o.transmitting_cur = false)
    (hlast : last.transmitting_cur = true) :
    (∀ o ∈ idle_outs ++ [last],
      Event.set_ptt_val false ∉ o.events ∧
      ∀ r, Event.gpiod_line_set_value 0 r ∉ o.events) ∧
    s'.delay_periods = 0 := by
  have h0P := process_ptt h0
  have hd0 : s1.delay_periods = 0 := (h0P.2.2.2.1 (by rw [← h0P.1]; exact ht0)).1
  obtain ⟨st1, st2, smid, rfl, h1, h2⟩ := run_append_ok idle_outs [last] steps s1 s' hrun
  have hH := run_idle_hold st1 s1 smid idle_outs h1 hidle (by rw [hd0, hlen]; omega)
  obtain ⟨a, i, rfl, hp⟩ := run_single_ok h2
  have hP := process_ptt hp
  have hi : transmit_intent (deliver smid a) i = true := by rw [← hP.1]; exact hlast
  have hT := hP.2.2.2.1 hi
  refine ⟨?_, hT.1⟩
  intro o ho
  rcases List.mem_append.1 ho with ho | ho
  · have he := hH.2.2 o ho
    constructor
    · intro hm
      have : Event.set_ptt_val false ∈ ptt_events o.events := mem_ptt_events.2 ⟨hm, rfl⟩
      rw [he] at this
      simp at this
    · intro r hm
      have : Event.gpiod_line_set_value 0 r ∈ ptt_events o.events :=
        mem_ptt_events.2 ⟨hm, rfl⟩
      rw [he] at this
      simp at this
  · simp only [List.mem_singleton] at ho
    subst ho
    have hs := set_ptt_val_true_events (deliver smid a).ptt_out_line
      (deliver smid a).prev_val i.gpiod_set_result
    constructor
    · intro hm
      have : Event.set_ptt_val false ∈ ptt_events o.events := mem_ptt_events.2 ⟨hm, rfl⟩
      rw [hT.2.2] at this
      exact hs.2.1 this
    · intro r hm
      have : Event.gpiod_line_set_value 0 r ∈ ptt_events o.events :=
        mem_ptt_events.2 ⟨hm, rfl⟩
      rw [hT.2.2] at this
      exact hs.2.2 r this

/-- C3. In a callback that returns, if the hang-timer counter advanced, or
`set_ptt_val(false)` was called, or the de-asserted level was written to the
output line, then transmit-intent was false, no sample was dequeued from the
output converter (`available_frames == 0`), and the whole modem block is
zeros. -/
theorem deassert_only_when_drained (C : Converter) (K : Codec σ) (s s' : State σ) (i : Input)
    (o : Output) (h : process C K s i = .ok (s', o))
    (hev : s.delay_periods < s'.delay_periods ∨ Event.set_ptt_val false ∈ o.events ∨
      ∃ r, Event.gpiod_line_set_value 0 r ∈ o.events) :
    o.transmitting_cur = false ∧ out_dequeued o.events = [] ∧
    o.modem_frames = List.replicate i.nframes 0 := by
  have hP := process_ptt h
  cases ht : transmit_intent s i
  · have hI := hP.2.2.2.2 ht
    have haf : (out_dequeued o.events).length = 0 := by
      by_contra hne
      have hh : hang_timer s i (out_dequeued o.events).length = (s, []) := by
        unfold hang_timer
        rw [if_neg hne]
      rw [hh] at hI
      dsimp only at hI
      rcases hev with hlt | hm | ⟨r, hm⟩
      · rw [hI.1] at hlt; omega
      · have : Event.set_ptt_val false ∈ ptt_events o.events := mem_ptt_events.2 ⟨hm, rfl⟩
        rw [hI.2.2.1] at this
        simp at this
      · have : Event.gpiod_line_set_value 0 r ∈ ptt_events o.events :=
          mem_ptt_events.2 ⟨hm, rfl⟩
        rw [hI.2.2.1] at this
        simp at this
    have hnil : out_dequeued o.events = [] := List.length_eq_zero.1 haf
    refine ⟨by rw [hP.1, ht], hnil, ?_⟩
    rw [hI.2.2.2.2, hnil]
    simp
  · exfalso
    have hT := hP.2.2.2.1 ht
    have hs := set_ptt_val_true_events s.ptt_out_line s.prev_val i.gpiod_set_result
    rcases hev with hlt | hm | ⟨r, hm⟩
    · rw [hT.1] at hlt; omega
    · have : Event.set_ptt_val false ∈ ptt_events o.events := mem_ptt_events.2 ⟨hm, rfl⟩
      rw [hT.2.2] at this
      exact hs.2.1 this
    · have : Event.gpiod_line_set_value 0 r ∈ ptt_events o.events :=
        mem_ptt_events.2 ⟨hm, rfl⟩
      rw [hT.2.2] at this
      exact hs.2.2 r this

theorem deassert_writes_ptt_events (evs : List Event) :
    deassert_writes evs = deassert_writes (ptt_events evs) := by
  unfold deassert_writes ptt_events
  rw [List.filter_filter]
  congr 1
  apply List.filter_congr
  intro e _
  cases e <;> simp [is_ptt]

theorem hang_timer_writes (s : State σ) (i : Input) (af : Nat)
    (hl : s.ptt_out_line = true) (hr : i.gpiod_set_result = 0)
    (hd : s.delay_periods ≤ PTT_DEAD_KEY_PERIODS) :
    (hang_timer s i af).1.delay_periods ≤ PTT_DEAD_KEY_PERIODS ∧
    (hang_timer s i af).1.delay_periods =
      (if af = 0 ∧ s.delay_periods < PTT_DEAD_KEY_PERIODS then s.delay_periods + 1
       else s.delay_periods) ∧
    (hang_timer s i af).1.prev_val =
      (if af = 0 ∧ s.delay_periods = PTT_DEAD_KEY_PERIODS then 0 else s.prev_val) ∧
    deassert_writes (hang_timer s i af).2 =
      (if af = 0 ∧ s.delay_periods = PTT_DEAD_KEY_PERIODS ∧ s.prev_val ≠ 0 then 1 else 0) := by
  unfold hang_timer set_ptt_val
  unfold PTT_DEAD_KEY_PERIODS at hd ⊢
  rw [hl, hr]
  by_cases h0 : af = 0
  · by_cases h4 : s.delay_periods = 4
    · by_cases hp : s.prev_val = 0
      · simp [h0, h4, hp, deassert_writes]
      · simp [h0, h4, hp, deassert_writes]
    · have hlt : s.delay_periods < 4 := by omega
      have h2 : (s.delay_periods + 1) % 2 ^ 32 = s.delay_periods + 1 := by
        apply Nat.mod_eq_of_lt
        omega
      rw [if_pos h0, if_neg h4]
      dsimp only
      rw [h2, if_pos ⟨h0, hlt⟩, if_neg (fun h => h4 h.2), if_neg (fun h => h4 h.2.1)]
      exact ⟨by omega, rfl, rfl, rfl⟩
  · rw [if_neg h0, if_neg (fun h => h0 h.1), if_neg (fun h => h0 h.1),
      if_neg (fun h => h0 h.1)]
    exact ⟨hd, rfl, rfl, rfl⟩

/-- Over a run of idle callbacks with the output line open and every write
succeeding, the de-asserted level is written once if the line was not already
low and the hang timer passes the threshold, and never otherwise. -/
theorem run_idle_writes {C : Converter} {K : Codec σ} :
    ∀ (steps : List (Async × Input)) (s s' : State σ) (outs : List Output),
      run C K s steps = .ok (s', outs) →
      (∀ o ∈ outs, o.transmitting_cur = false) →
      (∀ st ∈ steps, st.2.gpiod_set_result = 0) →
      s.ptt_out_line = true →
      s.delay_periods ≤ PTT_DEAD_KEY_PERIODS →
      total_deassert_writes outs =
        (if s.prev_val ≠ 0 ∧
            PTT_DEAD_KEY_PERIODS + 1 ≤ s.delay_periods + drained_callbacks outs
         then 1 else 0) := by
  intro steps
  induction steps with
  | nil =>
    intro s s' outs h _ _ _ hd
    obtain ⟨rfl, rfl⟩ := run_nil_ok h
    have : ¬ (s'.prev_val ≠ 0 ∧
        PTT_DEAD_KEY_PERIODS + 1 ≤ s'.delay_periods + drained_callbacks []) := by
      intro hc
      have h2 := hc.2
      simp only [drained_callbacks, List.filter_nil, List.length_nil] at h2
      omega
    rw [if_neg this]
    rfl
  | cons st rest ih =>
    intro s s' outs h hidle hres hl hd
    obtain ⟨a, i⟩ := st
    obtain ⟨s1, o, os, hp, hr, rfl⟩ := run_cons_ok h
    have hD := deliver_fields s a
    have hP := process_ptt hp
    have ho : o.transmitting_cur = false := hidle o (List.mem_cons_self _ _)
    have hi : transmit_intent (deliver s a) i = false := by rw [← hP.1]; exact ho
    have hI := hP.2.2.2.2 hi
    have hW := hang_timer_writes (deliver s a) i (out_dequeued o.events).length
      (by rw [hD.1]; exact hl) (hres _ (List.mem_cons_self _ _))
      (by rw [hD.2.2.1]; exact hd)
    rw [hD.2.2.1, hD.2.1, ← hI.1, ← hI.2.1, ← hI.2.2.1, ← deassert_writes_ptt_events] at hW
    have hrec := ih s1 s' os hr (fun x hx => hidle x (List.mem_cons_of_mem _ hx))
      (fun x hx => hres x (List.mem_cons_of_mem _ hx))
      (by rw [hP.2.2.1, hD.1]; exact hl) hW.1
    have htot : total_deassert_writes (o :: os)
        = deassert_writes o.events + total_deassert_writes os := by
      simp [total_deassert_writes]
    have hdr : drained_callbacks (o :: os)
        = (if (out_dequeued o.events).length = 0 then 1 else 0) + drained_callbacks os := by
      unfold drained_callbacks
      by_cases hz : out_dequeued o.events = []
      · simp [hz, List.filter_cons]
        omega
      · have : (out_dequeued o.events).length ≠ 0 := by
          intro hc; exact hz (List.length_eq_zero.1 hc)
        simp [hz, this, List.filter_cons]
    rw [htot, hdr, hrec, hW.2.2.2, hW.2.2.1, hW.2.1]
    unfold PTT_DEAD_KEY_PERIODS at hd ⊢
    by_cases h0 : (out_dequeued o.events).length = 0
    · by_cases h4 : s.delay_periods = 4
      · by_cases hpv : s.prev_val = 0
        · simp [h0, h4, hpv]
        · have : 5 ≤ 4 + (1 + drained_callbacks os) := by omega
          simp [h0, h4, hpv, this]
      · have hlt : s.delay_periods < 4 := by omega
        simp only [h0, h4, hlt, and_false, and_true, if_true, if_false, true_and, false_and,
          zero_add]
        have e : s.delay_periods + 1 + drained_callbacks os
            = s.delay_periods + (1 + drained_callbacks os) := by omega
        rw [e]
    · simp [h0]

theorem ptt_hysteresis_holds_witness :
    process passthrough loopback (deliver initial_state toggle) block2
      = .ok (keyed_state, keyed_output) ∧
    keyed_output.transmitting_cur = true ∧
    1 < PTT_DEAD_KEY_PERIODS ∧
    run passthrough loopback keyed_state [(toggle, block2), (toggle, block2)]
      = .ok (keyed_state, [falling_output] ++ [rekeyed_output]) ∧
    [falling_output].length = 1 ∧
    (∀ o ∈ [falling_output], o.transmitting_cur = false) ∧
    rekeyed_output.transmitting_cur = true ∧
    ((∀ o ∈ [falling_output] ++ [rekeyed_output],
      Event.set_ptt_val false ∉ o.events ∧
      ∀ r, Event.gpiod_line_set_value 0 r ∉ o.events) ∧
     keyed_state.delay_periods = 0) :=
  ⟨rfl, rfl, by decide, rfl, rfl, by decide, rfl,
    ptt_hysteresis_holds passthrough loopback (deliver initial_state toggle) keyed_state
      keyed_state block2 keyed_output 1 [(toggle, block2), (toggle, block2)]
      [falling_output] rekeyed_output rfl rfl (by decide) rfl rfl (by decide) rfl⟩

theorem deassert_only_when_drained_witness :
    process passthrough loopback initial_state block2
      = .ok (unkeyed_state 1 (-1), idle_empty_output) ∧
    (initial_state.delay_periods < (unkeyed_state 1 (-1)).delay_periods ∨
      Event.set_ptt_val false ∈ idle_empty_output.events ∨
      ∃ r, Event.gpiod_line_set_value 0 r ∈ idle_empty_output.events) ∧
    (idle_empty_output.transmitting_cur = false ∧
     out_dequeued idle_empty_output.events = [] ∧
     idle_empty_output.modem_frames = List.replicate block2.nframes 0) :=
  ⟨rfl, Or.inl (by decide),
    deassert_only_when_drained passthrough loopback initial_state (unkeyed_state 1 (-1)) block2
      idle_empty_output rfl (Or.inl (by decide))⟩

/-- C2, as amended. Starting right after a transmitting callback with the PTT
output line open and asserted: over any number of consecutive idle callbacks
in which every hardware write succeeds, the de-asserted level is written to the
line exactly once if at least `PTT_DEAD_KEY_PERIODS + 1` of those callbacks
found nothing to dequeue from the output converter, and not at all
otherwise. -/
theorem deassert_exactly_once (C : Converter) (K : Codec σ) (s0 s1 s' : State σ) (i0 : Input)
    (o0 : Output) (steps : List (Async × Input)) (outs : List Output)
    (h0 : process C K s0 i0 = .ok (s1, o0)) (ht0 : o0.transmitting_cur = true)
    (hline : s1.ptt_out_line = true) (hasserted : s1.prev_val = 1)
    (hrun : run C K s1 steps = .ok (s', outs))
    (hidle : ∀ o ∈ outs, o.transmitting_cur = false)
    (hres : ∀ st ∈ steps, st.2.gpiod_set_result = 0) :
    total_deassert_writes outs =
      (if PTT_DEAD_KEY_PERIODS + 1 ≤ drained_callbacks outs then 1 else 0) := by
  have h0P := process_ptt h0
  have hd0 : s1.delay_periods = 0 := (h0P.2.2.2.1 (by rw [← h0P.1]; exact ht0)).1
  have := run_idle_writes steps s1 s' outs hrun hidle hres hline (by rw [hd0]; exact Nat.zero_le _)
  rw [this, hd0, hasserted]
  simp

theorem deassert_exactly_once_witness :
    process dry loopback (deliver initial_state toggle) block2
      = .ok (keyed_state, keyed_output) ∧
    keyed_output.transmitting_cur = true ∧
    keyed_state.ptt_out_line = true ∧
    keyed_state.prev_val = 1 ∧
    run dry loopback keyed_state
        [(toggle, block2), (quiet, block2), (quiet, block2), (quiet, block2), (quiet, block2)]
      = .ok (unkeyed_state 4 0,
          [falling_dry_output, idle_empty_output, idle_empty_output, idle_empty_output,
           release_output]) ∧
    (∀ o ∈ [falling_dry_output, idle_empty_output, idle_empty_output, idle_empty_output,
           release_output], o.transmitting_cur = false) ∧
    (∀ st ∈ [(toggle, block2), (quiet, block2), (quiet, block2), (quiet, block2),
           (quiet, block2)], st.2.gpiod_set_result = 0) ∧
    total_deassert_writes
        [falling_dry_output, idle_empty_output, idle_empty_output, idle_empty_output,
         release_output] =
      (if PTT_DEAD_KEY_PERIODS + 1 ≤ drained_callbacks
          [falling_dry_output, idle_empty_output, idle_empty_output, idle_empty_output,
           release_output] then 1 else 0) :=
  ⟨rfl, rfl, rfl, rfl, rfl, by decide, by simp [block2],
    deassert_exactly_once dry loopback (deliver initial_state toggle) keyed_state
      (unkeyed_state 4 0) block2 keyed_output
      [(toggle, block2), (quiet, block2), (quiet, block2), (quiet, block2), (quiet, block2)]
      [falling_dry_output, idle_empty_output, idle_empty_output, idle_empty_output,
       release_output]
      rfl rfl rfl rfl rfl (by decide) (by simp [block2])⟩

/-- C2 fails as stated. After a transmitting callback that left the PTT line
asserted and the output converter empty, `PTT_DEAD_KEY_PERIODS = 4` consecutive
idle callbacks, each finding the output converter empty and with every
hardware write succeeding, write the de-asserted level zero times: the fourth
callback only brings `delay_periods` to 4. With the converter `passthrough`,
whose flush emits the zeros pushed through it, eight idle callbacks still make
no such write, and the ninth makes it. -/
theorem deassert_not_within_threshold :
    process dry loopback (deliver initial_state toggle) block2
      = .ok (keyed_state, keyed_output) ∧
    keyed_output.transmitting_cur = true ∧
    keyed_state.prev_val = 1 ∧
    keyed_state.output_resampler.available_elems = 0 ∧
    run dry loopback keyed_state
        [(toggle, block2), (quiet, block2), (quiet, block2), (quiet, block2)]
      = .ok (unkeyed_state 4 1,
          [falling_dry_output, idle_empty_output, idle_empty_output, idle_empty_output]) ∧
    total_deassert_writes
        [falling_dry_output, idle_empty_output, idle_empty_output, idle_empty_output] = 0 ∧
    (run passthrough loopback keyed_state
        [(toggle, block2), (quiet, block2), (quiet, block2), (quiet, block2),
         (quiet, block2), (quiet, block2), (quiet, block2), (quiet, block2)]).toOption.map
      (fun r => (r.2.map Output.transmitting_cur, total_deassert_writes r.2))
      = some ([false, false, false, false, false, false, false, false], 0) ∧
    (run passthrough loopback keyed_state
        [(toggle, block2), (quiet, block2), (quiet, block2), (quiet, block2),
         (quiet, block2), (quiet, block2), (quiet, block2), (quiet, block2),
         (quiet, block2)]).toOption.map
      (fun r => (r.2.map Output.transmitting_cur, total_deassert_writes r.2))
      = some ([false, false, false, false, false, false, false, false, false], 1) :=
  ⟨rfl, rfl, rfl, rfl, rfl, rfl, rfl, rfl⟩

/-! ## Priming on the rising edge (C7) -/

theorem set_ptt_val_no_clear (l : Bool) (p : Int) (v : Bool) (r : Int) (q : Side) :
    Event.clear q ∉ (set_ptt_val l p v r).2 := by
  unfold set_ptt_val
  dsimp only
  split_ifs <;> simp

theorem microphone_enabled_no_clear (cfg : config) (v : Int) (l : Bool) (r : Int) (q : Side) :
    Event.clear q ∉ (microphone_enabled cfg v l r).2 := by
  unfold microphone_enabled
  split_ifs <;> simp

theorem codec_steps_no_clear (evs : List Event)
    (h : ∀ e ∈ evs, is_codec_step e = true) (q : Side) : Event.clear q ∉ evs := by
  intro hm
  have := h _ hm
  simp [is_codec_step] at this

theorem blend_no_clear (C : Converter) (s : State σ) (i : Input) (m : Bool) (q : Side) :
    Event.clear q ∉ (blend C s i m).2 := by
  unfold blend
  dsimp only
  split_ifs <;> simp

theorem hang_timer_no_clear (s : State σ) (i : Input) (af : Nat) (q : Side) :
    Event.clear q ∉ (hang_timer s i af).2 := by
  unfold hang_timer
  split_ifs
  · exact set_ptt_val_no_clear _ _ _ _ _
  · simp
  · simp

theorem idle_output_no_clear {K : Codec σ} {s s2 : State σ} {i : Input} {mf : List Int}
    {evs : List Event} (h : idle_output K s i = .ok (s2, mf, evs)) (q : Side) :
    Event.clear q ∉ evs := by
  rw [idle_output_eq] at h
  simp only [Except.ok.injEq, Prod.mk.injEq] at h
  obtain ⟨_, _, rfl⟩ := h
  simp only [List.cons_append, List.nil_append, List.mem_cons, not_or]
  exact ⟨by simp, by simp, hang_timer_no_clear _ _ _ _⟩

theorem idle_no_clear {C : Converter} {K : Codec σ} {s s2 : State σ} {i : Input}
    {mf : List Int} {evs : List Event} (h : idle C K s i = .ok (s2, mf, evs)) (q : Side) :
    Event.clear q ∉ evs := by
  unfold idle at h
  split at h
  · split at h
    · simp at h
    · rename_i s1 ev1 hf
      split at h
      · simp at h
      · rename_i s2' mf' ev2 ho
        simp only [Except.ok.injEq, Prod.mk.injEq] at h
        obtain ⟨rfl, rfl, rfl⟩ := h
        obtain ⟨inr1, outr1, k1, ev, hl, rfl, rfl⟩ := falling_edge_ok hf
        have hc := codec_steps_no_clear _ (drain_loop_codec_steps C K _ _ _ _ _ _ hl) q
        dsimp only at hc
        simp only [List.mem_append, not_or]
        exact ⟨⟨⟨by simp, hc⟩, by simp⟩, idle_output_no_clear ho q⟩
  · exact idle_output_no_clear h q

theorem transmit_output_no_clear {s s4 : State σ} {i : Input} {mf : List Int}
    {ev : List Event} (h : transmit_output s i = .ok (s4, mf, ev)) (q : Side) :
    Event.clear q ∉ ev := by
  rcases (transmit_output_ok h).2.2.2.2.2.2.2.2.2.2.2.2.2 with
    ⟨_, _, _, _, rfl⟩ | ⟨_, _, _, rfl⟩ <;> simp

theorem prime_resets (C : Converter) (s : State σ) (i : Input) :
    (prime C s i).1.input_resampler =
      ⟨s.input_resampler.in_rate, s.input_resampler.out_rate, [], []⟩ ∧
    (prime C s i).1.output_resampler =
      ⟨s.output_resampler.in_rate, s.output_resampler.out_rate, [], []⟩ := by
  simp [prime, resampler.clear, resampler.enqueue_zeroes, resampler.enqueue]

theorem tx_front_events (C : Converter) (s : State σ) (i : Input) (m : Bool) :
    ∃ post, (tx_front C s i m).2 =
        (if s.transmitting_prev then [] else priming_events i) ++ post ∧
      ∀ q, Event.clear q ∉ post := by
  have key : (tx_front C s i m).2 =
      (if s.transmitting_prev then [] else priming_events i) ++
        ((set_ptt_val s.ptt_out_line s.prev_val true i.gpiod_set_result).2 ++
         (blend C
            { (if !s.transmitting_prev then prime C { s with delay_periods := 0 } i
               else ({ s with delay_periods := 0 }, [])).1 with
              prev_val := (set_ptt_val s.ptt_out_line s.prev_val true i.gpiod_set_result).1 }
            i m).2) := by
    unfold tx_front
    dsimp only
    cases s.transmitting_prev <;> simp [prime, priming_events]
  refine ⟨_, key, ?_⟩
  intro q
  simp only [List.mem_append, not_or]
  exact ⟨set_ptt_val_no_clear _ _ _ _ _, blend_no_clear _ _ _ _ _⟩

theorem tx_front_rising_indep (C : Converter) (s : State σ) (i : Input) (m : Bool)
    (r1 r2 : resampler) (hp : s.transmitting_prev = false)
    (h1 : r1.in_rate = s.input_resampler.in_rate) (h2 : r1.out_rate = s.input_resampler.out_rate)
    (h3 : r2.in_rate = s.output_resampler.in_rate)
    (h4 : r2.out_rate = s.output_resampler.out_rate) :
    tx_front C { s with input_resampler := r1, output_resampler := r2 } i m
      = tx_front C s i m := by
  unfold tx_front
  simp only [hp, Bool.not_false, if_true, prime, resampler.clear, resampler.enqueue_zeroes,
    resampler.enqueue, h1, h2, h3, h4]

theorem entry_replace (s : State σ) (i : Input) (r1 r2 : resampler) :
    entry { s with input_resampler := r1, output_resampler := r2 } i
      = { entry s i with
          input_resampler := r1.set_sample_rates i.jack_sample_rate i.voice_sample_rate
          output_resampler := r2.set_sample_rates i.modem_sample_rate i.jack_sample_rate } := by
  unfold entry play_trigger
  dsimp only
  split <;> rfl

theorem transmit_intent_replace (s : State σ) (i : Input) (r1 r2 : resampler) :
    transmit_intent { s with input_resampler := r1, output_resampler := r2 } i
      = transmit_intent s i := by
  unfold transmit_intent
  rw [entry_replace]

theorem process_rising_indep (C : Converter) (K : Codec σ) (s : State σ) (i : Input)
    (r1 r2 : resampler) (ht : transmit_intent s i = true)
    (hp : s.transmitting_prev = false) :
    process C K { s with input_resampler := r1, output_resampler := r2 } i
      = process C K s i := by
  have hE := entry_fields s i
  have hf := tx_front_rising_indep C (entry s i) i
    (microphone_enabled i.cfg s.sig_ptt_val s.ptt_in_line i.gpiod_get_result).1
    (r1.set_sample_rates i.jack_sample_rate i.voice_sample_rate)
    (r2.set_sample_rates i.modem_sample_rate i.jack_sample_rate)
    (by rw [hE.2.2.2.2.2.2.2.1]; exact hp)
    (by rw [hE.2.2.2.2.2.2.2.2.1]; rfl) (by rw [hE.2.2.2.2.2.2.2.2.1]; rfl)
    (by rw [hE.2.2.2.2.2.2.2.2.2]; rfl) (by rw [hE.2.2.2.2.2.2.2.2.2]; rfl)
  unfold process
  dsimp only
  rw [transmit_intent_replace, ht]
  simp only [if_true]
  unfold transmitting
  dsimp only
  rw [entry_replace, hf]

theorem deliver_replace (s : State σ) (a : Async) (r1 r2 : resampler) :
    deliver { s with input_resampler := r1, output_resampler := r2 } a
      = { deliver s a with input_resampler := r1, output_resampler := r2 } := by
  have hit : ∀ (n : Nat) (t : State σ),
      Nat.iterate handle_sigptt n { t with input_resampler := r1, output_resampler := r2 }
        = { Nat.iterate handle_sigptt n t with
            input_resampler := r1, output_resampler := r2 } := by
    intro n
    induction n with
    | zero => intro t; rfl
    | succ n ih =>
      intro t
      rw [Function.iterate_succ_apply, Function.iterate_succ_apply]
      exact ih (handle_sigptt t)
  unfold deliver
  dsimp only
  rw [hit]
  split <;> rfl

/-- C7. In a callback that returns, the priming sequence (`enqueue_zeroes` then
`clear` on the input converter, then on the output converter) runs, before any
other converter call of the callback, exactly when transmit-intent is true and
`transmitting_prev` (the transmit-intent of the previous callback) is false;
no other callback clears a converter. Right after priming both converters have
`available_elems() == 0`, and from a rising edge on the whole run is the same
whatever the two converters held before: nothing queued by an earlier
transmission reaches the modem port. -/
theorem priming_exactly_on_rising_edge (C : Converter) (K : Codec σ) (s : State σ)
    (a : Async) (i : Input) (rest : List (Async × Input)) :
    (∀ s' o, process C K s i = .ok (s', o) →
      s'.transmitting_prev = o.transmitting_cur ∧
      ((o.transmitting_cur = true ∧ s.transmitting_prev = false) →
        ∃ post, o.events =
          [.set_sample_rates .input i.jack_sample_rate i.voice_sample_rate,
           .set_sample_rates .output i.modem_sample_rate i.jack_sample_rate]
          ++ (microphone_enabled i.cfg s.sig_ptt_val s.ptt_in_line i.gpiod_get_result).2
          ++ priming_events i ++ post ∧
          ∀ q, Event.clear q ∉ post) ∧
      (¬ (o.transmitting_cur = true ∧ s.transmitting_prev = false) →
        ∀ q, Event.clear q ∉ o.events)) ∧
    ((prime C s i).1.input_resampler.available_elems = 0 ∧
     (prime C s i).1.output_resampler.available_elems = 0) ∧
    (transmit_intent (deliver s a) i = true → s.transmitting_prev = false →
      ∀ r1 r2 : resampler,
        run C K { s with input_resampler := r1, output_resampler := r2 } ((a, i) :: rest)
          = run C K s ((a, i) :: rest)) := by
  refine ⟨?_, ?_, ?_⟩
  · intro s' o h
    obtain ⟨s3, ev, hb, rfl, hc, he⟩ := process_ok h
    have hE := entry_fields s i
    refine ⟨hc.symm, ?_, ?_⟩
    · rintro ⟨ht, hp⟩
      rw [hc] at ht
      rw [ht] at hb
      simp only [if_true] at hb
      obtain ⟨inr, outr, k, evl, ev4, hl, ho, rfl⟩ := transmitting_ok hb
      obtain ⟨post, hpost, hnc⟩ := tx_front_events C (entry s i) i
        (microphone_enabled i.cfg s.sig_ptt_val s.ptt_in_line i.gpiod_get_result).1
      rw [hE.2.2.2.2.2.2.2.1, hp] at hpost
      simp only [Bool.false_eq_true, if_false] at hpost
      refine ⟨post ++ evl ++ ev4, ?_, ?_⟩
      · rw [he, hpost]
        simp only [List.append_assoc]
      · intro q
        simp only [List.mem_append, not_or]
        exact ⟨⟨hnc q, codec_steps_no_clear _ (encode_loop_codec_steps C K _ _ _ _ _ _ hl) q⟩,
          transmit_output_no_clear ho q⟩
    · intro hnr q
      rw [he]
      simp only [List.mem_append, not_or]
      refine ⟨⟨by simp, microphone_enabled_no_clear _ _ _ _ _⟩, ?_⟩
      cases ht : transmit_intent s i
      · rw [ht] at hb
        simp only [Bool.false_eq_true, if_false] at hb
        exact idle_no_clear hb q
      · rw [ht] at hb
        simp only [if_true] at hb
        have hp : s.transmitting_prev = true := by
          cases hq : s.transmitting_prev
          · exact absurd ⟨hc.trans ht, hq⟩ hnr
          · rfl
        obtain ⟨inr, outr, k, evl, ev4, hl, ho, rfl⟩ := transmitting_ok hb
        obtain ⟨post, hpost, hnc⟩ := tx_front_events C (entry s i) i
          (microphone_enabled i.cfg s.sig_ptt_val s.ptt_in_line i.gpiod_get_result).1
        rw [hE.2.2.2.2.2.2.2.1, hp] at hpost
        simp only [if_true, List.nil_append] at hpost
        rw [hpost]
        simp only [List.mem_append, not_or]
        exact ⟨⟨hnc q, codec_steps_no_clear _ (encode_loop_codec_steps C K _ _ _ _ _ _ hl) q⟩,
          transmit_output_no_clear ho q⟩
  · have := prime_resets C s i
    rw [resampler.available_elems, resampler.available_elems, this.1, this.2]
    exact ⟨rfl, rfl⟩
  · intro ht hp r1 r2
    simp only [run]
    rw [deliver_replace, process_rising_indep C K (deliver s a) i r1 r2 ht
      (by rw [(deliver_fields s a).2.2.2.1]; exact hp)]

theorem priming_exactly_on_rising_edge_witness :
    transmit_intent (deliver initial_state toggle) block2 = true ∧
    initial_state.transmitting_prev = false ∧
    (∀ r1 r2 : resampler,
      run passthrough loopback
          { initial_state with input_resampler := r1, output_resampler := r2 }
          ((toggle, block2) :: [(toggle, block2), (toggle, block2)])
        = run passthrough loopback initial_state
          ((toggle, block2) :: [(toggle, block2), (toggle, block2)])) :=
  ⟨rfl, rfl,
    (priming_exactly_on_rising_edge passthrough loopback initial_state toggle block2
      [(toggle, block2), (toggle, block2)]).2.2 rfl rfl⟩

/-! ## Draining on the falling edge (C8) -/

theorem encoder_frames_append (a b : List Event) :
    encoder_frames (a ++ b) = encoder_frames a ++ encoder_frames b := by
  induction a with
  | nil => rfl
  | cons e a ih => cases e <;> simp [encoder_frames, ih]

theorem encoder_frames_step (q1 q2 : Side) (m : Nat) (g v o1 o2 : List Int) (ev : List Event) :
    encoder_frames ([Event.dequeue q1 m g, Event.transmit v o1, Event.enqueue q2 o2] ++ ev)
      = v :: encoder_frames ev := rfl

/-- The drain loop of the falling edge, for a speech frame length `n > 0` and
enough loop tests: it exits, leaves the input converter empty, and hands the
queued samples to the encoder in order, in `ceil(A / n)` frames of `n`, the
last one padded with zeros. -/
theorem drain_loop_spec (C : Converter) (K : Codec σ) (n : Nat) (hn : 0 < n) :
    ∀ (fuel : Nat) (inr outr : resampler) (k : σ), inr.ready.length < fuel →
      ∃ inr1 outr1 k1 ev,
        drain_loop C K n fuel inr outr k = .ok (inr1, outr1, k1, ev) ∧
        inr1.ready = [] ∧
        (encoder_frames ev).flatten =
          inr.ready ++ List.replicate ((n - inr.ready.length % n) % n) 0 ∧
        (∀ f ∈ encoder_frames ev, f.length = n) ∧
        (encoder_frames ev).length = (inr.ready.length + n - 1) / n := by
  intro fuel
  induction fuel with
  | zero => intro inr outr k h; omega
  | succ fuel ih =>
    intro inr outr k hlt
    unfold drain_loop
    by_cases hz : inr.available_elems = 0
    · have hr : inr.ready = [] := List.length_eq_zero.1 hz
      refine ⟨inr, outr, k, [], ?_, hr, ?_, ?_, ?_⟩
      · simp [hz]
      · rw [hr]
        simp [encoder_frames, Nat.mod_self]
      · simp [encoder_frames]
      · rw [hr]
        simp only [encoder_frames, List.length_nil, zero_add]
        exact (Nat.div_eq_of_lt (by omega)).symm
    · have hav : inr.available_elems = inr.ready.length := rfl
      have hmin : min n inr.available_elems ≤ inr.available_elems := Nat.min_le_right _ _
      have hdq : inr.dequeue (min n inr.available_elems)
          = .ok (inr.ready.take (min n inr.available_elems),
                 { inr with ready := inr.ready.drop (min n inr.available_elems) }) := by
        unfold resampler.dequeue
        rw [if_pos hmin]
      have hmpos : 0 < min n inr.available_elems := by
        have : 0 < inr.available_elems := Nat.pos_of_ne_zero hz
        exact Nat.lt_min.2 ⟨hn, this⟩
      obtain ⟨inr1, outr1, k1, ev, hrec, hempty, hjoin, hlen, hcount⟩ :=
        ih { inr with ready := inr.ready.drop (min n inr.available_elems) }
          (outr.enqueue C (K.transmit k (inr.ready.take (min n inr.available_elems) ++
            List.replicate (n - (inr.ready.take (min n inr.available_elems)).length) 0)).2)
          (K.transmit k (inr.ready.take (min n inr.available_elems) ++
            List.replicate (n - (inr.ready.take (min n inr.available_elems)).length) 0)).1
          (by simp only [List.length_drop]; rw [hav] at hmpos ⊢; omega)
      dsimp only at hjoin hcount
      refine ⟨inr1, outr1, k1,
        [Event.dequeue Side.input (min n inr.available_elems)
            (inr.ready.take (min n inr.available_elems)),
          Event.transmit (inr.ready.take (min n inr.available_elems) ++
            List.replicate (n - (inr.ready.take (min n inr.available_elems)).length) 0)
            (K.transmit k (inr.ready.take (min n inr.available_elems) ++
              List.replicate (n - (inr.ready.take (min n inr.available_elems)).length) 0)).2,
          Event.enqueue Side.output
            (K.transmit k (inr.ready.take (min n inr.available_elems) ++
              List.replicate (n - (inr.ready.take (min n inr.available_elems)).length) 0)).2]
          ++ ev, ?_, hempty, ?_, ?_, ?_⟩
      · rw [if_pos hz, hdq]
        dsimp only
        rw [hrec]
      · rw [encoder_frames_step, List.flatten_cons, hjoin]
        simp only [List.length_drop, List.length_take]
        rw [hav]
        by_cases hge : n ≤ inr.ready.length
        · have hm : min n inr.ready.length = n := Nat.min_eq_left hge
          rw [hm, hm]
          have h1 : (inr.ready.length - n) % n = inr.ready.length % n := by
            conv_rhs => rw [← Nat.sub_add_cancel hge]
            rw [Nat.add_mod_right]
          rw [h1, Nat.sub_self]
          simp only [List.replicate_zero, List.append_nil]
          rw [← List.append_assoc, List.take_append_drop]
        · have hlt2 : inr.ready.length < n := Nat.lt_of_not_le hge
          have hm : min n inr.ready.length = inr.ready.length := Nat.min_eq_right (Nat.le_of_lt hlt2)
          rw [hm]
          have hpos : 0 < inr.ready.length := by rw [hav] at hz; omega
          simp only [Nat.sub_self, Nat.zero_mod, Nat.sub_zero, Nat.mod_self, Nat.min_self,
            List.replicate_zero, List.append_nil, List.drop_length, List.take_length]
          rw [Nat.mod_eq_of_lt hlt2, Nat.mod_eq_of_lt (by omega)]
      · intro f hf
        rw [encoder_frames_step, List.mem_cons] at hf
        rcases hf with rfl | hf
        · simp only [List.length_append, List.length_take, List.length_replicate]
          rw [hav]
          omega
        · exact hlen f hf
      · rw [encoder_frames_step, List.length_cons, hcount]
        simp only [List.length_drop]
        rw [hav]
        by_cases hge : n ≤ inr.ready.length
        · have hm : min n inr.ready.length = n := Nat.min_eq_left hge
          rw [hm]
          have : inr.ready.length + n - 1 = (inr.ready.length - n + n - 1) + n := by omega
          rw [this, Nat.add_div_right _ hn]
        · have hlt2 : inr.ready.length < n := Nat.lt_of_not_le hge
          have hm : min n inr.ready.length = inr.ready.length := Nat.min_eq_right (Nat.le_of_lt hlt2)
          rw [hm]
          have hpos : 0 < inr.ready.length := by rw [hav] at hz; omega
          have e1 : (inr.ready.length - inr.ready.length + n - 1) / n = 0 :=
            Nat.div_eq_of_lt (by omega)
          have e2 : (inr.ready.length + n - 1) / n = 1 := by
            apply Nat.div_eq_of_lt_le <;> omega
          rw [e1, e2]

/-- Emitting a block of `n0` from the queue `Q` with zero fill and then `t`
more samples the same way is emitting `n0 + t` samples that way. -/
theorem stream_block (Q : List Int) (n0 t : Nat) :
    (Q.take (min n0 Q.length) ++ List.replicate (n0 - min n0 Q.length) 0) ++
        ((Q.drop (min n0 Q.length)).take t ++
          List.replicate (t - (Q.drop (min n0 Q.length)).length) 0)
      = Q.take (n0 + t) ++ List.replicate (n0 + t - Q.length) 0 ∧
    (Q.drop (min n0 Q.length)).drop t = Q.drop (n0 + t) := by
  by_cases hge : n0 ≤ Q.length
  · have hm : min n0 Q.length = n0 := Nat.min_eq_left hge
    rw [hm]
    constructor
    · simp only [Nat.sub_self, List.replicate_zero, List.append_nil, List.length_drop]
      rw [← List.append_assoc, List.take_add]
      have e : t - (Q.length - n0) = n0 + t - Q.length := by omega
      rw [e]
    · rw [List.drop_drop]
  · have hlt : Q.length < n0 := Nat.lt_of_not_le hge
    have hm : min n0 Q.length = Q.length := Nat.min_eq_right (Nat.le_of_lt hlt)
    rw [hm]
    constructor
    · simp only [List.take_length, List.drop_length, List.take_nil, List.length_nil,
        Nat.sub_zero, List.nil_append]
      rw [List.take_of_length_le (by omega), List.append_assoc, ← List.replicate_add]
      congr 2
      omega
    · simp only [List.drop_length, List.drop_nil]
      rw [List.drop_of_length_le (by omega)]

theorem entry_ready (s : State σ) (i : Input) :
    (entry s i).output_resampler.ready = s.output_resampler.ready ∧
    (entry s i).input_resampler.ready = s.input_resampler.ready := by
  have hE := entry_fields s i
  rw [hE.2.2.2.2.2.2.2.2.1, hE.2.2.2.2.2.2.2.2.2]
  exact ⟨rfl, rfl⟩

/-- An idle callback that is not the falling edge: the block is what the
output converter holds, up to `nframes`, then zeros. -/
theorem process_idle_step {C : Converter} {K : Codec σ} {s s' : State σ} {i : Input}
    {o : Output} (h : process C K s i = .ok (s', o)) (ht : transmit_intent s i = false)
    (hp : s.transmitting_prev = false) :
    o.modem_frames =
      s.output_resampler.ready.take (min i.nframes s.output_resampler.ready.length) ++
        List.replicate (i.nframes - min i.nframes s.output_resampler.ready.length) 0 ∧
    s'.output_resampler.ready =
      s.output_resampler.ready.drop (min i.nframes s.output_resampler.ready.length) ∧
    s'.transmitting_prev = false := by
  obtain ⟨s3, ev, hb, rfl, -, -⟩ := process_ok h
  rw [ht] at hb ⊢
  simp only [Bool.false_eq_true, if_false] at hb
  unfold idle at hb
  rw [(entry_fields s i).2.2.2.2.2.2.2.1, hp] at hb
  simp only [Bool.false_eq_true, if_false] at hb
  have hI := idle_output_ptt hb
  have hR := (entry_ready s i).1
  rw [resampler.available_elems, hR] at hI
  refine ⟨?_, ?_, rfl⟩
  · have e1 := hI.2.2.2.2.2.2.2
    have e2 := hI.2.2.2.2.2.1
    rw [hI.2.2.2.2.1] at e1 e2
    rw [e1, e2]
  · show s3.output_resampler.ready = _
    rw [hI.2.2.2.2.2.2.1, hI.2.2.2.2.1]

/-- Over a run of idle callbacks after the falling edge, the modem port gets
the content of the output converter, in order and once, then zeros. -/
theorem run_idle_stream {C : Converter} {K : Codec σ} :
    ∀ (steps : List (Async × Input)) (s s' : State σ) (outs : List Output),
      run C K s steps = .ok (s', outs) →
      (∀ o ∈ outs, o.transmitting_cur = false) →
      s.transmitting_prev = false →
      (outs.map Output.modem_frames).flatten =
        s.output_resampler.ready.take (steps.map (fun st => st.2.nframes)).sum ++
          List.replicate ((steps.map (fun st => st.2.nframes)).sum
            - s.output_resampler.ready.length) 0 ∧
      s'.output_resampler.ready =
        s.output_resampler.ready.drop (steps.map (fun st => st.2.nframes)).sum := by
  intro steps
  induction steps with
  | nil =>
    intro s s' outs h _ _
    obtain ⟨rfl, rfl⟩ := run_nil_ok h
    simp
  | cons st rest ih =>
    intro s s' outs h hidle hp
    obtain ⟨a, i⟩ := st
    obtain ⟨s1, o, os, hpr, hr, rfl⟩ := run_cons_ok h
    have hD := deliver_fields s a
    have hP := process_ptt hpr
    have ho : o.transmitting_cur = false := hidle o (List.mem_cons_self _ _)
    have hi : transmit_intent (deliver s a) i = false := by rw [← hP.1]; exact ho
    have hS := process_idle_step hpr hi (by rw [hD.2.2.2.1]; exact hp)
    rw [hD.2.2.2.2.2.1] at hS
    have hrec := ih s1 s' os hr (fun x hx => hidle x (List.mem_cons_of_mem _ hx)) hS.2.2
    have hB := stream_block s.output_resampler.ready i.nframes
      (rest.map (fun st => st.2.nframes)).sum
    simp only [List.map_cons, List.flatten_cons, List.sum_cons]
    rw [hrec.1, hrec.2, hS.1, hS.2.1]
    exact hB

theorem encoder_frames_of_ptt (evs : List Event) (h : ptt_events evs = evs) :
    encoder_frames evs = [] := by
  induction evs with
  | nil => rfl
  | cons e evs ih =>
    unfold ptt_events at h ih
    have hall : ∀ x ∈ e :: evs, is_ptt x = true := List.filter_eq_self.1 h
    have ht : List.filter is_ptt evs = evs :=
      List.filter_eq_self.2 (fun x hx => hall x (List.mem_cons_of_mem _ hx))
    have he := hall e (List.mem_cons_self _ _)
    cases e <;> simp_all [encoder_frames, is_ptt]

theorem microphone_enabled_no_frames (cfg : config) (v : Int) (l : Bool) (r : Int) :
    encoder_frames (microphone_enabled cfg v l r).2 = [] := by
  unfold microphone_enabled
  split_ifs <;> rfl

/-- The idle branch on a falling edge with a speech frame length `n > 0`
returns; it has handed every sample queued in the flushed input converter to
the encoder, and its block is the head of the flushed output converter. -/
theorem idle_falling_ok (C : Converter) (K : Codec σ) (s : State σ) (i : Input)
    (hp : s.transmitting_prev = true) (hn : 0 < i.n_speech_samples) :
    ∃ s2 mf evs,
      idle C K s i = .ok (s2, mf, evs) ∧
      s2.input_resampler.ready = [] ∧
      (encoder_frames evs).flatten =
        (s.input_resampler.flush C ((i.n_speech_samples * 2) % 2 ^ 64)).ready ++
          List.replicate ((i.n_speech_samples -
            (s.input_resampler.flush C ((i.n_speech_samples * 2) % 2 ^ 64)).ready.length
              % i.n_speech_samples) % i.n_speech_samples) 0 ∧
      (∀ f ∈ encoder_frames evs, f.length = i.n_speech_samples) ∧
      out_dequeued evs =
        (out_dequeued evs ++ s2.output_resampler.ready).take
          (min i.nframes (out_dequeued evs ++ s2.output_resampler.ready).length) ∧
      s2.output_resampler.ready =
        (out_dequeued evs ++ s2.output_resampler.ready).drop
          (min i.nframes (out_dequeued evs ++ s2.output_resampler.ready).length) ∧
      mf = out_dequeued evs ++ List.replicate (i.nframes - (out_dequeued evs).length) 0 := by
  obtain ⟨inr1, outr1, k1, ev, hrec, hempty, hjoin, hlen, -⟩ :=
    drain_loop_spec C K i.n_speech_samples hn
      ((s.input_resampler.flush C ((i.n_speech_samples * 2) % 2 ^ 64)).available_elems + 1)
      (s.input_resampler.flush C ((i.n_speech_samples * 2) % 2 ^ 64))
      s.output_resampler s.crypto_tx (Nat.lt_succ_self _)
  have hfe : falling_edge C K s i =
      .ok ({ s with
              input_resampler := inr1
              output_resampler := outr1.flush C ((i.nframes * 2) % 2 ^ 32)
              crypto_tx := k1 },
           [.flush .input ((i.n_speech_samples * 2) % 2 ^ 64)] ++ ev ++
             [.flush .output ((i.nframes * 2) % 2 ^ 32)]) := by
    unfold falling_edge
    dsimp only
    rw [hrec]
  obtain ⟨s2, mf, ev2, ho⟩ : ∃ s2 mf ev2, idle_output K
      { s with
        input_resampler := inr1
        output_resampler := outr1.flush C ((i.nframes * 2) % 2 ^ 32)
        crypto_tx := k1 } i = .ok (s2, mf, ev2) := ⟨_, _, _, idle_output_eq K _ i⟩
  have hI := idle_output_ptt ho
  have hcs := drain_loop_codec_steps C K _ _ _ _ _ _ hrec
  dsimp only at hcs hI
  have hod : out_dequeued ([Event.flush Side.input ((i.n_speech_samples * 2) % 2 ^ 64)] ++ ev ++
      [Event.flush Side.output ((i.nframes * 2) % 2 ^ 32)] ++ ev2) = out_dequeued ev2 := by
    rw [out_dequeued_append, out_dequeued_append, out_dequeued_append,
      out_dequeued_of_codec_steps _ hcs]
    rfl
  have hin : s2.input_resampler = inr1 := by
    have := ho
    rw [idle_output_eq] at this
    simp only [Except.ok.injEq, Prod.mk.injEq] at this
    rw [← this.1, (hang_timer_fields _ _ _).2.2.2.2.2.2.1]
  have hf2 : encoder_frames ev2 = [] := by
    have := ho
    rw [idle_output_eq] at this
    simp only [Except.ok.injEq, Prod.mk.injEq] at this
    rw [← this.2.2, encoder_frames_append,
      encoder_frames_of_ptt _ (hang_timer_fields _ _ _).2.2.2.2.2.2.2.2.2.2.1]
    rfl
  have hq : out_dequeued ev2 ++ s2.output_resampler.ready
      = (outr1.flush C ((i.nframes * 2) % 2 ^ 32)).ready := by
    have h1 := hI.2.2.2.2.2.1
    have h2 := hI.2.2.2.2.2.2.1
    rw [h2]
    generalize (out_dequeued ev2).length = L at h1 ⊢
    rw [h1]
    exact List.take_append_drop _ _
  refine ⟨s2, mf, [.flush .input ((i.n_speech_samples * 2) % 2 ^ 64)] ++ ev ++
      [.flush .output ((i.nframes * 2) % 2 ^ 32)] ++ ev2, ?_, ?_, ?_, ?_, ?_, ?_, ?_⟩
  · unfold idle
    rw [hp]
    simp only [if_true]
    rw [hfe]
    dsimp only
    rw [ho]
  · rw [hin]; exact hempty
  · rw [encoder_frames_append, encoder_frames_append, encoder_frames_append, hf2]
    simp only [List.append_nil]
    have e1 : encoder_frames [Event.flush Side.input ((i.n_speech_samples * 2) % 2 ^ 64)]
        = [] := rfl
    have e2 : encoder_frames [Event.flush Side.output ((i.nframes * 2) % 2 ^ 32)] = [] := rfl
    rw [e1, e2]
    simpa using hjoin
  · intro f hf
    rw [encoder_frames_append, encoder_frames_append, encoder_frames_append, hf2] at hf
    have e1 : encoder_frames [Event.flush Side.input ((i.n_speech_samples * 2) % 2 ^ 64)]
        = [] := rfl
    have e2 : encoder_frames [Event.flush Side.output ((i.nframes * 2) % 2 ^ 32)] = [] := rfl
    rw [e1, e2] at hf
    simp only [List.nil_append, List.append_nil] at hf
    exact hlen f hf
  · rw [hod, hq]
    have h1 := hI.2.2.2.2.2.1
    rw [hI.2.2.2.2.1] at h1
    exact h1
  · rw [hod, hq]
    have h2 := hI.2.2.2.2.2.2.1
    rw [hI.2.2.2.2.1] at h2
    exact h2
  · rw [hod]
    exact hI.2.2.2.2.2.2.2

/-- On a falling edge with a speech frame length above zero the callback
returns, having passed every sample queued in the flushed input converter to
the encoder, in order, in frames of `n_speech_samples` with zeros after the
last sample, and leaving the input converter empty. Over that callback and any
following idle callbacks the modem port gets what the callback dequeued
followed by what it left queued, in order and once each, then zeros only. -/
theorem falling_edge_stream (C : Converter) (K : Codec σ) (s : State σ) (i : Input)
    (hprev : s.transmitting_prev = true) (hint : transmit_intent s i = false)
    (hn : 0 < i.n_speech_samples) :
    ∃ s1 o, process C K s i = .ok (s1, o) ∧
      s1.input_resampler.available_elems = 0 ∧
      (encoder_frames o.events).flatten =
        ((s.input_resampler.set_sample_rates i.jack_sample_rate i.voice_sample_rate).flush C
            ((i.n_speech_samples * 2) % 2 ^ 64)).ready ++
          List.replicate ((i.n_speech_samples -
            ((s.input_resampler.set_sample_rates i.jack_sample_rate i.voice_sample_rate).flush C
              ((i.n_speech_samples * 2) % 2 ^ 64)).ready.length
              % i.n_speech_samples) % i.n_speech_samples) 0 ∧
      (∀ f ∈ encoder_frames o.events, f.length = i.n_speech_samples) ∧
      ∀ (steps : List (Async × Input)) (s' : State σ) (outs : List Output),
        run C K s1 steps = .ok (s', outs) →
        (∀ o' ∈ outs, o'.transmitting_cur = false) →
        ((o :: outs).map Output.modem_frames).flatten =
          (out_dequeued o.events ++ s1.output_resampler.ready).take
              (i.nframes + (steps.map (fun st => st.2.nframes)).sum) ++
            List.replicate (i.nframes + (steps.map (fun st => st.2.nframes)).sum
              - (out_dequeued o.events ++ s1.output_resampler.ready).length) 0 ∧
        s'.output_resampler.ready =
          (out_dequeued o.events ++ s1.output_resampler.ready).drop
            (i.nframes + (steps.map (fun st => st.2.nframes)).sum) := by
  have hE := entry_fields s i
  obtain ⟨s2, mf, evs, hidle, hempty, hjoin, hlen, htake, hdrop, hmf⟩ :=
    idle_falling_ok C K (entry s i) i (by rw [hE.2.2.2.2.2.2.2.1]; exact hprev) hn
  rw [hE.2.2.2.2.2.2.2.2.1] at hjoin
  have hproc : process C K s i =
      .ok ({ s2 with transmitting_prev := false },
           { transmitting_cur := false
             modem_frames := mf
             events :=
               [.set_sample_rates .input i.jack_sample_rate i.voice_sample_rate,
                .set_sample_rates .output i.modem_sample_rate i.jack_sample_rate]
               ++ (microphone_enabled i.cfg s.sig_ptt_val s.ptt_in_line
                    i.gpiod_get_result).2 ++ evs }) := by
    unfold process
    dsimp only
    rw [hint]
    simp only [Bool.false_eq_true, if_false]
    rw [hidle]
  have hef : encoder_frames
      ([Event.set_sample_rates Side.input i.jack_sample_rate i.voice_sample_rate,
        Event.set_sample_rates Side.output i.modem_sample_rate i.jack_sample_rate]
        ++ (microphone_enabled i.cfg s.sig_ptt_val s.ptt_in_line i.gpiod_get_result).2
        ++ evs) = encoder_frames evs := by
    rw [encoder_frames_append, encoder_frames_append, microphone_enabled_no_frames]
    rfl
  have hod : out_dequeued
      ([Event.set_sample_rates Side.input i.jack_sample_rate i.voice_sample_rate,
        Event.set_sample_rates Side.output i.modem_sample_rate i.jack_sample_rate]
        ++ (microphone_enabled i.cfg s.sig_ptt_val s.ptt_in_line i.gpiod_get_result).2
        ++ evs) = out_dequeued evs := by
    rw [out_dequeued_append, out_dequeued_append, microphone_enabled_no_out_dequeue]
    rfl
  refine ⟨_, _, hproc, ?_, ?_, ?_, ?_⟩
  · show s2.input_resampler.ready.length = 0
    rw [hempty]
    rfl
  · show (encoder_frames _).flatten = _
    rw [hef]
    exact hjoin
  · intro f hf
    have hf2 : f ∈ encoder_frames evs := by rw [← hef]; exact hf
    exact hlen f hf2
  · intro steps s' outs hrun hall
    have hS := run_idle_stream steps { s2 with transmitting_prev := false } s' outs hrun hall rfl
    show (mf :: outs.map Output.modem_frames).flatten = _ ∧ _
    dsimp only at hS ⊢
    rw [hod]
    have hB := stream_block (out_dequeued evs ++ s2.output_resampler.ready) i.nframes
      (steps.map (fun st => st.2.nframes)).sum
    rw [← htake, ← hdrop] at hB
    have hlen2 : (out_dequeued evs).length
        = min i.nframes (out_dequeued evs ++ s2.output_resampler.ready).length := by
      conv_lhs => rw [htake]
      rw [List.length_take]
      exact Nat.min_eq_left (Nat.min_le_right _ _)
    rw [← hlen2] at hB
    rw [List.flatten_cons, hS.1, hS.2, hmf]
    exact hB

/-- C8 fails as stated. Two keyed callbacks leave the samples 1, 2, 3, 4 queued
in the output converter; the falling-edge callback writes 1, 2 to the modem
port; transmit-intent rises again in the next callback, whose priming clears
the output converter; the samples 3, 4 are never written, in that callback or
in the idle callbacks that follow, and are no longer queued. -/
theorem rising_edge_discards_queued_output :
    (run dry loopback initial_state
        [(toggle, block2_held 1), (quiet, block2_held 3)]).toOption.map
      (fun r => (r.2.map Output.transmitting_cur, r.1.output_resampler.ready))
      = some ([true, true], [1, 2, 3, 4]) ∧
    (run dry loopback initial_state
        [(toggle, block2_held 1), (quiet, block2_held 3), (toggle, block2_held 0),
         (toggle, block2_held 5), (toggle, block2_held 0), (quiet, block2_held 0)]).toOption.map
      (fun r => (r.2.map Output.transmitting_cur, r.2.map Output.modem_frames,
        r.1.output_resampler.ready))
      = some ([true, true, false, true, false, false],
              [[0, 0], [0, 0], [1, 2], [0, 0], [5, 6], [0, 0]], []) :=
  ⟨rfl, rfl⟩

/-! ## The output stage of the transmitting branch (C9) -/

/-- The encode loop returns for a speech frame length above zero, given enough
loop tests. -/
theorem encode_loop_total (C : Converter) (K : Codec σ) (n : Nat) (hn : 0 < n) :
    ∀ (fuel : Nat) (inr outr : resampler) (k : σ), inr.ready.length < fuel →
      ∃ r, encode_loop C K n fuel inr outr k = .ok r := by
  intro fuel
  induction fuel with
  | zero => intro inr outr k h; omega
  | succ fuel ih =>
    intro inr outr k hlt
    unfold encode_loop
    by_cases hge : inr.available_elems ≥ n
    · have hdq : inr.dequeue n
          = .ok (inr.ready.take n, { inr with ready := inr.ready.drop n }) := by
        unfold resampler.dequeue
        rw [if_pos hge]
      obtain ⟨r, hr⟩ := ih { inr with ready := inr.ready.drop n }
        (outr.enqueue C (K.transmit k (inr.ready.take n)).2)
        (K.transmit k (inr.ready.take n)).1
        (by
          simp only [List.length_drop]
          have : n ≤ inr.ready.length := hge
          omega)
      obtain ⟨a, b, c, d⟩ := r
      rw [if_pos hge, hdq]
      dsimp only
      rw [hr]
      exact ⟨_, rfl⟩
    · rw [if_neg hge]
      exact ⟨_, rfl⟩

theorem transmit_output_total (s : State σ) (i : Input) (hn : i.nframes ≠ 0)
    (h : s.output_resampler.available_elems < required_elems i ∨
      i.nframes ≤ s.output_resampler.available_elems) :
    ∃ r, transmit_output s i = .ok r := by
  unfold transmit_output
  rw [if_neg hn]
  by_cases hreq : s.output_resampler.available_elems ≥ required_elems i
  · rw [if_pos hreq]
    have hle : i.nframes ≤ s.output_resampler.available_elems := by
      rcases h with h | h
      · omega
      · exact h
    unfold resampler.dequeue
    rw [if_pos hle]
    exact ⟨_, rfl⟩
  · rw [if_neg hreq]
    exact ⟨_, rfl⟩

/-- Without wrap-around in `uint`, `required_elems` is the least multiple of
`nframes` that is at least `modem_resampled_frames`. -/
theorem required_elems_exact (i : Input) (hn : 0 < i.nframes)
    (h1 : i.modem_resampled_frames + (i.nframes - 1) < 2 ^ 32)
    (h2 : i.nframes * ((i.modem_resampled_frames + (i.nframes - 1)) / i.nframes) < 2 ^ 32) :
    required_elems i =
      i.nframes * ((i.modem_resampled_frames + (i.nframes - 1)) / i.nframes) ∧
    i.modem_resampled_frames ≤ required_elems i ∧
    required_elems i < i.modem_resampled_frames + i.nframes := by
  have e : required_elems i =
      i.nframes * ((i.modem_resampled_frames + (i.nframes - 1)) / i.nframes) := by
    unfold required_elems
    rw [Nat.mod_eq_of_lt h1, Nat.mod_eq_of_lt h2]
  rw [e]
  have hdm := Nat.div_add_mod (i.modem_resampled_frames + (i.nframes - 1)) i.nframes
  have hml := Nat.mod_lt (i.modem_resampled_frames + (i.nframes - 1)) hn
  refine ⟨rfl, ?_, ?_⟩ <;> omega

/-! ## The input block of the transmitting branch (C10) -/

theorem entry_tts_buffer (s : State σ) (i : Input) :
    (entry s i).tts_buffer = (play_trigger s i.nframes).tts_buffer := by
  unfold entry play_trigger
  dsimp only
  split <;> rfl

/-- The encode loop never dequeues more than the input converter holds. -/
theorem encode_loop_no_dequeue_fault (C : Converter) (K : Codec σ) (n : Nat) :
    ∀ (fuel : Nat) (inr outr : resampler) (k : σ),
      encode_loop C K n fuel inr outr k ≠ .error .dequeue_beyond_available := by
  intro fuel
  induction fuel with
  | zero => intro inr outr k h; cases h
  | succ fuel ih =>
    intro inr outr k h
    unfold encode_loop at h
    by_cases hge : inr.available_elems ≥ n
    · rw [if_pos hge] at h
      have hd : inr.dequeue n = .ok (inr.ready.take n, { inr with ready := inr.ready.drop n }) := by
        unfold resampler.dequeue
        rw [if_pos hge]
      rw [hd] at h
      dsimp only at h
      split at h
      · rename_i f hf
        injection h with h
        subst h
        exact ih _ _ _ hf
      · cases h
    · rw [if_neg hge] at h
      cases h

/-- The falling-edge drain loop never dequeues more than the input converter
holds. -/
theorem drain_loop_no_dequeue_fault (C : Converter) (K : Codec σ) (n : Nat) :
    ∀ (fuel : Nat) (inr outr : resampler) (k : σ),
      drain_loop C K n fuel inr outr k ≠ .error .dequeue_beyond_available := by
  intro fuel
  induction fuel with
  | zero => intro inr outr k h; cases h
  | succ fuel ih =>
    intro inr outr k h
    unfold drain_loop at h
    by_cases hne : inr.available_elems ≠ 0
    · rw [if_pos hne] at h
      have hd : inr.dequeue (min n inr.available_elems) =
          .ok (inr.ready.take (min n inr.available_elems),
               { inr with ready := inr.ready.drop (min n inr.available_elems) }) := by
        unfold resampler.dequeue
        rw [if_pos (Nat.min_le_right _ _)]
      rw [hd] at h
      dsimp only at h
      split at h
      · rename_i f hf
        injection h with h
        subst h
        exact ih _ _ _ hf
      · cases h
    · rw [if_neg hne] at h
      cases h

/-- The falling-edge flush never dequeues more than a converter holds. -/
theorem falling_edge_no_dequeue_fault (C : Converter) (K : Codec σ) (s : State σ) (i : Input) :
    falling_edge C K s i ≠ .error .dequeue_beyond_available := by
  intro h
  unfold falling_edge at h
  dsimp only at h
  split at h
  · rename_i f hf
    injection h with h
    subst h
    exact drain_loop_no_dequeue_fault C K _ _ _ _ _ hf
  · cases h

/-- The idle branch never dequeues more than a converter holds. -/
theorem idle_no_dequeue_fault (C : Converter) (K : Codec σ) (s : State σ) (i : Input) :
    idle C K s i ≠ .error .dequeue_beyond_available := by
  intro h
  unfold idle at h
  split at h
  · split at h
    · rename_i f hf
      injection h with h
      subst h
      exact falling_edge_no_dequeue_fault C K s i hf
    · rename_i s1 ev1 hf
      rw [idle_output_eq] at h
      cases h
  · rw [idle_output_eq] at h
    cases h

/-- The output stage of the transmitting branch dequeues beyond availability
exactly when the output converter holds at least `required_elems` samples but
fewer than `nframes`. -/
theorem transmit_output_dequeue_fault (s : State σ) (i : Input) :
    transmit_output s i = .error .dequeue_beyond_available ↔
      i.nframes ≠ 0 ∧ required_elems i ≤ s.output_resampler.available_elems ∧
        s.output_resampler.available_elems < i.nframes := by
  unfold transmit_output
  by_cases h0 : i.nframes = 0
  · rw [if_pos h0]
    constructor
    · intro h; cases h
    · intro h; exact absurd h0 h.1
  · rw [if_neg h0]
    by_cases hge : s.output_resampler.available_elems ≥ required_elems i
    · rw [if_pos hge]
      unfold resampler.dequeue
      by_cases hn : i.nframes ≤ s.output_resampler.available_elems
      · rw [if_pos hn]
        constructor
        · intro h; cases h
        · intro h; omega
      · rw [if_neg hn]
        constructor
        · intro _; exact ⟨h0, hge, by omega⟩
        · intro _; rfl
    · rw [if_neg hge]
      constructor
      · intro h; cases h
      · intro h; omega

/-- The transmitting branch dequeues beyond availability only in its output
stage, and only when `required_elems` is less than `nframes`. -/
theorem transmitting_no_dequeue_fault (C : Converter) (K : Codec σ) (s : State σ) (i : Input)
    (m : Bool) (hr : i.nframes ≤ required_elems i) :
    transmitting C K s i m ≠ .error .dequeue_beyond_available := by
  intro h
  unfold transmitting at h
  dsimp only at h
  split at h
  · rename_i f hf
    injection h with h
    subst h
    exact encode_loop_no_dequeue_fault C K _ _ _ _ _ hf
  · split at h
    · rename_i f hf
      injection h with h
      subst h
      have := (transmit_output_dequeue_fault _ i).1 hf
      omega
    · cases h

/-- A transmit callback dequeues beyond availability only in the output stage
of the transmitting branch, and only when `required_elems` is less than
`nframes`. -/
theorem process_no_dequeue_fault (C : Converter) (K : Codec σ) (s : State σ) (i : Input)
    (h : transmit_intent s i = false ∨ i.nframes ≤ required_elems i) :
    process C K s i ≠ .error .dequeue_beyond_available := by
  intro hp
  unfold process at hp
  dsimp only at hp
  split at hp
  · rename_i f hf
    injection hp with hp
    subst hp
    by_cases ht : transmit_intent s i = true
    · rw [if_pos ht] at hf
      rcases h with h | h
      · rw [h] at ht; cases ht
      · exact transmitting_no_dequeue_fault C K _ i _ h hf
    · rw [if_neg ht] at hf
      exact idle_no_dequeue_fault C K _ i hf
  · cases hp

/-- When `get_nom_resampled_frames` gives at least one frame and the `uint`
arithmetic does not wrap, `required_elems` is at least `nframes`. -/
theorem required_elems_ge_nframes (i : Input) (hn : 0 < i.nframes)
    (hm : 1 ≤ i.modem_resampled_frames)
    (h1 : i.modem_resampled_frames + (i.nframes - 1) < 2 ^ 32)
    (h2 : i.nframes * ((i.modem_resampled_frames + (i.nframes - 1)) / i.nframes) < 2 ^ 32) :
    i.nframes ≤ required_elems i := by
  rw [(required_elems_exact i hn h1 h2).1]
  have : 1 ≤ (i.modem_resampled_frames + (i.nframes - 1)) / i.nframes := by
    rw [Nat.one_le_div_iff hn]
    omega
  calc i.nframes = i.nframes * 1 := (Nat.mul_one _).symm
    _ ≤ _ := Nat.mul_le_mul_left _ this

/-! ## The falling-edge drain loop (C17) -/

/-- The trace of the drain loop is a sequence of drain passes, and the output
converter it leaves is the one it found with every encoder result enqueued, in
order. -/
theorem drain_loop_trace (C : Converter) (K : Codec σ) (n : Nat) :
    ∀ (fuel : Nat) (inr outr : resampler) (k : σ) (inr1 outr1 : resampler) (k1 : σ)
      (ev : List Event),
      drain_loop C K n fuel inr outr k = .ok (inr1, outr1, k1, ev) →
        drain_steps n ev = true ∧
        outr1 = (encoder_results ev).foldl (fun o x => o.enqueue C x) outr := by
  intro fuel
  induction fuel with
  | zero => intro inr outr k inr1 outr1 k1 ev h; cases h
  | succ fuel ih =>
    intro inr outr k inr1 outr1 k1 ev h
    unfold drain_loop at h
    by_cases hne : inr.available_elems ≠ 0
    · rw [if_pos hne] at h
      have hd : inr.dequeue (min n inr.available_elems) =
          .ok (inr.ready.take (min n inr.available_elems),
               { inr with ready := inr.ready.drop (min n inr.available_elems) }) := by
        unfold resampler.dequeue
        rw [if_pos (Nat.min_le_right _ _)]
      rw [hd] at h
      dsimp only at h
      split at h
      · cases h
      · rename_i inr2 outr2 k2 ev2 hrec
        obtain ⟨h1, h2⟩ := ih _ _ _ _ _ _ _ hrec
        simp only [Except.ok.injEq, Prod.mk.injEq] at h
        obtain ⟨-, ho, -, he⟩ := h
        subst he
        subst ho
        refine ⟨?_, ?_⟩
        · show drain_steps n (_ :: _ :: _ :: ev2) = true
          have hl : (inr.ready.take (min n inr.available_elems)).length
              = min n inr.available_elems := by
            rw [List.length_take]
            exact Nat.min_eq_left (Nat.min_le_right _ _)
          simp only [drain_steps, hl, beq_self_eq_true, Bool.true_and, h1]
        · show _ = (encoder_results (_ :: _ :: _ :: ev2)).foldl _ outr
          simp only [encoder_results, List.foldl_cons]
          exact h2
    · rw [if_neg hne] at h
      simp only [Except.ok.injEq, Prod.mk.injEq] at h
      obtain ⟨-, ho, -, he⟩ := h
      subst he
      subst ho
      exact ⟨rfl, rfl⟩

/-- C17: in a falling-edge callback (`transmitting_prev` set, transmit-intent
false) with speech frames of `n ≥ 1` samples, let the input converter hold `A`
samples after `flush(2 n)`. The callback returns; between the flush of the
input converter and the flush of the output converter its calls are the passes
of the drain loop, each handing the encoder what it dequeued followed by zeros
up to `n` samples and enqueueing the encoder result into the output converter;
the encoder is called `(A + n - 1) / n` times, the frames are the `A` queued
samples in order followed by zeros up to a multiple of `n`, each of `n`
samples; the encoder is not called after the output flush; the input converter
is left empty; and the output converter that is flushed is the one found at
entry with every encoder result enqueued. -/
theorem falling_edge_drain_loop (C : Converter) (K : Codec σ) (s : State σ) (i : Input)
    (hp : s.transmitting_prev = true) (ht : transmit_intent s i = false)
    (hn : 0 < i.n_speech_samples) :
    ∃ s1 o ev rest,
      process C K s i = .ok (s1, o) ∧
      o.events =
        [.set_sample_rates .input i.jack_sample_rate i.voice_sample_rate,
         .set_sample_rates .output i.modem_sample_rate i.jack_sample_rate]
        ++ (microphone_enabled i.cfg s.sig_ptt_val s.ptt_in_line i.gpiod_get_result).2
        ++ [.flush .input ((i.n_speech_samples * 2) % 2 ^ 64)] ++ ev
        ++ [.flush .output ((i.nframes * 2) % 2 ^ 32)] ++ rest ∧
      drain_steps i.n_speech_samples ev = true ∧
      (encoder_frames ev).length =
        (((entry s i).input_resampler.flush C
            ((i.n_speech_samples * 2) % 2 ^ 64)).available_elems + i.n_speech_samples - 1)
          / i.n_speech_samples ∧
      (encoder_frames ev).flatten =
        ((entry s i).input_resampler.flush C ((i.n_speech_samples * 2) % 2 ^ 64)).ready ++
          List.replicate ((i.n_speech_samples -
            ((entry s i).input_resampler.flush C
              ((i.n_speech_samples * 2) % 2 ^ 64)).available_elems
              % i.n_speech_samples) % i.n_speech_samples) 0 ∧
      (∀ f ∈ encoder_frames ev, f.length = i.n_speech_samples) ∧
      encoder_frames rest = [] ∧
      s1.input_resampler.available_elems = 0 ∧
      out_dequeued o.events ++ s1.output_resampler.ready =
        (((encoder_results ev).foldl (fun r x => r.enqueue C x)
            (entry s i).output_resampler).flush C ((i.nframes * 2) % 2 ^ 32)).ready := by
  obtain ⟨inr1, outr1, k1, ev, hrec, hempty, hjoin, hlen, hcount⟩ :=
    drain_loop_spec C K i.n_speech_samples hn
      (((entry s i).input_resampler.flush C ((i.n_speech_samples * 2) % 2 ^ 64)).available_elems
        + 1)
      ((entry s i).input_resampler.flush C ((i.n_speech_samples * 2) % 2 ^ 64))
      (entry s i).output_resampler (entry s i).crypto_tx (Nat.lt_succ_self _)
  obtain ⟨hsteps, hout⟩ := drain_loop_trace C K _ _ _ _ _ _ _ _ _ hrec
  have hfe : falling_edge C K (entry s i) i =
      .ok ({ entry s i with
              input_resampler := inr1
              output_resampler := outr1.flush C ((i.nframes * 2) % 2 ^ 32)
              crypto_tx := k1 },
           [.flush .input ((i.n_speech_samples * 2) % 2 ^ 64)] ++ ev ++
             [.flush .output ((i.nframes * 2) % 2 ^ 32)]) := by
    unfold falling_edge
    dsimp only
    rw [hrec]
  obtain ⟨s2, mf, ev2, ho⟩ : ∃ s2 mf ev2, idle_output K
      { entry s i with
        input_resampler := inr1
        output_resampler := outr1.flush C ((i.nframes * 2) % 2 ^ 32)
        crypto_tx := k1 } i = .ok (s2, mf, ev2) := ⟨_, _, _, idle_output_eq K _ i⟩
  have hI := idle_output_ptt ho
  have hcs := drain_loop_codec_steps C K _ _ _ _ _ _ hrec
  dsimp only at hcs hI
  have hin : s2.input_resampler = inr1 := by
    have := ho
    rw [idle_output_eq] at this
    simp only [Except.ok.injEq, Prod.mk.injEq] at this
    rw [← this.1, (hang_timer_fields _ _ _).2.2.2.2.2.2.1]
  have hf2 : encoder_frames ev2 = [] := by
    have := ho
    rw [idle_output_eq] at this
    simp only [Except.ok.injEq, Prod.mk.injEq] at this
    rw [← this.2.2, encoder_frames_append,
      encoder_frames_of_ptt _ (hang_timer_fields _ _ _).2.2.2.2.2.2.2.2.2.2.1]
    rfl
  have hq : out_dequeued ev2 ++ s2.output_resampler.ready
      = (outr1.flush C ((i.nframes * 2) % 2 ^ 32)).ready := by
    have h1 := hI.2.2.2.2.2.1
    have h2 := hI.2.2.2.2.2.2.1
    rw [h2]
    generalize (out_dequeued ev2).length = L at h1 ⊢
    rw [h1]
    exact List.take_append_drop _ _
  have hidle : idle C K (entry s i) i = .ok (s2, mf,
      [.flush .input ((i.n_speech_samples * 2) % 2 ^ 64)] ++ ev ++
        [.flush .output ((i.nframes * 2) % 2 ^ 32)] ++ ev2) := by
    unfold idle
    rw [(entry_fields s i).2.2.2.2.2.2.2.1, hp]
    simp only [if_true]
    rw [hfe]
    dsimp only
    rw [ho]
  have hproc : process C K s i = .ok ({ s2 with transmitting_prev := false },
      { transmitting_cur := false
        modem_frames := mf
        events :=
          [.set_sample_rates .input i.jack_sample_rate i.voice_sample_rate,
           .set_sample_rates .output i.modem_sample_rate i.jack_sample_rate]
          ++ (microphone_enabled i.cfg s.sig_ptt_val s.ptt_in_line i.gpiod_get_result).2
          ++ ([.flush .input ((i.n_speech_samples * 2) % 2 ^ 64)] ++ ev ++
               [.flush .output ((i.nframes * 2) % 2 ^ 32)] ++ ev2) }) := by
    unfold process
    simp only [ht, Bool.false_eq_true, if_false]
    rw [hidle]
  refine ⟨_, _, ev, ev2, hproc, ?_, hsteps, hcount, hjoin, hlen, hf2, ?_, ?_⟩
  · simp only [List.append_assoc]
  · show s2.input_resampler.ready.length = 0
    rw [hin, hempty]
    rfl
  · show out_dequeued (_ ++ _ ++ (_ ++ ev ++ _ ++ ev2)) ++ s2.output_resampler.ready = _
    rw [out_dequeued_append, out_dequeued_append, out_dequeued_append, out_dequeued_append,
      out_dequeued_append, out_dequeued_of_codec_steps _ hcs,
      microphone_enabled_no_out_dequeue, ← hout]
    exact hq

theorem falling_edge_drain_loop_witness :
    (residue_state.transmitting_prev = true ∧ transmit_intent residue_state block2 = false ∧
      0 < block2.n_speech_samples) ∧
    ∃ s1 o ev rest,
      process passthrough loopback residue_state block2 = .ok (s1, o) ∧
      o.events =
        [.set_sample_rates .input block2.jack_sample_rate block2.voice_sample_rate,
         .set_sample_rates .output block2.modem_sample_rate block2.jack_sample_rate]
        ++ (microphone_enabled block2.cfg residue_state.sig_ptt_val residue_state.ptt_in_line
              block2.gpiod_get_result).2
        ++ [.flush .input ((block2.n_speech_samples * 2) % 2 ^ 64)] ++ ev
        ++ [.flush .output ((block2.nframes * 2) % 2 ^ 32)] ++ rest ∧
      drain_steps block2.n_speech_samples ev = true ∧
      (encoder_frames ev).length =
        (((entry residue_state block2).input_resampler.flush passthrough
            ((block2.n_speech_samples * 2) % 2 ^ 64)).available_elems
              + block2.n_speech_samples - 1)
          / block2.n_speech_samples ∧
      (encoder_frames ev).flatten =
        ((entry residue_state block2).input_resampler.flush passthrough
            ((block2.n_speech_samples * 2) % 2 ^ 64)).ready ++
          List.replicate ((block2.n_speech_samples -
            ((entry residue_state block2).input_resampler.flush passthrough
              ((block2.n_speech_samples * 2) % 2 ^ 64)).available_elems
              % block2.n_speech_samples) % block2.n_speech_samples) 0 ∧
      (∀ f ∈ encoder_frames ev, f.length = block2.n_speech_samples) ∧
      encoder_frames rest = [] ∧
      s1.input_resampler.available_elems = 0 ∧
      out_dequeued o.events ++ s1.output_resampler.ready =
        (((encoder_results ev).foldl (fun r x => r.enqueue passthrough x)
            (entry residue_state block2).output_resampler).flush passthrough
              ((block2.nframes * 2) % 2 ^ 32)).ready :=
  ⟨⟨rfl, rfl, by decide⟩,
   falling_edge_drain_loop passthrough loopback residue_state block2 rfl rfl (by decide)⟩

/-- The falling-edge callback `block2` from `residue_state`: five samples are
queued after the flush, and the encoder is called three times, the last time
with one queued sample and one zero of padding. -/
theorem falling_edge_residue_trace :
    (process passthrough loopback residue_state block2).toOption.map (fun r => r.2.events) =
      some [.set_sample_rates .input 8000 8000, .set_sample_rates .output 8000 8000,
        .flush .input 4,
        .dequeue .input 2 [7, 0], .transmit [7, 0] [7, 0], .enqueue .output [7, 0],
        .dequeue .input 2 [0, 0], .transmit [0, 0] [0, 0], .enqueue .output [0, 0],
        .dequeue .input 1 [0], .transmit [0, 0] [0, 0], .enqueue .output [0, 0],
        .flush .output 4,
        .dequeue .output 2 [7, 0], .force_rekey_next_frame] := rfl

/-! ## The variables shared with the signal handler and the main loop (C18) -/

/-- The idle branch leaves the variables shared with the signal handler and
the main loop as they are. -/
theorem idle_shared {C : Converter} {K : Codec σ} {s s2 : State σ} {i : Input}
    {mf : List Int} {evs : List Event} (h : idle C K s i = .ok (s2, mf, evs)) :
    s2.sig_ptt_val = s.sig_ptt_val ∧ s2.tts_file = s.tts_file ∧
    s2.play_wav = s.play_wav ∧ s2.tts_buffer = s.tts_buffer ∧
    s2.ptt_in_line = s.ptt_in_line := by
  have key : ∀ (t t2 : State σ) (mf2 : List Int) (ev2 : List Event),
      idle_output K t i = .ok (t2, mf2, ev2) →
        t2.sig_ptt_val = t.sig_ptt_val ∧ t2.tts_file = t.tts_file ∧
        t2.play_wav = t.play_wav ∧ t2.tts_buffer = t.tts_buffer ∧
        t2.ptt_in_line = t.ptt_in_line := by
    intro t t2 mf2 ev2 ho
    rw [idle_output_eq] at ho
    simp only [Except.ok.injEq, Prod.mk.injEq] at ho
    have hf := hang_timer_fields
      { t with
        output_resampler := { t.output_resampler with
          ready := t.output_resampler.ready.drop
            (min i.nframes t.output_resampler.available_elems) }
        crypto_tx := K.force_rekey_next_frame t.crypto_tx }
      i (min i.nframes t.output_resampler.available_elems)
    rw [← ho.1]
    exact ⟨hf.2.2.1, hf.2.2.2.2.1, hf.2.2.2.1, hf.2.2.2.2.2.1, hf.2.1⟩
  unfold idle at h
  split at h
  · split at h
    · cases h
    · rename_i s1 ev1 hf
      split at h
      · cases h
      · rename_i s2' mf' ev2 ho
        simp only [Except.ok.injEq, Prod.mk.injEq] at h
        obtain ⟨rfl, rfl, rfl⟩ := h
        obtain ⟨inr1, outr1, k1, ev, -, hs1, -⟩ := falling_edge_ok hf
        have hk := key _ _ _ _ ho
        rw [hs1] at hk
        exact hk
  · exact key _ _ _ _ h

/-- The play trigger always leaves `play_wav` at 0. -/
theorem entry_play_wav (s : State σ) (i : Input) : (entry s i).play_wav = 0 := by
  unfold entry play_trigger
  dsimp only
  split
  · rfl
  · rename_i h
    simpa using h

/-- What a callback does to the variables shared with the signal handler and
the main loop: `sig_ptt_val` and `tts_file` are left as they are, `play_wav` is
0 afterwards, and the transmitting branch takes up to `nframes` samples from
the front of the TTS buffer. -/
theorem process_shared {C : Converter} {K : Codec σ} {s s1 : State σ} {i : Input} {o : Output}
    (h : process C K s i = .ok (s1, o)) :
    s1.sig_ptt_val = s.sig_ptt_val ∧ s1.tts_file = s.tts_file ∧ s1.play_wav = 0 ∧
    s1.ptt_in_line = s.ptt_in_line ∧
    s1.tts_buffer = (entry s i).tts_buffer.drop i.nframes ∧
    o.transmitting_cur = transmit_intent s i := by
  obtain ⟨s3, ev, hb, hs, ho, -⟩ := process_ok h
  have he := entry_fields s i
  by_cases ht : transmit_intent s i = true
  · rw [if_pos ht] at hb
    obtain ⟨inr, outr, k, ev1, ev4, -, hto, -⟩ := transmitting_ok hb
    have h4 := transmit_output_ok hto
    have hf := tx_front_fields C (entry s i) i
      (microphone_enabled i.cfg s.sig_ptt_val s.ptt_in_line i.gpiod_get_result).1
    subst hs
    refine ⟨?_, ?_, ?_, ?_, ?_, ho⟩
    · show s3.sig_ptt_val = _
      rw [h4.2.2.2.2.1]
      exact hf.2.2.2.2.1.trans he.2.2.2.2.1
    · show s3.tts_file = _
      rw [h4.2.2.2.2.2.2.1]
      exact hf.2.2.2.2.2.2.1.trans he.2.2.2.2.2.1
    · show s3.play_wav = _
      rw [h4.2.2.2.2.2.1]
      exact hf.2.2.2.2.2.1.trans (entry_play_wav s i)
    · show s3.ptt_in_line = _
      rw [h4.2.2.2.1]
      exact hf.2.2.2.1.trans he.2.2.2.1
    · show s3.tts_buffer = _
      rw [h4.2.2.2.2.2.2.2.1]
      show (tx_front C (entry s i) i _).1.tts_buffer = _
      rw [hf.2.2.2.2.2.2.2.1]
      by_cases hl : (entry s i).tts_buffer.length ≤ i.nframes
      · rw [Nat.min_eq_left hl, List.drop_of_length_le (le_refl _), List.drop_of_length_le hl]
      · rw [Nat.min_eq_right (by omega)]
  · rw [if_neg ht] at hb
    have hi := idle_shared hb
    have hempty : (entry s i).tts_buffer = [] := by
      have : transmit_intent s i = false := by simpa using ht
      unfold transmit_intent at this
      simp only [Bool.or_eq_false_iff, Bool.not_eq_false', List.isEmpty_iff] at this
      exact this.2
    subst hs
    refine ⟨hi.1.trans he.2.2.2.2.1, hi.2.1.trans he.2.2.2.2.2.1,
      hi.2.2.1.trans (entry_play_wav s i), hi.2.2.2.2.trans he.2.2.2.1, ?_, ho⟩
    show s3.tts_buffer = _
    rw [hi.2.2.2.1, hempty, List.drop_nil]

/-- Without a delivery of the PTT signal the asynchronous activity leaves
`sig_ptt_val` as it is. -/
theorem deliver_sig_ptt_val (s : State σ) (a : Async) (h : a.sigptt = 0) :
    (deliver s a).sig_ptt_val = s.sig_ptt_val := by
  unfold deliver
  rw [h]
  dsimp only
  split <;> rfl

/-- In software-PTT mode transmit-intent is true whenever `sig_ptt_val` is
nonzero. -/
theorem transmit_intent_software (s : State σ) (i : Input)
    (hsw : i.cfg.ptt_enabled ≠ 0 ∧ i.cfg.ptt_gpio_num < 0) (hv : s.sig_ptt_val ≠ 0) :
    transmit_intent s i = true := by
  unfold transmit_intent microphone_enabled
  rw [if_pos hsw]
  simp [hv]

/-- Callbacks in software-PTT mode without a delivery of the PTT signal in
between leave `sig_ptt_val` as it is, and all transmit if it is nonzero. -/
theorem run_software_ptt {C : Converter} {K : Codec σ} :
    ∀ (steps : List (Async × Input)) (s s1 : State σ) (outs : List Output),
      run C K s steps = .ok (s1, outs) →
      (∀ st ∈ steps, st.1.sigptt = 0 ∧ st.2.cfg.ptt_enabled ≠ 0 ∧ st.2.cfg.ptt_gpio_num < 0) →
      s1.sig_ptt_val = s.sig_ptt_val ∧
      (s.sig_ptt_val ≠ 0 → ∀ o ∈ outs, o.transmitting_cur = true) := by
  intro steps
  induction steps with
  | nil =>
    intro s s1 outs h _
    obtain ⟨rfl, rfl⟩ := run_nil_ok h
    exact ⟨rfl, fun _ o ho => by cases ho⟩
  | cons st rest ih =>
    intro s s1 outs h hq
    obtain ⟨a, i⟩ := st
    obtain ⟨s2, o, os, hp, hr, rfl⟩ := run_cons_ok h
    have hst := hq (a, i) (List.mem_cons_self _ _)
    have hd := deliver_sig_ptt_val s a hst.1
    have hs := process_shared hp
    obtain ⟨h1, h2⟩ := ih s2 s1 os hr (fun x hx => hq x (List.mem_cons_of_mem _ hx))
    have e2 : s2.sig_ptt_val = s.sig_ptt_val := hs.1.trans hd
    refine ⟨h1.trans e2, ?_⟩
    intro hv o1 ho1
    rcases List.mem_cons.1 ho1 with rfl | hm
    · rw [hs.2.2.2.2.2]
      exact transmit_intent_software _ i hst.2 (by rw [hd]; exact hv)
    · exact h2 (by rw [e2]; exact hv) o1 hm

/-- C18 (amended): the callback reads the software PTT bit and never writes
it. Over callbacks in software-PTT mode with no delivery of the PTT signal in
between, `sig_ptt_val` after the last callback is what it was before the
first; if it is nonzero every one of these callbacks transmits; and the next
delivery of the signal (`handle_sigptt`) is what changes it, to the opposite of
the value before the first callback. One trigger asserts PTT until the next
trigger. -/
theorem software_ptt_bit_is_not_consumed (C : Converter) (K : Codec σ)
    (steps : List (Async × Input)) (s s1 : State σ) (outs : List Output)
    (hrun : run C K s steps = .ok (s1, outs))
    (hsw : ∀ st ∈ steps,
      st.1.sigptt = 0 ∧ st.2.cfg.ptt_enabled ≠ 0 ∧ st.2.cfg.ptt_gpio_num < 0) :
    s1.sig_ptt_val = s.sig_ptt_val ∧
    (s.sig_ptt_val ≠ 0 → ∀ o ∈ outs, o.transmitting_cur = true) ∧
    (handle_sigptt s1).sig_ptt_val = (if s.sig_ptt_val = 0 then 1 else 0) := by
  obtain ⟨h1, h2⟩ := run_software_ptt steps s s1 outs hrun hsw
  refine ⟨h1, h2, ?_⟩
  show (if s1.sig_ptt_val = 0 then 1 else 0) = _
  rw [h1]

theorem software_ptt_bit_is_not_consumed_witness :
    (run passthrough loopback keyed_state [(quiet, block2), (quiet, block2)]
        = .ok (keyed_state, [held_output, held_output]) ∧
      ∀ st ∈ [(quiet, block2), (quiet, block2)],
        st.1.sigptt = 0 ∧ st.2.cfg.ptt_enabled ≠ 0 ∧ st.2.cfg.ptt_gpio_num < 0) ∧
    keyed_state.sig_ptt_val = keyed_state.sig_ptt_val ∧
    (keyed_state.sig_ptt_val ≠ 0 → ∀ o ∈ [held_output, held_output],
      o.transmitting_cur = true) ∧
    (handle_sigptt keyed_state).sig_ptt_val = (if keyed_state.sig_ptt_val = 0 then 1 else 0) :=
  have hsw : ∀ st ∈ [(quiet, block2), (quiet, block2)],
      st.1.sigptt = 0 ∧ st.2.cfg.ptt_enabled ≠ 0 ∧ st.2.cfg.ptt_gpio_num < 0 := by
    intro st hst
    simp only [List.mem_cons, List.mem_singleton, List.not_mem_nil, or_false, or_self] at hst
    subst hst
    exact ⟨rfl, by decide, by decide⟩
  ⟨⟨rfl, hsw⟩,
   software_ptt_bit_is_not_consumed passthrough loopback [(quiet, block2), (quiet, block2)]
    keyed_state keyed_state [held_output, held_output] rfl hsw⟩

/-- C18 (counterexample): software-PTT mode, one delivery of the PTT signal
before the first callback and none after. The first callback reads the bit
through `microphone_enabled` and transmits; afterwards the bit is still 1, and
the next two callbacks transmit as well. -/
theorem software_ptt_bit_stays_set :
    block2.cfg.ptt_enabled ≠ 0 ∧ block2.cfg.ptt_gpio_num < 0 ∧
    (deliver initial_state toggle).sig_ptt_val = 1 ∧
    process passthrough loopback (deliver initial_state toggle) block2
      = .ok (keyed_state, keyed_output) ∧
    keyed_state.sig_ptt_val = 1 ∧
    run passthrough loopback keyed_state [(quiet, block2), (quiet, block2)]
      = .ok (keyed_state, [held_output, held_output]) ∧
    held_output.transmitting_cur = true :=
  ⟨by decide, by decide, rfl, rfl, rfl, rfl, rfl⟩

/-! ## The schedule of the hang timer (C19) -/

/-- Without asynchronous activity the shared variables are as the previous
callback left them. -/
theorem tx_deliver_quiet (s : State σ) : deliver s quiet = s := rfl

/-- With the microphone disabled, transmit-intent says whether the TTS buffer
holds anything once the play trigger was served. -/
theorem transmit_intent_mic_off (s : State σ) (i : Input)
    (hm : (microphone_enabled i.cfg s.sig_ptt_val s.ptt_in_line i.gpiod_get_result).1 = false) :
    transmit_intent s i = decide (0 < (play_trigger s i.nframes).tts_buffer.length) := by
  unfold transmit_intent
  rw [hm, entry_tts_buffer]
  cases (play_trigger s i.nframes).tts_buffer <;> simp

/-- After a callback the play trigger is served: `play_trigger` has no effect
on the state it left. -/
theorem play_trigger_served (s : State σ) (n : Nat) (h : s.play_wav = 0) :
    play_trigger s n = s := by
  unfold play_trigger
  rw [if_neg (by simpa using h)]

/-- Over callbacks of `B` frames with the microphone disabled and no
asynchronous activity, callback `j` transmits exactly when `j * B` is less than
the length of the TTS buffer after the first callback served the play
trigger. -/
theorem run_tts {C : Converter} {K : Codec σ} (B : Nat) :
    ∀ (steps : List (Async × Input)) (s s1 : State σ) (outs : List Output),
      run C K s steps = .ok (s1, outs) →
      (∀ st ∈ steps, st.1 = quiet ∧ st.2.nframes = B ∧
        (microphone_enabled st.2.cfg s.sig_ptt_val s.ptt_in_line
          st.2.gpiod_get_result).1 = false) →
      (∀ (j : Nat) (o : Output), outs[j]? = some o →
        o.transmitting_cur = decide (j * B < (play_trigger s B).tts_buffer.length)) ∧
      (steps ≠ [] → s1.play_wav = 0 ∧
        s1.tts_buffer = (play_trigger s B).tts_buffer.drop (steps.length * B)) := by
  intro steps
  induction steps with
  | nil =>
    intro s s1 outs h _
    obtain ⟨rfl, rfl⟩ := run_nil_ok h
    exact ⟨fun j o ho => by simp at ho, fun h => absurd rfl h⟩
  | cons st rest ih =>
    intro s s1 outs h hq
    obtain ⟨a, i⟩ := st
    obtain ⟨s2, o, os, hp, hr, rfl⟩ := run_cons_ok h
    obtain ⟨ha, hn, hm⟩ := hq (a, i) (List.mem_cons_self _ _)
    dsimp only at ha hn hm
    subst ha
    rw [tx_deliver_quiet] at hp
    have hs := process_shared hp
    have hbuf : s2.tts_buffer = (play_trigger s B).tts_buffer.drop B := by
      rw [hs.2.2.2.2.1, entry_tts_buffer, hn]
    have hpt : play_trigger s2 B = s2 := play_trigger_served s2 B hs.2.2.1
    obtain ⟨h1, h2⟩ := ih s2 s1 os hr (by
      intro x hx
      have := hq x (List.mem_cons_of_mem _ hx)
      rw [hs.1, hs.2.2.2.1]
      exact this)
    rw [hpt, hbuf] at h1 h2
    refine ⟨?_, ?_⟩
    · intro j o1 ho1
      cases j with
      | zero =>
        simp only [List.getElem?_cons_zero, Option.some.injEq] at ho1
        subst ho1
        rw [hs.2.2.2.2.2, transmit_intent_mic_off s i hm, hn, Nat.zero_mul]
      | succ j =>
        simp only [List.getElem?_cons_succ] at ho1
        rw [h1 j o1 ho1, decide_eq_decide, List.length_drop, Nat.succ_mul]
        omega
    · intro _
      cases rest with
      | nil =>
        obtain ⟨rfl, -⟩ := run_nil_ok hr
        refine ⟨hs.2.2.1, ?_⟩
        rw [hbuf]
        simp
      | cons st2 rest2 =>
        obtain ⟨h3, h4⟩ := h2 (by simp)
        refine ⟨h3, ?_⟩
        rw [h4, List.drop_drop]
        congr 1
        simp only [List.length_cons]
        rw [Nat.succ_mul (rest2.length + 1)]
        omega

/-- Callback `j` comes before the buffer of `6 * B + K` samples is used up
exactly when `j` is less than 6 plus `K / B` rounded up. -/
theorem tts_callbacks (B K j : Nat) (hB : 1 ≤ B) :
    j * B < 6 * B + K ↔ j < 6 + (K + B - 1) / B := by
  by_cases h6 : j < 6
  · constructor
    · intro _; exact Nat.lt_of_lt_of_le h6 (Nat.le_add_right _ _)
    · intro _
      have : j * B ≤ 5 * B := Nat.mul_le_mul_right B (by omega)
      omega
  · obtain ⟨d, rfl⟩ : ∃ d, j = d + 6 := ⟨j - 6, by omega⟩
    have e : (d + 6) * B = d * B + 6 * B := Nat.add_mul _ _ _
    have hdiv : d + 1 ≤ (K + B - 1) / B ↔ (d + 1) * B ≤ K + B - 1 :=
      Nat.le_div_iff_mul_le (by omega)
    have e2 : (d + 1) * B = d * B + B := Nat.succ_mul _ _
    rw [e]
    constructor
    · intro h
      have : d + 1 ≤ (K + B - 1) / B := hdiv.2 (by omega)
      omega
    · intro h
      have : (d + 1) * B ≤ K + B - 1 := hdiv.1 (by omega)
      omega

/-- A transmitting callback returns when the speech frame length and the block
size are not 0 and `required_elems` is at least `nframes`. -/
theorem process_transmitting_returns (C : Converter) (K : Codec σ) (s : State σ) (i : Input)
    (ht : transmit_intent s i = true) (hn : 0 < i.n_speech_samples) (hB : i.nframes ≠ 0)
    (hr : i.nframes ≤ required_elems i) : ∃ r, process C K s i = .ok r := by
  obtain ⟨⟨inr, outr, k, ev⟩, he⟩ := encode_loop_total C K i.n_speech_samples hn
    ((tx_front C (entry s i) i
        (microphone_enabled i.cfg s.sig_ptt_val s.ptt_in_line i.gpiod_get_result).1
      ).1.input_resampler.available_elems + 1)
    (tx_front C (entry s i) i
      (microphone_enabled i.cfg s.sig_ptt_val s.ptt_in_line i.gpiod_get_result).1
      ).1.input_resampler
    (tx_front C (entry s i) i
      (microphone_enabled i.cfg s.sig_ptt_val s.ptt_in_line i.gpiod_get_result).1
      ).1.output_resampler
    (tx_front C (entry s i) i
      (microphone_enabled i.cfg s.sig_ptt_val s.ptt_in_line i.gpiod_get_result).1
      ).1.crypto_tx (Nat.lt_succ_self _)
  obtain ⟨⟨s4, mf, ev4⟩, ho⟩ := transmit_output_total
    { (tx_front C (entry s i) i
        (microphone_enabled i.cfg s.sig_ptt_val s.ptt_in_line i.gpiod_get_result).1).1 with
      input_resampler := inr, output_resampler := outr, crypto_tx := k } i hB
    (by
      by_cases h : outr.available_elems < required_elems i
      · exact Or.inl h
      · exact Or.inr (by show i.nframes ≤ outr.available_elems; omega))
  dsimp only at ho
  cases hpr : process C K s i with
  | ok r => exact ⟨r, rfl⟩
  | error f =>
    exfalso
    unfold process at hpr
    simp only [ht, if_true] at hpr
    unfold transmitting at hpr
    dsimp only at hpr
    rw [he] at hpr
    dsimp only at hpr
    rw [ho] at hpr
    cases hpr

/-- C20 (amended): a play trigger is cleared by `play_trigger` in the callback
that sees it, and for a block size `B` with `6 * B` below `2 ^ 32` it appends
`6 * B` zeros followed by `tts_file` to the TTS buffer. With the TTS buffer
empty before the trigger, the microphone disabled throughout, block size `B ≥ 1`
in every callback and no asynchronous activity, callback number `j + 1` of a run
transmits exactly when `j < 6 + (K + B - 1) / B`, where `K` is the length of
`tts_file`; after the run `play_wav` is 0 and the TTS buffer is what is left of
the padded prompt. -/
theorem play_trigger_transmit_count (C : Converter) (K : Codec σ) (s s1 : State σ) (B : Nat)
    (steps : List (Async × Input)) (outs : List Output)
    (hB : 1 ≤ B) (hwrap : B * 6 < 2 ^ 32)
    (htrig : s.play_wav ≠ 0) (hempty : s.tts_buffer = [])
    (hsteps : ∀ st ∈ steps, st.1 = quiet ∧ st.2.nframes = B ∧
      (microphone_enabled st.2.cfg s.sig_ptt_val s.ptt_in_line st.2.gpiod_get_result).1 = false)
    (hrun : run C K s steps = .ok (s1, outs)) :
    (play_trigger s B).play_wav = 0 ∧
    (play_trigger s B).tts_buffer = List.replicate (6 * B) 0 ++ s.tts_file ∧
    (∀ (j : Nat) (o : Output), outs[j]? = some o →
      o.transmitting_cur = decide (j < 6 + (s.tts_file.length + B - 1) / B)) ∧
    (steps ≠ [] → s1.play_wav = 0 ∧
      s1.tts_buffer = (List.replicate (6 * B) 0 ++ s.tts_file).drop (steps.length * B)) := by
  have hbuf : (play_trigger s B).tts_buffer = List.replicate (6 * B) 0 ++ s.tts_file := by
    unfold play_trigger
    rw [if_pos htrig, Nat.mod_eq_of_lt hwrap, hempty, Nat.mul_comm B 6]
    rfl
  have hpw : (play_trigger s B).play_wav = 0 := by
    unfold play_trigger
    rw [if_pos htrig]
  obtain ⟨h1, h2⟩ := run_tts B steps s s1 outs hrun hsteps
  rw [hbuf] at h1 h2
  refine ⟨hpw, hbuf, ?_, h2⟩
  intro j o ho
  rw [h1 j o ho, decide_eq_decide, List.length_append, List.length_replicate]
  exact tts_callbacks B s.tts_file.length j hB

theorem play_trigger_transmit_count_witness :
    (1 ≤ 2 ∧ 2 * 6 < 2 ^ 32 ∧ prompt_state.play_wav ≠ 0 ∧ prompt_state.tts_buffer = [] ∧
      (∀ st ∈ List.replicate 8 (quiet, block2), st.1 = quiet ∧ st.2.nframes = 2 ∧
        (microphone_enabled st.2.cfg prompt_state.sig_ptt_val prompt_state.ptt_in_line
          st.2.gpiod_get_result).1 = false) ∧
      run passthrough loopback prompt_state (List.replicate 8 (quiet, block2))
        = .ok (prompt_done_state,
            [prompt_first_output, prompt_pad_output, prompt_pad_output, prompt_pad_output,
             prompt_pad_output, prompt_pad_output, prompt_last_output, falling_output])) ∧
    (play_trigger prompt_state 2).play_wav = 0 ∧
    (play_trigger prompt_state 2).tts_buffer = List.replicate (6 * 2) 0 ++ prompt_state.tts_file ∧
    (∀ (j : Nat) (o : Output),
      [prompt_first_output, prompt_pad_output, prompt_pad_output, prompt_pad_output,
        prompt_pad_output, prompt_pad_output, prompt_last_output, falling_output][j]? = some o →
      o.transmitting_cur = decide (j < 6 + (prompt_state.tts_file.length + 2 - 1) / 2)) ∧
    (List.replicate 8 (quiet, block2) ≠ [] → prompt_done_state.play_wav = 0 ∧
      prompt_done_state.tts_buffer =
        (List.replicate (6 * 2) 0 ++ prompt_state.tts_file).drop
          ((List.replicate 8 (quiet, block2)).length * 2)) :=
  have hsteps : ∀ st ∈ List.replicate 8 (quiet, block2), st.1 = quiet ∧ st.2.nframes = 2 ∧
      (microphone_enabled st.2.cfg prompt_state.sig_ptt_val prompt_state.ptt_in_line
        st.2.gpiod_get_result).1 = false := by
    intro st hst
    rw [List.eq_of_mem_replicate hst]
    exact ⟨rfl, rfl, rfl⟩
  ⟨⟨by decide, by decide, by decide, rfl, hsteps, rfl⟩,
   play_trigger_transmit_count passthrough loopback prompt_state prompt_done_state 2
    (List.replicate 8 (quiet, block2))
    [prompt_first_output, prompt_pad_output, prompt_pad_output, prompt_pad_output,
     prompt_pad_output, prompt_pad_output, prompt_last_output, falling_output]
    (by decide) (by decide) (by decide) rfl hsteps rfl⟩

/-- C20 (counterexample): block size 715827883, for which `nframes * 6`
computed in 32 bits is 2, and a prompt of one sample. The play trigger appends
two zeros and the prompt, not 4294967298 zeros and the prompt; the first
callback returns, transmits and takes all three samples; the TTS buffer is
empty after it and transmit-intent is false in the second callback, not true
for seven callbacks. -/
theorem play_trigger_padding_wraps :
    1 ≤ wrap_block.nframes ∧ prompt_state.play_wav ≠ 0 ∧ prompt_state.tts_buffer = [] ∧
    (microphone_enabled wrap_block.cfg prompt_state.sig_ptt_val prompt_state.ptt_in_line
      wrap_block.gpiod_get_result).1 = false ∧
    (wrap_block.nframes * 6) % 2 ^ 32 = 2 ∧
    (play_trigger prompt_state wrap_block.nframes).tts_buffer = [0, 0, 5] ∧
    6 + (prompt_state.tts_file.length + wrap_block.nframes - 1) / wrap_block.nframes = 7 ∧
    ∃ s1 o, process passthrough loopback prompt_state wrap_block = .ok (s1, o) ∧
      o.transmitting_cur = true ∧ s1.tts_buffer = [] ∧
      transmit_intent s1 wrap_block = false := by
  have ht : transmit_intent prompt_state wrap_block = true := rfl
  have hr : wrap_block.nframes ≤ required_elems wrap_block := by decide
  obtain ⟨⟨s1, o⟩, hp⟩ := process_transmitting_returns passthrough loopback prompt_state
    wrap_block ht (by decide) (by decide) hr
  have hs := process_shared hp
  have hb : s1.tts_buffer = [] := by
    rw [hs.2.2.2.2.1, entry_tts_buffer]
    rfl
  refine ⟨by decide, by decide, rfl, rfl, by decide, rfl, by decide, s1, o, hp, ?_, hb, ?_⟩
  · rw [hs.2.2.2.2.2, ht]
  · have hm : (microphone_enabled wrap_block.cfg s1.sig_ptt_val s1.ptt_in_line
        wrap_block.gpiod_get_result).1 = false := by
      rw [hs.1, hs.2.2.2.1]
      rfl
    rw [transmit_intent_mic_off s1 wrap_block hm, play_trigger_served s1 _ hs.2.2.1, hb]
    rfl

/-! ## Reloading the session (C15) -/

/-- A reload does not depend on what was installed before it. -/
theorem tx_reload_forgets (construct : Option σ) (p q : Session σ) :
    reload construct p = reload construct q := by
  unfold reload initialize_crypto
  cases construct <;> rfl

/-! ## No PTT input at all (C21) -/

/-- Without software PTT and without a PTT input line the microphone is
always on, and no GPIO call is made. -/
theorem microphone_enabled_open (cfg : config) (v r : Int)
    (hcfg : ¬(cfg.ptt_enabled ≠ 0 ∧ cfg.ptt_gpio_num < 0)) :
    microphone_enabled cfg v false r = (true, []) := by
  unfold microphone_enabled
  rw [if_neg hcfg]
  rfl

/-- Without software PTT and without a PTT input line transmit-intent is true
in every state. -/
theorem transmit_intent_open (s : State σ) (i : Input) (hline : s.ptt_in_line = false)
    (hcfg : ¬(i.cfg.ptt_enabled ≠ 0 ∧ i.cfg.ptt_gpio_num < 0)) :
    transmit_intent s i = true := by
  unfold transmit_intent
  rw [hline, microphone_enabled_open i.cfg _ _ hcfg]
  rfl

/-- A callback that returns with transmit-intent true called neither
`set_ptt_val(false)` nor `force_rekey_next_frame()`. -/
theorem process_transmitting_calls {C : Converter} {K : Codec σ} {s s1 : State σ} {i : Input}
    {o : Output} (h : process C K s i = .ok (s1, o)) (ht : transmit_intent s i = true) :
    o.transmitting_cur = true ∧ Event.set_ptt_val false ∉ o.events ∧
    Event.force_rekey_next_frame ∉ o.events := by
  have hp := process_ptt h
  obtain ⟨s3, ev, hb, -, -, hev⟩ := process_ok h
  rw [if_pos ht] at hb
  refine ⟨hp.1.trans ht, ?_, ?_⟩
  · intro hm
    have : Event.set_ptt_val false ∈ ptt_events o.events := mem_ptt_events.2 ⟨hm, rfl⟩
    rw [(hp.2.2.2.1 ht).2.2] at this
    exact (set_ptt_val_true_events _ _ _).2.1 this
  · rw [hev]
    simp only [List.mem_append, not_or]
    refine ⟨⟨by simp, microphone_enabled_no_rekey _ _ _ _⟩, transmitting_no_rekey hb⟩

/-- Over a run without software PTT and without a PTT input line every
callback transmits. -/
theorem run_open_microphone {C : Converter} {K : Codec σ} :
    ∀ (steps : List (Async × Input)) (s s1 : State σ) (outs : List Output),
      run C K s steps = .ok (s1, outs) →
      s.ptt_in_line = false →
      (∀ st ∈ steps, ¬(st.2.cfg.ptt_enabled ≠ 0 ∧ st.2.cfg.ptt_gpio_num < 0)) →
      s1.ptt_in_line = false ∧
      ∀ o ∈ outs, o.transmitting_cur = true ∧ Event.set_ptt_val false ∉ o.events ∧
        Event.force_rekey_next_frame ∉ o.events := by
  intro steps
  induction steps with
  | nil =>
    intro s s1 outs h hline _
    obtain ⟨rfl, rfl⟩ := run_nil_ok h
    exact ⟨hline, fun o ho => by cases ho⟩
  | cons st rest ih =>
    intro s s1 outs h hline hcfg
    obtain ⟨a, i⟩ := st
    obtain ⟨s2, o, os, hp, hr, rfl⟩ := run_cons_ok h
    have hd : (deliver s a).ptt_in_line = false := by
      rw [(deliver_fields s a).2.2.2.2.2.2.2.2]; exact hline
    have ht := transmit_intent_open (deliver s a) i hd (hcfg (a, i) (List.mem_cons_self _ _))
    have h2 : s2.ptt_in_line = false := by
      rw [(process_shared hp).2.2.2.1]; exact hd
    obtain ⟨h3, h4⟩ := ih s2 s1 os hr h2 (fun x hx => hcfg x (List.mem_cons_of_mem _ hx))
    refine ⟨h3, ?_⟩
    intro o1 ho1
    rcases List.mem_cons.1 ho1 with rfl | hm
    · exact process_transmitting_calls hp ht
    · exact h4 o1 hm

/-- C21. When software PTT is not selected (not both `ptt_enabled` set and
`ptt_gpio_num < 0`) and no PTT input line is open, `microphone_enabled` returns
true without any GPIO call, transmit-intent is true in every state, and over
every run of callbacks in that configuration each callback takes the
transmitting branch: it calls neither `set_ptt_val(false)` nor
`force_rekey_next_frame()`, which the idle branch alone calls, and the input
line is still closed afterwards. -/
theorem open_microphone_always_transmits (C : Converter) (K : Codec σ) (s s1 : State σ)
    (steps : List (Async × Input)) (outs : List Output)
    (hline : s.ptt_in_line = false)
    (hcfg : ∀ st ∈ steps, ¬(st.2.cfg.ptt_enabled ≠ 0 ∧ st.2.cfg.ptt_gpio_num < 0))
    (hrun : run C K s steps = .ok (s1, outs)) :
    (∀ st ∈ steps, ∀ (v r : Int), microphone_enabled st.2.cfg v false r = (true, [])) ∧
    (∀ st ∈ steps, ∀ t : State σ, t.ptt_in_line = false → transmit_intent t st.2 = true) ∧
    (∀ o ∈ outs, o.transmitting_cur = true ∧ Event.set_ptt_val false ∉ o.events ∧
      Event.force_rekey_next_frame ∉ o.events) ∧
    s1.ptt_in_line = false := by
  obtain ⟨h1, h2⟩ := run_open_microphone steps s s1 outs hrun hline hcfg
  exact ⟨fun st hst v r => microphone_enabled_open st.2.cfg v r (hcfg st hst),
    fun st hst t ht => transmit_intent_open t st.2 ht (hcfg st hst), h2, h1⟩

theorem open_microphone_always_transmits_witness :
    (initial_state.ptt_in_line = false ∧
      (∀ st ∈ [(quiet, block2_hardware), (quiet, block2_hardware)],
        ¬(st.2.cfg.ptt_enabled ≠ 0 ∧ st.2.cfg.ptt_gpio_num < 0)) ∧
      run passthrough loopback initial_state [(quiet, block2_hardware), (quiet, block2_hardware)]
        = .ok ({ keyed_state with sig_ptt_val := 0 }, [keyed_output, held_output])) ∧
    (∀ st ∈ [(quiet, block2_hardware), (quiet, block2_hardware)], ∀ (v r : Int),
      microphone_enabled st.2.cfg v false r = (true, [])) ∧
    (∀ st ∈ [(quiet, block2_hardware), (quiet, block2_hardware)], ∀ t : State Unit,
      t.ptt_in_line = false → transmit_intent t st.2 = true) ∧
    (∀ o ∈ [keyed_output, held_output], o.transmitting_cur = true ∧
      Event.set_ptt_val false ∉ o.events ∧ Event.force_rekey_next_frame ∉ o.events) ∧
    ({ keyed_state with sig_ptt_val := 0 } : State Unit).ptt_in_line = false :=
  have hcfg : ∀ st ∈ [(quiet, block2_hardware), (quiet, block2_hardware)],
      ¬(st.2.cfg.ptt_enabled ≠ 0 ∧ st.2.cfg.ptt_gpio_num < 0) := by
    intro st hst
    simp only [List.mem_cons, List.mem_singleton, List.not_mem_nil, or_false, or_self] at hst
    subst hst
    decide
  ⟨⟨rfl, hcfg, rfl⟩,
   open_microphone_always_transmits passthrough loopback initial_state
    { keyed_state with sig_ptt_val := 0 } [(quiet, block2_hardware), (quiet, block2_hardware)]
    [keyed_output, held_output] rfl hcfg rfl⟩

/-! ## The modem block in terms of the state at entry (C8, C9) -/

theorem encoder_results_append (a b : List Event) :
    encoder_results (a ++ b) = encoder_results a ++ encoder_results b := by
  induction a with
  | nil => rfl
  | cons e a ih => cases e <;> simp [encoder_results, ih]

theorem microphone_enabled_no_results (cfg : config) (v : Int) (l : Bool) (r : Int) :
    encoder_results (microphone_enabled cfg v l r).2 = [] := by
  unfold microphone_enabled
  split_ifs <;> rfl

theorem set_ptt_val_no_results (l : Bool) (p : Int) (v : Bool) (r : Int) :
    encoder_results (set_ptt_val l p v r).2 = [] := by
  unfold set_ptt_val
  dsimp only
  split_ifs <;> rfl

theorem tx_front_no_results (C : Converter) (s : State σ) (i : Input) (m : Bool) :
    encoder_results (tx_front C s i m).2 = [] := by
  unfold tx_front
  dsimp only
  rw [encoder_results_append, encoder_results_append, set_ptt_val_no_results]
  have h1 : encoder_results
      (if (!s.transmitting_prev) = true then prime C { s with delay_periods := 0 } i
       else ({ s with delay_periods := 0 }, [])).2 = [] := by
    split <;> rfl
  rw [h1]
  unfold blend
  dsimp only
  split_ifs <;> rfl

theorem hang_timer_no_results (s : State σ) (i : Input) (af : Nat) :
    encoder_results (hang_timer s i af).2 = [] := by
  unfold hang_timer
  split_ifs
  · exact set_ptt_val_no_results _ _ _ _
  · rfl
  · rfl

/-- The output converter the transmitting branch hands to the encode loop. -/
theorem tx_front_output (C : Converter) (s : State σ) (i : Input) (m : Bool) :
    (tx_front C (entry s i) i m).1.output_resampler = output_at_entry C s i := by
  have he := entry_fields s i
  unfold tx_front
  dsimp only
  rw [(blend_fields C _ i m).2.2.2.2.2.2.2.2.1]
  unfold output_at_entry
  rw [he.2.2.2.2.2.2.2.1]
  cases s.transmitting_prev
  · simp [prime, he.2.2.2.2.2.2.2.2.2]
  · simp [he.2.2.2.2.2.2.2.2.2]

/-- The encode loop enqueues every encoder result into the output converter,
and the results are those of the codec on the frames it was given. -/
theorem encode_loop_trace (C : Converter) (K : Codec σ) (n : Nat) :
    ∀ (fuel : Nat) (inr outr : resampler) (k : σ) (inr1 outr1 : resampler) (k1 : σ)
      (ev : List Event),
      encode_loop C K n fuel inr outr k = .ok (inr1, outr1, k1, ev) →
        outr1 = (encoder_results ev).foldl (fun o x => o.enqueue C x) outr ∧
        encode_all K k (encoder_frames ev) = (k1, encoder_results ev) := by
  intro fuel
  induction fuel with
  | zero => intro inr outr k inr1 outr1 k1 ev h; cases h
  | succ fuel ih =>
    intro inr outr k inr1 outr1 k1 ev h
    unfold encode_loop at h
    by_cases hge : inr.available_elems ≥ n
    · rw [if_pos hge] at h
      have hd : inr.dequeue n = .ok (inr.ready.take n, { inr with ready := inr.ready.drop n }) := by
        unfold resampler.dequeue
        rw [if_pos hge]
      rw [hd] at h
      dsimp only at h
      split at h
      · cases h
      · rename_i inr2 outr2 k2 ev2 hrec
        obtain ⟨h1, h2⟩ := ih _ _ _ _ _ _ _ hrec
        simp only [Except.ok.injEq, Prod.mk.injEq] at h
        obtain ⟨-, ho, hk, he⟩ := h
        subst he
        subst ho
        subst hk
        refine ⟨?_, ?_⟩
        · show _ = (encoder_results (_ :: _ :: _ :: ev2)).foldl _ outr
          simp only [encoder_results, List.foldl_cons]
          exact h1
        · show encode_all K k (encoder_frames (_ :: _ :: _ :: ev2)) =
            (_, encoder_results (_ :: _ :: _ :: ev2))
          simp only [encoder_frames, encoder_results, encode_all, h2]
    · rw [if_neg hge] at h
      simp only [Except.ok.injEq, Prod.mk.injEq] at h
      obtain ⟨-, ho, hk, he⟩ := h
      subst he
      subst ho
      subst hk
      exact ⟨rfl, rfl⟩

/-- The encoder results of the drain loop are those of the codec on the frames
it was given. -/
theorem drain_loop_codec (C : Converter) (K : Codec σ) (n : Nat) :
    ∀ (fuel : Nat) (inr outr : resampler) (k : σ) (inr1 outr1 : resampler) (k1 : σ)
      (ev : List Event),
      drain_loop C K n fuel inr outr k = .ok (inr1, outr1, k1, ev) →
        encode_all K k (encoder_frames ev) = (k1, encoder_results ev) := by
  intro fuel
  induction fuel with
  | zero => intro inr outr k inr1 outr1 k1 ev h; cases h
  | succ fuel ih =>
    intro inr outr k inr1 outr1 k1 ev h
    unfold drain_loop at h
    by_cases hne : inr.available_elems ≠ 0
    · rw [if_pos hne] at h
      have hd : inr.dequeue (min n inr.available_elems) =
          .ok (inr.ready.take (min n inr.available_elems),
               { inr with ready := inr.ready.drop (min n inr.available_elems) }) := by
        unfold resampler.dequeue
        rw [if_pos (Nat.min_le_right _ _)]
      rw [hd] at h
      dsimp only at h
      split at h
      · cases h
      · rename_i inr2 outr2 k2 ev2 hrec
        have h2 := ih _ _ _ _ _ _ _ hrec
        simp only [Except.ok.injEq, Prod.mk.injEq] at h
        obtain ⟨-, -, hk, he⟩ := h
        subst he
        subst hk
        show encode_all K k (encoder_frames (_ :: _ :: _ :: ev2)) =
          (_, encoder_results (_ :: _ :: _ :: ev2))
        simp only [encoder_frames, encoder_results, encode_all, h2]
    · rw [if_neg hne] at h
      simp only [Except.ok.injEq, Prod.mk.injEq] at h
      obtain ⟨-, -, hk, he⟩ := h
      subst he
      subst hk
      rfl

theorem set_ptt_val_no_frames (l : Bool) (p : Int) (v : Bool) (r : Int) :
    encoder_frames (set_ptt_val l p v r).2 = [] := by
  unfold set_ptt_val
  dsimp only
  split_ifs <;> rfl

theorem tx_front_no_frames (C : Converter) (s : State σ) (i : Input) (m : Bool) :
    encoder_frames (tx_front C s i m).2 = [] := by
  unfold tx_front
  dsimp only
  rw [encoder_frames_append, encoder_frames_append, set_ptt_val_no_frames]
  have h1 : encoder_frames
      (if (!s.transmitting_prev) = true then prime C { s with delay_periods := 0 } i
       else ({ s with delay_periods := 0 }, [])).2 = [] := by
    split <;> rfl
  rw [h1]
  unfold blend
  dsimp only
  split_ifs <;> rfl

/-- A transmitting callback that returns, in terms of the state it was entered
in: the encoder results are those of the codec on the frames handed to it,
the output converter reaching the output stage is the one at entry with every
result enqueued, and the output stage either dequeues `nframes` samples from
it or leaves it as it is and writes zeros. -/
theorem process_transmitting_stage {C : Converter} {K : Codec σ} {s s1 : State σ} {i : Input}
    {o : Output} (h : process C K s i = .ok (s1, o)) (ht : transmit_intent s i = true) :
    encode_all K s.crypto_tx (encoder_frames o.events) = (s1.crypto_tx, encoder_results o.events) ∧
    ((required_elems i ≤
          ((encoder_results o.events).foldl (fun r x => r.enqueue C x)
            (output_at_entry C s i)).ready.length ∧
        i.nframes ≤
          ((encoder_results o.events).foldl (fun r x => r.enqueue C x)
            (output_at_entry C s i)).ready.length ∧
        o.modem_frames =
          ((encoder_results o.events).foldl (fun r x => r.enqueue C x)
            (output_at_entry C s i)).ready.take i.nframes ∧
        out_dequeued o.events = o.modem_frames ∧
        s1.output_resampler.ready =
          ((encoder_results o.events).foldl (fun r x => r.enqueue C x)
            (output_at_entry C s i)).ready.drop i.nframes) ∨
     (((encoder_results o.events).foldl (fun r x => r.enqueue C x)
            (output_at_entry C s i)).ready.length < required_elems i ∧
        o.modem_frames = List.replicate i.nframes 0 ∧
        out_dequeued o.events = [] ∧
        s1.output_resampler.ready =
          ((encoder_results o.events).foldl (fun r x => r.enqueue C x)
            (output_at_entry C s i)).ready)) := by
  obtain ⟨s3, ev, hb, rfl, -, he⟩ := process_ok h
  rw [ht] at hb
  simp only [if_true] at hb
  obtain ⟨inr, outr, k, evl, ev4, hl, ho, rfl⟩ := transmitting_ok hb
  have hT := transmit_output_ok ho
  have hcs := encode_loop_codec_steps C K _ _ _ _ _ _ hl
  obtain ⟨htr1, htr2⟩ := encode_loop_trace C K _ _ _ _ _ _ _ _ _ hl
  dsimp only at hcs hT
  rw [tx_front_output] at htr1
  rw [(tx_front_fields C (entry s i) i _).2.2.2.2.2.2.2.2.1,
    (entry_fields s i).2.2.2.2.2.2.1] at htr2
  have hev4 : encoder_results ev4 = [] ∧ encoder_frames ev4 = [] := by
    rcases hT.2.2.2.2.2.2.2.2.2.2.2.2.2 with ⟨_, _, _, _, hev⟩ | ⟨_, _, _, hev⟩ <;>
      rw [hev] <;> exact ⟨rfl, rfl⟩
  have her : encoder_results o.events = encoder_results evl := by
    rw [he, encoder_results_append, encoder_results_append, encoder_results_append,
      encoder_results_append, microphone_enabled_no_results, tx_front_no_results, hev4.1]
    simp [encoder_results]
  have hef : encoder_frames o.events = encoder_frames evl := by
    rw [he, encoder_frames_append, encoder_frames_append, encoder_frames_append,
      encoder_frames_append, microphone_enabled_no_frames, tx_front_no_frames, hev4.2]
    simp [encoder_frames]
  have hod : out_dequeued o.events = out_dequeued ev4 := by
    rw [he, out_dequeued_append, out_dequeued_append, out_dequeued_append,
      out_dequeued_append, microphone_enabled_no_out_dequeue,
      (tx_front_fields C (entry s i) i _).2.2.2.2.2.2.2.2.2.2,
      out_dequeued_of_codec_steps _ hcs]
    rfl
  rw [her, hef, ← htr1, hod]
  refine ⟨?_, ?_⟩
  · rw [htr2]
    show (k, _) = (s3.crypto_tx, _)
    rw [hT.2.2.2.2.2.2.2.2.2.1]
  · show (_ ∧ _ ∧ _ ∧ _ ∧ s3.output_resampler.ready = _) ∨
      (_ ∧ _ ∧ _ ∧ s3.output_resampler.ready = _)
    rcases hT.2.2.2.2.2.2.2.2.2.2.2.2.2 with ⟨hreq, hle, hmf, hout, hev⟩ | ⟨hlt, hmf, hout, hev⟩
    · left
      refine ⟨hreq, hle, hmf, ?_, ?_⟩
      · rw [hev]
        simp [out_dequeued]
      · rw [hout]
    · right
      refine ⟨hlt, hmf, ?_, ?_⟩
      · rw [hev]; rfl
      · rw [hout]

/-- C9, as amended. In a transmitting callback with `nframes > 0` that returns
the modem block is all or nothing. Let `Q` be the queue of the output converter when the output stage is
reached: that of the converter the callback started from (the one of the state
before the callback with the current rates, primed and cleared on a rising
edge) after every encoder result of the callback was enqueued, the results
being those of the codec on the frames handed to it. A callback that returns
wrote either the first `nframes` samples of `Q`, in order, removing them from
the converter, when `Q` holds at least `required_elems` samples, or `nframes`
zeros with nothing dequeued and the converter left holding `Q`, when it holds
fewer. The callback does return when the speech frame length is above zero and
`required_elems` is at least `nframes`. Without 32-bit wrap-around
`required_elems` is `nframes * ceil(modem_resampled_frames / nframes)`, the
least multiple of `nframes` not below `modem_resampled_frames`. -/
theorem transmit_block_all_or_nothing (C : Converter) (K : Codec σ) (s : State σ) (i : Input)
    (hn : 0 < i.nframes) (ht : transmit_intent s i = true) :
    (∀ s' o, process C K s i = .ok (s', o) →
      encode_all K s.crypto_tx (encoder_frames o.events)
        = (s'.crypto_tx, encoder_results o.events) ∧
      ((required_elems i ≤
            ((encoder_results o.events).foldl (fun r x => r.enqueue C x)
              (output_at_entry C s i)).ready.length ∧
          o.modem_frames =
            ((encoder_results o.events).foldl (fun r x => r.enqueue C x)
              (output_at_entry C s i)).ready.take i.nframes ∧
          o.modem_frames.length = i.nframes ∧
          out_dequeued o.events = o.modem_frames ∧
          s'.output_resampler.ready =
            ((encoder_results o.events).foldl (fun r x => r.enqueue C x)
              (output_at_entry C s i)).ready.drop i.nframes) ∨
       (((encoder_results o.events).foldl (fun r x => r.enqueue C x)
              (output_at_entry C s i)).ready.length < required_elems i ∧
          o.modem_frames = List.replicate i.nframes 0 ∧
          out_dequeued o.events = [] ∧
          s'.output_resampler.ready =
            ((encoder_results o.events).foldl (fun r x => r.enqueue C x)
              (output_at_entry C s i)).ready))) ∧
    (0 < i.n_speech_samples → i.nframes ≤ required_elems i →
      ∃ s' o, process C K s i = .ok (s', o)) ∧
    (i.modem_resampled_frames + (i.nframes - 1) < 2 ^ 32 →
      i.nframes * ((i.modem_resampled_frames + (i.nframes - 1)) / i.nframes) < 2 ^ 32 →
      required_elems i =
        i.nframes * ((i.modem_resampled_frames + (i.nframes - 1)) / i.nframes) ∧
      i.modem_resampled_frames ≤ required_elems i ∧
      required_elems i < i.modem_resampled_frames + i.nframes) := by
  refine ⟨?_, ?_, required_elems_exact i hn⟩
  · intro s' o h
    obtain ⟨h1, h2⟩ := process_transmitting_stage h ht
    refine ⟨h1, ?_⟩
    rcases h2 with ⟨a, b, c, d, e⟩ | h2
    · left
      refine ⟨a, c, ?_, d, e⟩
      rw [c, List.length_take]
      exact Nat.min_eq_left b
    · right
      exact h2
  · intro hsp hreq
    obtain ⟨⟨s', o⟩, h⟩ := process_transmitting_returns C K s i ht hsp
      (Nat.pos_iff_ne_zero.1 hn) hreq
    exact ⟨s', o, h⟩

theorem transmit_block_all_or_nothing_witness :
    (0 < block2.nframes ∧ transmit_intent (deliver initial_state toggle) block2 = true) ∧
    (∀ s' o, process passthrough loopback (deliver initial_state toggle) block2 = .ok (s', o) →
      encode_all loopback (deliver initial_state toggle).crypto_tx (encoder_frames o.events)
        = (s'.crypto_tx, encoder_results o.events) ∧
      ((required_elems block2 ≤
            ((encoder_results o.events).foldl (fun r x => r.enqueue passthrough x)
              (output_at_entry passthrough (deliver initial_state toggle) block2)).ready.length ∧
          o.modem_frames =
            ((encoder_results o.events).foldl (fun r x => r.enqueue passthrough x)
              (output_at_entry passthrough (deliver initial_state toggle) block2)).ready.take
                block2.nframes ∧
          o.modem_frames.length = block2.nframes ∧
          out_dequeued o.events = o.modem_frames ∧
          s'.output_resampler.ready =
            ((encoder_results o.events).foldl (fun r x => r.enqueue passthrough x)
              (output_at_entry passthrough (deliver initial_state toggle) block2)).ready.drop
                block2.nframes) ∨
       (((encoder_results o.events).foldl (fun r x => r.enqueue passthrough x)
              (output_at_entry passthrough (deliver initial_state toggle) block2)).ready.length
            < required_elems block2 ∧
          o.modem_frames = List.replicate block2.nframes 0 ∧
          out_dequeued o.events = [] ∧
          s'.output_resampler.ready =
            ((encoder_results o.events).foldl (fun r x => r.enqueue passthrough x)
              (output_at_entry passthrough (deliver initial_state toggle) block2)).ready))) ∧
    (0 < block2.n_speech_samples → block2.nframes ≤ required_elems block2 →
      ∃ s' o, process passthrough loopback (deliver initial_state toggle) block2 = .ok (s', o)) ∧
    (block2.modem_resampled_frames + (block2.nframes - 1) < 2 ^ 32 →
      block2.nframes * ((block2.modem_resampled_frames + (block2.nframes - 1)) / block2.nframes)
        < 2 ^ 32 →
      required_elems block2 =
        block2.nframes * ((block2.modem_resampled_frames + (block2.nframes - 1))
          / block2.nframes) ∧
      block2.modem_resampled_frames ≤ required_elems block2 ∧
      required_elems block2 < block2.modem_resampled_frames + block2.nframes) :=
  ⟨⟨by decide, rfl⟩,
   transmit_block_all_or_nothing passthrough loopback (deliver initial_state toggle) block2
    (by decide) rfl⟩

/-- The two outcomes of the output stage on concrete callbacks: the callback
`block2` writes the two samples just encoded, and the callback `block2_held`,
for which six samples are required, leaves them queued and writes zeros. -/
theorem transmit_block_examples :
    process passthrough loopback (deliver initial_state toggle) block2
      = .ok (keyed_state, keyed_output) ∧
    keyed_output.modem_frames = [1, 2] ∧ keyed_state.output_resampler.ready = [] ∧
    (process passthrough loopback (deliver initial_state toggle) (block2_held 1)).toOption.map
      (fun r => (r.2.modem_frames, r.1.output_resampler.ready, out_dequeued r.2.events))
      = some ([0, 0], [1, 2], []) :=
  ⟨rfl, rfl, rfl, by decide⟩

/-- A falling-edge callback with a speech frame length above zero, in terms of
the state it was entered in: its calls, the frames handed to the encoder, the
encoder results, and the output converter that is flushed. -/
theorem falling_edge_callback (C : Converter) (K : Codec σ) (s : State σ) (i : Input)
    (hp : s.transmitting_prev = true) (ht : transmit_intent s i = false)
    (hn : 0 < i.n_speech_samples) :
    ∃ s1 o ev rest,
      process C K s i = .ok (s1, o) ∧
      o.events =
        [.set_sample_rates .input i.jack_sample_rate i.voice_sample_rate,
         .set_sample_rates .output i.modem_sample_rate i.jack_sample_rate]
        ++ (microphone_enabled i.cfg s.sig_ptt_val s.ptt_in_line i.gpiod_get_result).2
        ++ [.flush .input ((i.n_speech_samples * 2) % 2 ^ 64)] ++ ev
        ++ [.flush .output ((i.nframes * 2) % 2 ^ 32)] ++ rest ∧
      drain_steps i.n_speech_samples ev = true ∧
      (encoder_frames ev).length =
        (((entry s i).input_resampler.flush C
            ((i.n_speech_samples * 2) % 2 ^ 64)).available_elems + i.n_speech_samples - 1)
          / i.n_speech_samples ∧
      (encoder_frames ev).flatten =
        ((entry s i).input_resampler.flush C ((i.n_speech_samples * 2) % 2 ^ 64)).ready ++
          List.replicate ((i.n_speech_samples -
            ((entry s i).input_resampler.flush C
              ((i.n_speech_samples * 2) % 2 ^ 64)).available_elems
              % i.n_speech_samples) % i.n_speech_samples) 0 ∧
      (∀ f ∈ encoder_frames ev, f.length = i.n_speech_samples) ∧
      encoder_frames rest = [] ∧
      s1.input_resampler.available_elems = 0 ∧
      out_dequeued o.events ++ s1.output_resampler.ready =
        (((encoder_results ev).foldl (fun r x => r.enqueue C x)
            (entry s i).output_resampler).flush C ((i.nframes * 2) % 2 ^ 32)).ready ∧
      encoder_results rest = [] ∧
      (encode_all K s.crypto_tx (encoder_frames ev)).2 = encoder_results ev := by
  obtain ⟨inr1, outr1, k1, ev, hrec, hempty, hjoin, hlen, hcount⟩ :=
    drain_loop_spec C K i.n_speech_samples hn
      (((entry s i).input_resampler.flush C ((i.n_speech_samples * 2) % 2 ^ 64)).available_elems
        + 1)
      ((entry s i).input_resampler.flush C ((i.n_speech_samples * 2) % 2 ^ 64))
      (entry s i).output_resampler (entry s i).crypto_tx (Nat.lt_succ_self _)
  obtain ⟨hsteps, hout⟩ := drain_loop_trace C K _ _ _ _ _ _ _ _ _ hrec
  have hfe : falling_edge C K (entry s i) i =
      .ok ({ entry s i with
              input_resampler := inr1
              output_resampler := outr1.flush C ((i.nframes * 2) % 2 ^ 32)
              crypto_tx := k1 },
           [.flush .input ((i.n_speech_samples * 2) % 2 ^ 64)] ++ ev ++
             [.flush .output ((i.nframes * 2) % 2 ^ 32)]) := by
    unfold falling_edge
    dsimp only
    rw [hrec]
  obtain ⟨s2, mf, ev2, ho⟩ : ∃ s2 mf ev2, idle_output K
      { entry s i with
        input_resampler := inr1
        output_resampler := outr1.flush C ((i.nframes * 2) % 2 ^ 32)
        crypto_tx := k1 } i = .ok (s2, mf, ev2) := ⟨_, _, _, idle_output_eq K _ i⟩
  have hI := idle_output_ptt ho
  have hcs := drain_loop_codec_steps C K _ _ _ _ _ _ hrec
  dsimp only at hcs hI
  have hin : s2.input_resampler = inr1 := by
    have := ho
    rw [idle_output_eq] at this
    simp only [Except.ok.injEq, Prod.mk.injEq] at this
    rw [← this.1, (hang_timer_fields _ _ _).2.2.2.2.2.2.1]
  have hf2 : encoder_frames ev2 = [] := by
    have := ho
    rw [idle_output_eq] at this
    simp only [Except.ok.injEq, Prod.mk.injEq] at this
    rw [← this.2.2, encoder_frames_append,
      encoder_frames_of_ptt _ (hang_timer_fields _ _ _).2.2.2.2.2.2.2.2.2.2.1]
    rfl
  have hq : out_dequeued ev2 ++ s2.output_resampler.ready
      = (outr1.flush C ((i.nframes * 2) % 2 ^ 32)).ready := by
    have h1 := hI.2.2.2.2.2.1
    have h2 := hI.2.2.2.2.2.2.1
    rw [h2]
    generalize (out_dequeued ev2).length = L at h1 ⊢
    rw [h1]
    exact List.take_append_drop _ _
  have hidle : idle C K (entry s i) i = .ok (s2, mf,
      [.flush .input ((i.n_speech_samples * 2) % 2 ^ 64)] ++ ev ++
        [.flush .output ((i.nframes * 2) % 2 ^ 32)] ++ ev2) := by
    unfold idle
    rw [(entry_fields s i).2.2.2.2.2.2.2.1, hp]
    simp only [if_true]
    rw [hfe]
    dsimp only
    rw [ho]
  have hproc : process C K s i = .ok ({ s2 with transmitting_prev := false },
      { transmitting_cur := false
        modem_frames := mf
        events :=
          [.set_sample_rates .input i.jack_sample_rate i.voice_sample_rate,
           .set_sample_rates .output i.modem_sample_rate i.jack_sample_rate]
          ++ (microphone_enabled i.cfg s.sig_ptt_val s.ptt_in_line i.gpiod_get_result).2
          ++ ([.flush .input ((i.n_speech_samples * 2) % 2 ^ 64)] ++ ev ++
               [.flush .output ((i.nframes * 2) % 2 ^ 32)] ++ ev2) }) := by
    unfold process
    simp only [ht, Bool.false_eq_true, if_false]
    rw [hidle]
  have hr2 : encoder_results ev2 = [] := by
    have := ho
    rw [idle_output_eq] at this
    simp only [Except.ok.injEq, Prod.mk.injEq] at this
    rw [← this.2.2, encoder_results_append, hang_timer_no_results]
    rfl
  have hcodec := drain_loop_codec C K _ _ _ _ _ _ _ _ _ hrec
  rw [(entry_fields s i).2.2.2.2.2.2.1] at hcodec
  refine ⟨_, _, ev, ev2, hproc, ?_, hsteps, hcount, hjoin, hlen, hf2, ?_, ?_, hr2,
    by rw [hcodec]⟩
  · simp only [List.append_assoc]
  · show s2.input_resampler.ready.length = 0
    rw [hin, hempty]
    rfl
  · show out_dequeued (_ ++ _ ++ (_ ++ ev ++ _ ++ ev2)) ++ s2.output_resampler.ready = _
    rw [out_dequeued_append, out_dequeued_append, out_dequeued_append, out_dequeued_append,
      out_dequeued_append, out_dequeued_of_codec_steps _ hcs,
      microphone_enabled_no_out_dequeue, ← hout]
    exact hq

/-- The falling-edge callback `block2` from `keyed_state` with the converter
`passthrough`, and the three idle callbacks after it: the eight zeros that the
two flushes and the encoder put into the output converter reach the modem
port, two per callback, and the converter is empty afterwards. -/
theorem falling_edge_stream_example :
    process passthrough loopback (deliver keyed_state toggle) block2
      = .ok ({ unkeyed_state 0 1 with
                output_resampler := ⟨8000, 8000, [], [0, 0, 0, 0, 0, 0]⟩ }, falling_output) ∧
    (run passthrough loopback (deliver keyed_state toggle)
        [(quiet, block2), (quiet, block2), (quiet, block2), (quiet, block2)]).toOption.map
      (fun r => (r.2.map Output.modem_frames, r.1.output_resampler.ready))
      = some ([[0, 0], [0, 0], [0, 0], [0, 0]], []) :=
  ⟨rfl, by decide⟩

/-! ## A callback of the largest block length, and a speech frame length of 0 (C9, C12) -/

/-- With the converter `passthrough` and the codec `loopback` the encode loop
moves whole frames from the input converter to the output converter. -/
theorem encode_loop_loopback (n : Nat) :
    ∀ (fuel : Nat) (inr outr : resampler) (k : Unit) (inr1 outr1 : resampler) (k1 : Unit)
      (ev : List Event),
      encode_loop passthrough loopback n fuel inr outr k = .ok (inr1, outr1, k1, ev) →
        ∃ c, inr.ready.length = inr1.ready.length + n * c ∧
          outr1.ready.length = outr.ready.length + n * c := by
  intro fuel
  induction fuel with
  | zero => intro inr outr k inr1 outr1 k1 ev h; cases h
  | succ fuel ih =>
    intro inr outr k inr1 outr1 k1 ev h
    unfold encode_loop at h
    by_cases hge : inr.available_elems ≥ n
    · rw [if_pos hge] at h
      have hd : inr.dequeue n = .ok (inr.ready.take n, { inr with ready := inr.ready.drop n }) := by
        unfold resampler.dequeue
        rw [if_pos hge]
      rw [hd] at h
      dsimp only at h
      split at h
      · cases h
      · rename_i inr2 outr2 k2 ev2 hrec
        obtain ⟨c, h1, h2⟩ := ih _ _ _ _ _ _ _ hrec
        simp only [Except.ok.injEq, Prod.mk.injEq] at h
        obtain ⟨hi, ho, -, -⟩ := h
        subst hi
        subst ho
        have hav : inr.available_elems = inr.ready.length := rfl
        rw [hav] at hge
        have e1 : (resampler.enqueue passthrough outr
            (loopback.transmit k (List.take n inr.ready)).2).ready.length
            = outr.ready.length + n := by
          show (outr.ready ++ List.take n inr.ready).length = _
          rw [List.length_append, List.length_take, Nat.min_eq_left hge]
        simp only [List.length_drop] at h1
        rw [e1] at h2
        refine ⟨c + 1, ?_, ?_⟩
        · rw [Nat.mul_succ]; omega
        · rw [Nat.mul_succ]; omega
    · rw [if_neg hge] at h
      simp only [Except.ok.injEq, Prod.mk.injEq] at h
      obtain ⟨hi, ho, -, -⟩ := h
      subst hi
      subst ho
      exact ⟨0, by simp, by simp⟩

/-- On a rising edge with nothing in the TTS buffer and the microphone on, the
converter `passthrough` holds the `nframes` voice samples of the block when
the encode loop is reached, and the output converter is empty. -/
theorem tx_front_rising_passthrough (s : State σ) (i : Input)
    (hp : s.transmitting_prev = false) (ht : s.tts_buffer = []) (hn : i.nframes < 2 ^ 32) :
    (tx_front passthrough s i true).1.input_resampler.ready.length = i.nframes ∧
    (tx_front passthrough s i true).1.output_resampler.ready = [] := by
  unfold tx_front blend prime
  simp only [hp, ht, Bool.not_false, if_true, List.length_nil, Nat.zero_min, Nat.lt_irrefl,
    if_false, Nat.sub_zero, Nat.mod_eq_of_lt hn, List.take_zero, List.drop_zero]
  refine ⟨?_, rfl⟩
  simp [resampler.enqueue, resampler.clear, resampler.enqueue_zeroes, passthrough]

/-- A transmitting callback ends with a dequeue beyond availability when the
output converter left by the encode loop holds at least `required_elems`
samples but fewer than `nframes`. -/
theorem process_transmitting_fault (C : Converter) (K : Codec σ) (s : State σ) (i : Input)
    (m : Bool)
    (hm : (microphone_enabled i.cfg s.sig_ptt_val s.ptt_in_line i.gpiod_get_result).1 = m)
    (ht : transmit_intent s i = true) (hn : 0 < i.n_speech_samples) (h0 : i.nframes ≠ 0)
    (h : ∀ inr outr k ev,
      encode_loop C K i.n_speech_samples
        ((tx_front C (entry s i) i m).1.input_resampler.available_elems + 1)
        (tx_front C (entry s i) i m).1.input_resampler
        (tx_front C (entry s i) i m).1.output_resampler
        (tx_front C (entry s i) i m).1.crypto_tx = .ok (inr, outr, k, ev) →
      required_elems i ≤ outr.available_elems ∧ outr.available_elems < i.nframes) :
    process C K s i = .error .dequeue_beyond_available := by
  obtain ⟨⟨inr, outr, k, ev⟩, he⟩ := encode_loop_total C K i.n_speech_samples hn
    ((tx_front C (entry s i) i m).1.input_resampler.available_elems + 1)
    (tx_front C (entry s i) i m).1.input_resampler
    (tx_front C (entry s i) i m).1.output_resampler
    (tx_front C (entry s i) i m).1.crypto_tx (Nat.lt_succ_self _)
  have hb := h inr outr k ev he
  have hto : transmit_output
      { (tx_front C (entry s i) i m).1 with
        input_resampler := inr, output_resampler := outr, crypto_tx := k } i
      = .error .dequeue_beyond_available :=
    (transmit_output_dequeue_fault _ i).2 ⟨h0, hb.1, hb.2⟩
  unfold process
  simp only [ht, if_true, hm]
  unfold transmitting
  dsimp only
  rw [he]
  dsimp only
  rw [hto]

/-- The keyed callback `block_max` from the state after start-up: in 32 bits
`required_elems` is 0, the encode loop has moved whole frames of two samples,
so the output converter holds an even number of samples, fewer than `nframes`,
and `dequeue(modem_frames, nframes)` is called beyond availability. -/
theorem process_block_max_fault :
    process passthrough loopback (deliver initial_state toggle) block_max
      = .error .dequeue_beyond_available := by
  have hreq : required_elems block_max = 0 := by decide
  obtain ⟨hin, hout⟩ := tx_front_rising_passthrough
    (entry (deliver initial_state toggle) block_max) block_max rfl rfl (by decide)
  have hn2 : block_max.n_speech_samples = 2 := rfl
  have hnf : block_max.nframes = 4294967295 := rfl
  apply process_transmitting_fault passthrough loopback (deliver initial_state toggle)
    block_max true rfl rfl (by decide) (by decide)
  intro inr outr k ev he
  obtain ⟨c, hc1, hc2⟩ := encode_loop_loopback _ _ _ _ _ _ _ _ _ he
  rw [hin, hn2, hnf] at hc1
  rw [hout, hn2] at hc2
  simp only [List.length_nil, Nat.zero_add] at hc2
  refine ⟨by rw [hreq]; exact Nat.zero_le _, ?_⟩
  show outr.ready.length < block_max.nframes
  rw [hnf]
  omega

/-- With a speech frame length of 0 the test of the encode loop holds in every
pass and no pass takes a sample out of the input converter: the loop does not
exit, however many tests it is allowed. -/
theorem encode_loop_zero_frame (C : Converter) (K : Codec σ) :
    ∀ (fuel : Nat) (inr outr : resampler) (k : σ),
      encode_loop C K 0 fuel inr outr k = .error .loop_does_not_exit := by
  intro fuel
  induction fuel with
  | zero => intro inr outr k; rfl
  | succ fuel ih =>
    intro inr outr k
    unfold encode_loop
    rw [if_pos (Nat.zero_le _)]
    have hd : inr.dequeue 0 = .ok (inr.ready.take 0, { inr with ready := inr.ready.drop 0 }) := by
      unfold resampler.dequeue
      rw [if_pos (Nat.zero_le _)]
    rw [hd]
    dsimp only
    rw [ih]

/-- A transmitting callback with a speech frame length of 0 does not leave the
encode loop. -/
theorem process_zero_frame (C : Converter) (K : Codec σ) (s : State σ) (i : Input)
    (ht : transmit_intent s i = true) (h0 : i.n_speech_samples = 0) :
    process C K s i = .error .loop_does_not_exit := by
  unfold process
  simp only [ht, if_true]
  unfold transmitting
  dsimp only
  rw [h0, encode_loop_zero_frame]

/-- C9 fails as stated, in two ways. In the keyed callback `block_max` of
4294967295 frames, the largest block length of `jack_nframes_t`, with
`get_nom_resampled_frames` giving 2 for the modem frame of two samples at equal
rates, the 32-bit sum `modem_resampled_frames + (nframes - 1)` wraps to 0 and
`required_elems` is 0, not a multiple of `nframes` that covers a modem frame;
the test `available_elems() >= required_elems` holds, and the dequeue of
`nframes` samples is made beyond availability: no block is produced. And in
the keyed callback `block2_unframed`, with a speech frame length of 0, the
encode loop is never left, so the output stage is not reached. -/
theorem transmit_block_not_produced :
    0 < block_max.nframes ∧
    transmit_intent (deliver initial_state toggle) block_max = true ∧
    block_max.modem_resampled_frames = 2 ∧
    (block_max.modem_resampled_frames + (block_max.nframes - 1)) % 2 ^ 32 = 0 ∧
    required_elems block_max = 0 ∧
    process passthrough loopback (deliver initial_state toggle) block_max
      = .error .dequeue_beyond_available ∧
    0 < block2_unframed.nframes ∧
    transmit_intent (deliver initial_state toggle) block2_unframed = true ∧
    block2_unframed.n_speech_samples = 0 ∧
    process passthrough loopback (deliver initial_state toggle) block2_unframed
      = .error .loop_does_not_exit :=
  ⟨by decide, rfl, rfl, by decide, by decide, process_block_max_fault,
    by decide, rfl, rfl,
    process_zero_frame passthrough loopback (deliver initial_state toggle) block2_unframed
      rfl rfl⟩

/-- C12 (counterexample): a keyed TX callback of 4294967295 frames, the largest
block length of `jack_nframes_t`, with `get_nom_resampled_frames` giving 2 for
the modem frame of two samples at equal rates. In 32 bits
`modem_resampled_frames + (nframes - 1)` wraps to 0, so `required_elems` is 0
and the test `available_elems() >= required_elems` passes; the encode loop has
moved whole frames of two samples, so the output converter holds an even
number of samples, fewer than `nframes`, and `dequeue(modem_frames, nframes)`
is called beyond availability. -/
theorem transmit_dequeues_beyond_availability :
    block_max.modem_resampled_frames = 2 ∧
    (block_max.modem_resampled_frames + (block_max.nframes - 1)) % 2 ^ 32 = 0 ∧
    required_elems block_max = 0 ∧
    block_max.nframes = 4294967295 ∧
    transmit_intent (deliver initial_state toggle) block_max = true ∧
    process passthrough loopback (deliver initial_state toggle) block_max
      = .error .dequeue_beyond_available :=
  ⟨rfl, by decide, by decide, rfl, rfl, process_block_max_fault⟩

/-! ## Draining on the falling edge: the statement (C8) -/

/-- When transmit-intent is false the TTS buffer is empty once the play trigger
was served. -/
theorem transmit_intent_false_tts (s : State σ) (i : Input)
    (h : transmit_intent s i = false) : (entry s i).tts_buffer = [] := by
  unfold transmit_intent at h
  rw [Bool.or_eq_false_iff] at h
  have h2 := h.2
  cases hb : (entry s i).tts_buffer with
  | nil => rfl
  | cons a t => rw [hb] at h2; simp at h2

/-- An idle callback that does not follow a transmitting one returns: it has
no loop and dequeues no more than the output converter holds. -/
theorem process_idle_returns (C : Converter) (K : Codec σ) (s : State σ) (i : Input)
    (ht : transmit_intent s i = false) (hp : s.transmitting_prev = false) :
    ∃ s1 o, process C K s i = .ok (s1, o) := by
  unfold process
  simp only [ht, Bool.false_eq_true, if_false]
  unfold idle
  rw [(entry_fields s i).2.2.2.2.2.2.2.1, hp]
  simp only [Bool.false_eq_true, if_false]
  rw [idle_output_eq]
  exact ⟨_, _, rfl⟩

/-- From a state that is not transmitting, with the TTS buffer empty and no
play trigger pending, every run of callbacks without asynchronous activity and
with the microphone disabled returns, and transmit-intent is false in each of
them. -/
theorem run_idle_returns (C : Converter) (K : Codec σ) :
    ∀ (steps : List (Async × Input)) (s : State σ),
      s.transmitting_prev = false → s.tts_buffer = [] → s.play_wav = 0 →
      (∀ st ∈ steps, st.1 = quiet ∧
        (microphone_enabled st.2.cfg s.sig_ptt_val s.ptt_in_line
          st.2.gpiod_get_result).1 = false) →
      ∃ s1 outs, run C K s steps = .ok (s1, outs) ∧
        ∀ o ∈ outs, o.transmitting_cur = false := by
  intro steps
  induction steps with
  | nil => intro s _ _ _ _; exact ⟨s, [], rfl, fun o ho => by simp at ho⟩
  | cons st rest ih =>
    intro s hp htts hpw hst
    obtain ⟨a, i⟩ := st
    obtain ⟨ha, hm⟩ := hst (a, i) (List.mem_cons_self _ _)
    dsimp only at ha hm
    subst ha
    have hint : transmit_intent s i = false := by
      rw [transmit_intent_mic_off s i hm, play_trigger_served s _ hpw, htts]
      rfl
    obtain ⟨s1, o, hproc⟩ := process_idle_returns C K s i hint hp
    have hsh := process_shared hproc
    obtain ⟨s3, ev3, -, hs3, -, -⟩ := process_ok hproc
    have hp1 : s1.transmitting_prev = false := by rw [hs3]; exact hint
    have htts1 : s1.tts_buffer = [] := by
      rw [hsh.2.2.2.2.1, transmit_intent_false_tts s i hint, List.drop_nil]
    obtain ⟨s2, outs, hrun, hall⟩ := ih s1 hp1 htts1 hsh.2.2.1 (by
      intro st hmem
      rw [hsh.1, hsh.2.2.2.1]
      exact hst st (List.mem_cons_of_mem _ hmem))
    refine ⟨s2, o :: outs, ?_, ?_⟩
    · unfold run
      rw [tx_deliver_quiet, hproc]
      dsimp only
      rw [hrun]
    · intro o1 ho1
      rcases List.mem_cons.1 ho1 with rfl | h1
      · rw [hsh.2.2.2.2.2]; exact hint
      · exact hall o1 h1

/-- C8, as amended. On a falling edge with a speech frame length above zero the
callback returns, having passed every sample queued in the flushed input
converter to the encoder, in order, in frames of `n_speech_samples` with zeros
after the last sample, and leaving the input converter empty. The encoder
results are those of the codec on these frames. Let `Q` be the queue of the
output converter of the state before the callback, with the current rates,
after every encoder result was enqueued and the converter flushed: `Q` is what
the callback dequeues followed by what it leaves queued, and over that
callback and any following callbacks in which transmit-intent stays false the
modem port gets the samples of `Q`, in order and once each, followed by zeros
only. Such callbacks do return: every run of following callbacks without
asynchronous activity and with the microphone disabled returns, with
transmit-intent false throughout. -/
theorem falling_edge_drains (C : Converter) (K : Codec σ) (s : State σ) (i : Input)
    (hprev : s.transmitting_prev = true) (hint : transmit_intent s i = false)
    (hn : 0 < i.n_speech_samples) :
    ∃ s1 o, process C K s i = .ok (s1, o) ∧
      s1.input_resampler.available_elems = 0 ∧
      (encoder_frames o.events).flatten =
        ((s.input_resampler.set_sample_rates i.jack_sample_rate i.voice_sample_rate).flush C
            ((i.n_speech_samples * 2) % 2 ^ 64)).ready ++
          List.replicate ((i.n_speech_samples -
            ((s.input_resampler.set_sample_rates i.jack_sample_rate i.voice_sample_rate).flush C
              ((i.n_speech_samples * 2) % 2 ^ 64)).ready.length
              % i.n_speech_samples) % i.n_speech_samples) 0 ∧
      (∀ f ∈ encoder_frames o.events, f.length = i.n_speech_samples) ∧
      (encode_all K s.crypto_tx (encoder_frames o.events)).2 = encoder_results o.events ∧
      out_dequeued o.events ++ s1.output_resampler.ready =
        (((encoder_results o.events).foldl (fun r x => r.enqueue C x)
            (s.output_resampler.set_sample_rates i.modem_sample_rate i.jack_sample_rate)).flush
          C ((i.nframes * 2) % 2 ^ 32)).ready ∧
      (∀ (steps : List (Async × Input)) (s' : State σ) (outs : List Output),
        run C K s1 steps = .ok (s', outs) →
        (∀ o' ∈ outs, o'.transmitting_cur = false) →
        ((o :: outs).map Output.modem_frames).flatten =
          (((encoder_results o.events).foldl (fun r x => r.enqueue C x)
              (s.output_resampler.set_sample_rates i.modem_sample_rate
                i.jack_sample_rate)).flush C ((i.nframes * 2) % 2 ^ 32)).ready.take
              (i.nframes + (steps.map (fun st => st.2.nframes)).sum) ++
            List.replicate (i.nframes + (steps.map (fun st => st.2.nframes)).sum
              - (((encoder_results o.events).foldl (fun r x => r.enqueue C x)
                  (s.output_resampler.set_sample_rates i.modem_sample_rate
                    i.jack_sample_rate)).flush C ((i.nframes * 2) % 2 ^ 32)).ready.length) 0 ∧
        s'.output_resampler.ready =
          (((encoder_results o.events).foldl (fun r x => r.enqueue C x)
              (s.output_resampler.set_sample_rates i.modem_sample_rate
                i.jack_sample_rate)).flush C ((i.nframes * 2) % 2 ^ 32)).ready.drop
            (i.nframes + (steps.map (fun st => st.2.nframes)).sum)) ∧
      (∀ steps : List (Async × Input),
        (∀ st ∈ steps, st.1 = quiet ∧
          (microphone_enabled st.2.cfg s.sig_ptt_val s.ptt_in_line
            st.2.gpiod_get_result).1 = false) →
        ∃ s' outs, run C K s1 steps = .ok (s', outs) ∧
          ∀ o' ∈ outs, o'.transmitting_cur = false) := by
  obtain ⟨s1, o, hproc, hin, hjoin, hlen, hstream⟩ := falling_edge_stream C K s i hprev hint hn
  obtain ⟨s1', o', ev, rest, hproc', hev, -, -, -, -, hfr, -, hQ, hrr, hcodec⟩ :=
    falling_edge_callback C K s i hprev hint hn
  rw [hproc] at hproc'
  simp only [Except.ok.injEq, Prod.mk.injEq] at hproc'
  obtain ⟨rfl, rfl⟩ := hproc'
  have her : encoder_results o.events = encoder_results ev := by
    rw [hev, encoder_results_append, encoder_results_append, encoder_results_append,
      encoder_results_append, encoder_results_append, microphone_enabled_no_results, hrr]
    simp [encoder_results]
  have hef : encoder_frames o.events = encoder_frames ev := by
    rw [hev, encoder_frames_append, encoder_frames_append, encoder_frames_append,
      encoder_frames_append, encoder_frames_append, microphone_enabled_no_frames, hfr]
    simp [encoder_frames]
  rw [(entry_fields s i).2.2.2.2.2.2.2.2.2, ← her] at hQ
  refine ⟨s1, o, hproc, hin, hjoin, hlen, ?_, hQ, ?_, ?_⟩
  · rw [hef, her]
    exact hcodec
  · intro steps s' outs hrun hall
    have := hstream steps s' outs hrun hall
    rw [hQ] at this
    exact this
  · intro steps hst
    have hsh := process_shared hproc
    obtain ⟨s3, ev3, -, hs3, -, -⟩ := process_ok hproc
    have hp1 : s1.transmitting_prev = false := by rw [hs3]; exact hint
    have htts : s1.tts_buffer = [] := by
      rw [hsh.2.2.2.2.1, transmit_intent_false_tts s i hint, List.drop_nil]
    refine run_idle_returns C K steps s1 hp1 htts hsh.2.2.1 ?_
    intro st hmem
    rw [hsh.1, hsh.2.2.2.1]
    exact hst st hmem

theorem falling_edge_drains_witness :
    ((deliver keyed_state toggle).transmitting_prev = true ∧
      transmit_intent (deliver keyed_state toggle) block2 = false ∧
      0 < block2.n_speech_samples) ∧
    ∃ s1 o, process passthrough loopback (deliver keyed_state toggle) block2 = .ok (s1, o) ∧
      s1.input_resampler.available_elems = 0 ∧
      (encoder_frames o.events).flatten =
        (((deliver keyed_state toggle).input_resampler.set_sample_rates block2.jack_sample_rate
            block2.voice_sample_rate).flush passthrough
            ((block2.n_speech_samples * 2) % 2 ^ 64)).ready ++
          List.replicate ((block2.n_speech_samples -
            (((deliver keyed_state toggle).input_resampler.set_sample_rates
                block2.jack_sample_rate block2.voice_sample_rate).flush passthrough
              ((block2.n_speech_samples * 2) % 2 ^ 64)).ready.length
              % block2.n_speech_samples) % block2.n_speech_samples) 0 ∧
      (∀ f ∈ encoder_frames o.events, f.length = block2.n_speech_samples) ∧
      (encode_all loopback (deliver keyed_state toggle).crypto_tx
        (encoder_frames o.events)).2 = encoder_results o.events ∧
      out_dequeued o.events ++ s1.output_resampler.ready =
        (((encoder_results o.events).foldl (fun r x => r.enqueue passthrough x)
            ((deliver keyed_state toggle).output_resampler.set_sample_rates
              block2.modem_sample_rate block2.jack_sample_rate)).flush
          passthrough ((block2.nframes * 2) % 2 ^ 32)).ready ∧
      (∀ (steps : List (Async × Input)) (s' : State Unit) (outs : List Output),
        run passthrough loopback s1 steps = .ok (s', outs) →
        (∀ o' ∈ outs, o'.transmitting_cur = false) →
        ((o :: outs).map Output.modem_frames).flatten =
          (((encoder_results o.events).foldl (fun r x => r.enqueue passthrough x)
              ((deliver keyed_state toggle).output_resampler.set_sample_rates
                block2.modem_sample_rate block2.jack_sample_rate)).flush passthrough
                ((block2.nframes * 2) % 2 ^ 32)).ready.take
              (block2.nframes + (steps.map (fun st => st.2.nframes)).sum) ++
            List.replicate (block2.nframes + (steps.map (fun st => st.2.nframes)).sum
              - (((encoder_results o.events).foldl (fun r x => r.enqueue passthrough x)
                  ((deliver keyed_state toggle).output_resampler.set_sample_rates
                    block2.modem_sample_rate block2.jack_sample_rate)).flush passthrough
                    ((block2.nframes * 2) % 2 ^ 32)).ready.length) 0 ∧
        s'.output_resampler.ready =
          (((encoder_results o.events).foldl (fun r x => r.enqueue passthrough x)
              ((deliver keyed_state toggle).output_resampler.set_sample_rates
                block2.modem_sample_rate block2.jack_sample_rate)).flush passthrough
                ((block2.nframes * 2) % 2 ^ 32)).ready.drop
            (block2.nframes + (steps.map (fun st => st.2.nframes)).sum)) ∧
      (∀ steps : List (Async × Input),
        (∀ st ∈ steps, st.1 = quiet ∧
          (microphone_enabled st.2.cfg (deliver keyed_state toggle).sig_ptt_val
            (deliver keyed_state toggle).ptt_in_line st.2.gpiod_get_result).1 = false) →
        ∃ s' outs, run passthrough loopback s1 steps = .ok (s', outs) ∧
          ∀ o' ∈ outs, o'.transmitting_cur = false) :=
  ⟨⟨rfl, rfl, by decide⟩,
    falling_edge_drains passthrough loopback (deliver keyed_state toggle) block2 rfl rfl
      (by decide)⟩

end Tx

namespace Rx

/-! ## The voice block of the receive callback (C11) -/

theorem rx_out_dequeued_append (a b : List Event) :
    out_dequeued (a ++ b) = out_dequeued a ++ out_dequeued b := by
  induction a with
  | nil => rfl
  | cons e a ih =>
    cases e <;> simp [out_dequeued, ih]
    rename_i r n got
    cases r <;> simp [out_dequeued, ih]

theorem decode_iteration_eq (C : Converter) (K : Codec σ) (nin : Nat) (inr outr : resampler)
    (k : σ) (h : nin ≤ inr.available_elems) :
    decode_iteration C K nin inr outr k =
      .ok (K.needed_modem_samples (K.receive k (inr.ready.take nin)).1,
           { inr with ready := inr.ready.drop nin },
           outr.enqueue C (K.receive k (inr.ready.take nin)).2,
           (K.receive k (inr.ready.take nin)).1,
           [.dequeue .input nin (inr.ready.take nin),
            .receive (inr.ready.take nin) (K.receive k (inr.ready.take nin)).2,
            .enqueue .output (K.receive k (inr.ready.take nin)).2,
            .needed_modem_samples
              (K.needed_modem_samples (K.receive k (inr.ready.take nin)).1)]) := by
  unfold decode_iteration resampler.dequeue
  rw [if_pos h]

/-- What holds of the decode loop whenever it exits: no sample left the output
converter, the input converter holds fewer samples than the last `nin`, and
that `nin` is the one the codec reports in its final state or the one the loop
was entered with. -/
theorem decode_loop_ok (C : Converter) (K : Codec σ) :
    ∀ (fuel nin : Nat) (inr outr : resampler) (k : σ)
      (r : Nat × resampler × resampler × σ × List Event),
      decode_loop C K fuel nin inr outr k = .ok r →
      out_dequeued r.2.2.2.2 = [] ∧
      r.2.1.available_elems < r.1 ∧
      ∃ extra, r.2.2.1.ready = outr.ready ++ extra := by
  intro fuel
  induction fuel with
  | zero => intro nin inr outr k r h; simp [decode_loop] at h
  | succ fuel ih =>
    intro nin inr outr k r h
    unfold decode_loop at h
    by_cases hge : inr.available_elems ≥ nin
    · rw [if_pos hge, decode_iteration_eq C K nin inr outr k hge] at h
      dsimp only at h
      split at h
      · simp at h
      · rename_i nin2 inr2 outr2 k2 ev2 hrec
        simp only [Except.ok.injEq] at h
        subst h
        have := ih _ _ _ _ _ hrec
        dsimp only at this ⊢
        refine ⟨?_, this.2.1, ?_⟩
        · rw [rx_out_dequeued_append, this.1]
          rfl
        · obtain ⟨extra, he⟩ := this.2.2
          refine ⟨(C.run outr.filter outr.in_rate outr.out_rate
            (K.receive k (inr.ready.take nin)).2 false).2 ++ extra, ?_⟩
          rw [he]
          simp [resampler.enqueue]
    · rw [if_neg hge] at h
      simp only [Except.ok.injEq] at h
      subst h
      exact ⟨rfl, by dsimp only; omega, [], by simp⟩

/-- The decode loop never calls `dequeue` beyond availability. -/
theorem decode_loop_no_dequeue_fault (C : Converter) (K : Codec σ) :
    ∀ (fuel nin : Nat) (inr outr : resampler) (k : σ),
      decode_loop C K fuel nin inr outr k ≠ .error .dequeue_beyond_available := by
  intro fuel
  induction fuel with
  | zero => intro nin inr outr k h; simp [decode_loop] at h
  | succ fuel ih =>
    intro nin inr outr k h
    unfold decode_loop at h
    by_cases hge : inr.available_elems ≥ nin
    · rw [if_pos hge, decode_iteration_eq C K nin inr outr k hge] at h
      dsimp only at h
      split at h
      · rename_i f hrec
        simp only [Except.error.injEq] at h
        subst h
        exact ih _ _ _ _ hrec
      · simp at h
    · rw [if_neg hge] at h
      simp at h

theorem voice_output_eq (s : State σ) (i : Input) :
    voice_output s i =
      .ok ({ s with output_resampler := { s.output_resampler with
              ready := s.output_resampler.ready.drop
                (min s.output_resampler.available_elems i.nframes) } },
           s.output_resampler.ready.take (min s.output_resampler.available_elems i.nframes)
             ++ List.replicate
               (i.nframes - min s.output_resampler.available_elems i.nframes) 0,
           [.dequeue .output (min s.output_resampler.available_elems i.nframes)
             (s.output_resampler.ready.take
               (min s.output_resampler.available_elems i.nframes))]) := by
  unfold voice_output resampler.dequeue
  simp

theorem decode_ok {C : Converter} {K : Codec σ} {fuel : Nat} {s s1 : State σ} {i : Input}
    {ev1 : List Event} (h : decode C K fuel s i = .ok (s1, ev1)) :
    ∃ nin inr1 outr1 k1 ev,
      decode_loop C K fuel (K.needed_modem_samples s.crypto_rx)
        ((s.input_resampler.set_sample_rates i.jack_sample_rate i.modem_sample_rate).enqueue
          C ((List.range i.nframes).map i.modem_frames))
        (s.output_resampler.set_sample_rates i.voice_sample_rate i.jack_sample_rate)
        s.crypto_rx = .ok (nin, inr1, outr1, k1, ev) ∧
      s1 = { s with input_resampler := inr1, output_resampler := outr1, crypto_rx := k1 } ∧
      ev1 = [.set_sample_rates .input i.jack_sample_rate i.modem_sample_rate,
             .set_sample_rates .output i.voice_sample_rate i.jack_sample_rate,
             .enqueue .input ((List.range i.nframes).map i.modem_frames),
             .needed_modem_samples (K.needed_modem_samples s.crypto_rx)] ++ ev := by
  unfold decode at h
  dsimp only at h
  split at h
  · simp at h
  · rename_i nin inr1 outr1 k1 ev hl
    simp only [Except.ok.injEq, Prod.mk.injEq] at h
    obtain ⟨rfl, rfl⟩ := h
    exact ⟨nin, inr1, outr1, k1, ev, hl, rfl, rfl⟩

theorem rx_process_ok {C : Converter} {K : Codec σ} {fuel : Nat} {s s' : State σ} {i : Input}
    {o : Output} (h : process C K fuel s i = .ok (s', o)) :
    ∃ s1 ev1,
      decode C K fuel { s with initialized := 0, play_wav := 0 } i = .ok (s1, ev1) ∧
      s'.output_resampler.ready = s1.output_resampler.ready.drop
        (min s1.output_resampler.available_elems i.nframes) ∧
      s'.input_resampler = s1.input_resampler ∧
      s'.crypto_rx = s1.crypto_rx ∧
      s'.initialized = s1.initialized ∧ s'.play_wav = s1.play_wav ∧
      s'.notification_buffer =
        (notification_output (s1.notification_buffer ++
          (queue_notifications K
            { s1 with output_resampler := { s1.output_resampler with
                ready := s1.output_resampler.ready.drop
                  (min s1.output_resampler.available_elems i.nframes) } }
            (decide (s.initialized ≠ 0)) (decide (s.play_wav ≠ 0))).1) i.nframes).2.1 ∧
      o.voice_frames =
        s1.output_resampler.ready.take (min s1.output_resampler.available_elems i.nframes)
          ++ List.replicate
            (i.nframes - min s1.output_resampler.available_elems i.nframes) 0 ∧
      o.notification_frames =
        (notification_output (s1.notification_buffer ++
          (queue_notifications K
            { s1 with output_resampler := { s1.output_resampler with
                ready := s1.output_resampler.ready.drop
                  (min s1.output_resampler.available_elems i.nframes) } }
            (decide (s.initialized ≠ 0)) (decide (s.play_wav ≠ 0))).1) i.nframes).1 ∧
      o.n_notification_frames =
        (notification_output (s1.notification_buffer ++
          (queue_notifications K
            { s1 with output_resampler := { s1.output_resampler with
                ready := s1.output_resampler.ready.drop
                  (min s1.output_resampler.available_elems i.nframes) } }
            (decide (s.initialized ≠ 0)) (decide (s.play_wav ≠ 0))).1) i.nframes).2.2 ∧
      o.notification_queued =
        (queue_notifications K
            { s1 with output_resampler := { s1.output_resampler with
                ready := s1.output_resampler.ready.drop
                  (min s1.output_resampler.available_elems i.nframes) } }
            (decide (s.initialized ≠ 0)) (decide (s.play_wav ≠ 0))).1 ∧
      o.events = ev1 ++
        [.dequeue .output (min s1.output_resampler.available_elems i.nframes)
          (s1.output_resampler.ready.take
            (min s1.output_resampler.available_elems i.nframes))] ++
        (queue_notifications K
            { s1 with output_resampler := { s1.output_resampler with
                ready := s1.output_resampler.ready.drop
                  (min s1.output_resampler.available_elems i.nframes) } }
            (decide (s.initialized ≠ 0)) (decide (s.play_wav ≠ 0))).2 := by
  unfold process at h
  dsimp only at h
  split at h
  · simp at h
  · rename_i s1 ev1 hd
    rw [voice_output_eq] at h
    dsimp only at h
    simp only [Except.ok.injEq, Prod.mk.injEq] at h
    obtain ⟨rfl, rfl⟩ := h
    exact ⟨s1, ev1, hd, rfl, rfl, rfl, rfl, rfl, rfl, rfl, rfl, rfl, rfl, rfl⟩

theorem queue_notifications_no_dequeue (K : Codec σ) (s : State σ) (a b : Bool) :
    out_dequeued (queue_notifications K s a b).2 = [] := by
  unfold queue_notifications
  dsimp only
  split <;> rfl

/-- When the converter emits nothing for an empty input and every decode gave
no speech samples, the decode loop leaves the output queue as it was. -/
theorem decode_loop_silent (C : Converter) (K : Codec σ)
    (hC : ∀ f a b, (C.run f a b [] false).2 = []) :
    ∀ (fuel nin : Nat) (inr outr : resampler) (k : σ)
      (r : Nat × resampler × resampler × σ × List Event),
      decode_loop C K fuel nin inr outr k = .ok r →
      (∀ d v, Event.receive d v ∈ r.2.2.2.2 → v = []) →
      r.2.2.1.ready = outr.ready := by
  intro fuel
  induction fuel with
  | zero => intro nin inr outr k r h; simp [decode_loop] at h
  | succ fuel ih =>
    intro nin inr outr k r h hall
    unfold decode_loop at h
    by_cases hge : inr.available_elems ≥ nin
    · rw [if_pos hge, decode_iteration_eq C K nin inr outr k hge] at h
      dsimp only at h
      split at h
      · simp at h
      · rename_i nin2 inr2 outr2 k2 ev2 hrec
        simp only [Except.ok.injEq] at h
        subst h
        dsimp only at hall ⊢
        have hv : (K.receive k (inr.ready.take nin)).2 = [] :=
          hall (inr.ready.take nin) _ (by simp)
        have := ih _ _ _ _ _ hrec (fun d v hm => hall d v (by simp [hm]))
        dsimp only at this
        rw [this, hv]
        simp [resampler.enqueue, hC]
    · rw [if_neg hge] at h
      simp only [Except.ok.injEq] at h
      subst h
      rfl

/-- The voice block of a receive callback that returns, in terms of what the
callback dequeued from the output converter and what it left there. -/
theorem voice_block_of_return (C : Converter) (K : Codec σ) (fuel : Nat) (s s' : State σ)
    (i : Input) (o : Output) (h : process C K fuel s i = .ok (s', o)) :
    o.voice_frames.length = i.nframes ∧
    o.voice_frames =
      (out_dequeued o.events ++ s'.output_resampler.ready).take
          (min (out_dequeued o.events ++ s'.output_resampler.ready).length i.nframes) ++
        List.replicate (i.nframes -
          min (out_dequeued o.events ++ s'.output_resampler.ready).length i.nframes) 0 ∧
    out_dequeued o.events =
      (out_dequeued o.events ++ s'.output_resampler.ready).take
        (min (out_dequeued o.events ++ s'.output_resampler.ready).length i.nframes) ∧
    s'.output_resampler.ready =
      (out_dequeued o.events ++ s'.output_resampler.ready).drop
        (min (out_dequeued o.events ++ s'.output_resampler.ready).length i.nframes) ∧
    (out_dequeued o.events).length ≤ i.nframes ∧
    ((∀ f a b, (C.run f a b [] false).2 = []) →
      (∀ d v, Event.receive d v ∈ o.events → v = []) →
      s.output_resampler.ready = [] →
      o.voice_frames = List.replicate i.nframes 0) := by
  obtain ⟨s1, ev1, hd, hout, -, -, -, -, -, hvf, -, -, -, hev⟩ := rx_process_ok h
  obtain ⟨nin, inr1, outr1, k1, ev, hl, rfl, rfl⟩ := decode_ok hd
  have hL := decode_loop_ok C K _ _ _ _ _ _ hl
  dsimp only at hL hout hvf hev
  have hod : out_dequeued o.events =
      outr1.ready.take (min outr1.available_elems i.nframes) := by
    rw [hev, rx_out_dequeued_append, rx_out_dequeued_append, rx_out_dequeued_append,
      queue_notifications_no_dequeue, hL.1]
    simp [out_dequeued]
  have hQ : out_dequeued o.events ++ s'.output_resampler.ready = outr1.ready := by
    rw [hod, hout]
    exact List.take_append_drop _ _
  rw [hQ]
  have hav : outr1.available_elems = outr1.ready.length := rfl
  rw [hav] at hvf hod hout
  refine ⟨?_, hvf, hod, hout, ?_, ?_⟩
  · rw [hvf]
    simp only [List.length_append, List.length_take, List.length_replicate]
    omega
  · rw [hod, List.length_take]
    omega
  · intro hC hall hempty
    have hs := decode_loop_silent C K hC _ _ _ _ _ _ hl
      (fun d v hm => hall d v (by rw [hev]; simp [hm]))
    dsimp only at hs
    have hr : outr1.ready = [] := by
      rw [hs]
      exact hempty
    rw [hvf, hr]
    simp

/-! ## The notification queue (C13, C14) -/

/-- For a queue shorter than `2^32` the notification stage copies
`min(nframes, |q|)` samples and fills the block with zeros. -/
theorem notification_output_lt (q : List Int) (B : Nat) (hq : q.length < 2 ^ 32) :
    notification_output q B =
      (q.take (min B q.length) ++ List.replicate (B - min B q.length) 0,
       q.drop (min B q.length), min B q.length) := by
  unfold notification_output
  rw [Nat.mod_eq_of_lt hq]
  cases q with
  | nil => simp
  | cons a t =>
    simp only [List.isEmpty_cons, if_true]
    by_cases hlt : min B (a :: t).length < B
    · rw [if_pos hlt]
    · rw [if_neg hlt]
      have : B - min B (a :: t).length = 0 := by omega
      rw [this]
      rfl

/-- Whatever the length of the queue, the part of the block that was copied
and the queue left make up the queue. -/
theorem notification_output_conserves (q : List Int) (B : Nat) :
    (notification_output q B).1.take (notification_output q B).2.2
      ++ (notification_output q B).2.1 = q := by
  unfold notification_output
  cases q with
  | nil => simp
  | cons a t =>
    simp only [List.isEmpty_cons, if_true]
    have hle : min B ((a :: t).length % 2 ^ 32) ≤ (a :: t).length :=
      Nat.le_trans (Nat.min_le_right _ _) (Nat.mod_le _ _)
    rw [List.take_append_of_le_length (by rw [List.length_take]; omega),
      List.take_take, Nat.min_self]
    exact List.take_append_drop _ _

/-- A queue whose length is a positive multiple of `2^32` is left untouched,
and the block is silence. -/
theorem notification_output_wrapped (q : List Int) (B : Nat) (hq : q.length % 2 ^ 32 = 0)
    (hne : q ≠ []) : notification_output q B = (List.replicate B 0, q, 0) := by
  unfold notification_output
  rw [hq]
  cases q with
  | nil => exact absurd rfl hne
  | cons a t =>
    simp only [List.isEmpty_cons, if_true, Nat.min_zero, List.take_zero, List.drop_zero,
      List.nil_append, Nat.sub_zero]
    by_cases hB : 0 < B
    · rw [if_pos hB]
    · have : B = 0 := by omega
      subst this
      simp

/-- The notification part of a receive callback that returns, in terms of the
queue at entry and the samples its triggers appended. -/
theorem process_notification {C : Converter} {K : Codec σ} {fuel : Nat} {s s' : State σ}
    {i : Input} {o : Output} (h : process C K fuel s i = .ok (s', o)) :
    o.notification_frames =
      (notification_output (s.notification_buffer ++ o.notification_queued) i.nframes).1 ∧
    s'.notification_buffer =
      (notification_output (s.notification_buffer ++ o.notification_queued) i.nframes).2.1 ∧
    o.n_notification_frames =
      (notification_output (s.notification_buffer ++ o.notification_queued) i.nframes).2.2 ∧
    s'.initialized = 0 ∧ s'.play_wav = 0 ∧
    (s.initialized = 0 → s.play_wav = 0 → o.notification_queued = []) := by
  obtain ⟨s1, ev1, hd, -, -, -, hi, hp, hnb, -, hnf, hn, hq, -⟩ := rx_process_ok h
  obtain ⟨nin, inr1, outr1, k1, ev, -, rfl, rfl⟩ := decode_ok hd
  dsimp only at hnb hnf hn hq hi hp
  rw [← hq] at hnb hnf hn
  refine ⟨hnf, hnb, hn, hi, hp, ?_⟩
  intro h1 h2
  rw [hq, h1, h2]
  simp [queue_notifications]

theorem rx_run_cons_ok {C : Converter} {K : Codec σ} {fuel : Nat} {s s' : State σ} {a : Async}
    {i : Input} {rest : List (Async × Input)} {outs : List Output}
    (h : run C K fuel s ((a, i) :: rest) = .ok (s', outs)) :
    ∃ s1 o os, process C K fuel (deliver s a) i = .ok (s1, o) ∧
      run C K fuel s1 rest = .ok (s', os) ∧ outs = o :: os := by
  simp only [run] at h
  split at h
  · simp at h
  · rename_i s1 o hp
    split at h
    · simp at h
    · rename_i s2 os hr
      simp only [Except.ok.injEq, Prod.mk.injEq] at h
      obtain ⟨rfl, rfl⟩ := h
      exact ⟨s1, o, os, hp, hr, rfl⟩

theorem rx_run_nil_ok {C : Converter} {K : Codec σ} {fuel : Nat} {s s' : State σ}
    {outs : List Output} (h : run C K fuel s [] = .ok (s', outs)) : s' = s ∧ outs = [] := by
  simp only [run, Except.ok.injEq, Prod.mk.injEq] at h
  exact ⟨h.1.symm, h.2.symm⟩

theorem deliver_notification_buffer (s : State σ) (a : Async) :
    (deliver s a).notification_buffer = s.notification_buffer := by
  unfold deliver
  dsimp only
  split <;> split <;> rfl

/-- Over any run of receive callbacks, the queue at the start followed by what
the triggers appended is what was copied to the port followed by the queue at
the end. -/
theorem run_conserves {C : Converter} {K : Codec σ} {fuel : Nat} :
    ∀ (steps : List (Async × Input)) (t t' : State σ) (outs : List Output),
      run C K fuel t steps = .ok (t', outs) →
      t.notification_buffer ++ (outs.map Output.notification_queued).flatten =
        (outs.map (fun o => o.notification_frames.take o.n_notification_frames)).flatten
          ++ t'.notification_buffer := by
  intro steps
  induction steps with
  | nil =>
    intro t t' outs h
    obtain ⟨rfl, rfl⟩ := rx_run_nil_ok h
    simp
  | cons st rest ih =>
    intro t t' outs h
    obtain ⟨a, i⟩ := st
    obtain ⟨s1, o, os, hp, hr, rfl⟩ := rx_run_cons_ok h
    have hN := process_notification hp
    have hc := notification_output_conserves
      ((deliver t a).notification_buffer ++ o.notification_queued) i.nframes
    rw [← hN.1, ← hN.2.1, ← hN.2.2.1, deliver_notification_buffer] at hc
    have hrec := ih s1 t' os hr
    simp only [List.map_cons, List.flatten_cons]
    rw [← List.append_assoc, ← hc, List.append_assoc, List.append_assoc, hrec]

/-- The notification block of a receive callback that returns, and the
conservation of the queued samples over a run that returns. -/
theorem notification_fifo_of_return (C : Converter) (K : Codec σ) (fuel : Nat) (s s' : State σ)
    (i : Input) (o : Output) (h : process C K fuel s i = .ok (s', o)) :
    ((s.notification_buffer ++ o.notification_queued).length < 2 ^ 32 →
      o.notification_frames =
        (s.notification_buffer ++ o.notification_queued).take
            (min i.nframes (s.notification_buffer ++ o.notification_queued).length) ++
          List.replicate (i.nframes -
            min i.nframes (s.notification_buffer ++ o.notification_queued).length) 0 ∧
      s'.notification_buffer =
        (s.notification_buffer ++ o.notification_queued).drop
          (min i.nframes (s.notification_buffer ++ o.notification_queued).length)) ∧
    (s.notification_buffer ++ o.notification_queued = [] →
      o.notification_frames = List.replicate i.nframes 0 ∧ s'.notification_buffer = []) ∧
    (∀ (steps : List (Async × Input)) (t t' : State σ) (outs : List Output),
      run C K fuel t steps = .ok (t', outs) →
      t.notification_buffer ++ (outs.map Output.notification_queued).flatten =
        (outs.map (fun o => o.notification_frames.take o.n_notification_frames)).flatten
          ++ t'.notification_buffer) := by
  have hN := process_notification h
  refine ⟨?_, ?_, fun steps t t' outs hr => run_conserves steps t t' outs hr⟩
  · intro hlt
    have := notification_output_lt _ i.nframes hlt
    rw [hN.1, hN.2.1, this]
    exact ⟨rfl, rfl⟩
  · intro he
    rw [hN.1, hN.2.1, he]
    exact ⟨rfl, rfl⟩

theorem deliver_quiet (s : State σ) : deliver s quiet = s := rfl

theorem run_snoc_ok {C : Converter} {K : Codec σ} {fuel : Nat} :
    ∀ (steps : List (Async × Input)) (st : Async × Input) (s s' : State σ)
      (outs : List Output),
      run C K fuel s (steps ++ [st]) = .ok (s', outs) →
      ∃ smid os o, run C K fuel s steps = .ok (smid, os) ∧
        process C K fuel (deliver smid st.1) st.2 = .ok (s', o) ∧ outs = os ++ [o] := by
  intro steps
  induction steps with
  | nil =>
    intro st s s' outs h
    obtain ⟨a, i⟩ := st
    obtain ⟨s1, o, os, hp, hr, rfl⟩ := rx_run_cons_ok h
    obtain ⟨rfl, rfl⟩ := rx_run_nil_ok hr
    exact ⟨s, [], o, rfl, hp, rfl⟩
  | cons st0 rest ih =>
    intro st s s' outs h
    obtain ⟨a, i⟩ := st0
    obtain ⟨s1, o, os, hp, hr, rfl⟩ := rx_run_cons_ok h
    obtain ⟨smid, os1, o1, h1, h2, rfl⟩ := ih st s1 s' os hr
    refine ⟨smid, o :: os1, o1, ?_, h2, rfl⟩
    simp only [run, hp, h1]

theorem drop_min_length (q : List Int) (B : Nat) : q.drop (min B q.length) = q.drop B := by
  by_cases h : B ≤ q.length
  · rw [Nat.min_eq_left h]
  · have : q.length ≤ B := by omega
    rw [Nat.min_eq_right this, List.drop_length, List.drop_of_length_le this]

/-- A run of callbacks of block length `B` without triggers takes `B` samples
per callback off a notification queue shorter than `2^32`. -/
theorem run_drains {C : Converter} {K : Codec σ} {fuel : Nat} (B : Nat) :
    ∀ (steps : List (Async × Input)) (t t' : State σ) (outs : List Output),
      run C K fuel t steps = .ok (t', outs) →
      (∀ st ∈ steps, st.1 = quiet ∧ st.2.nframes = B) →
      t.initialized = 0 → t.play_wav = 0 →
      t.notification_buffer.length < 2 ^ 32 →
      t'.notification_buffer = t.notification_buffer.drop (steps.length * B) ∧
      t'.initialized = 0 ∧ t'.play_wav = 0 := by
  intro steps
  induction steps with
  | nil =>
    intro t t' outs h _ hi hp _
    obtain ⟨rfl, rfl⟩ := rx_run_nil_ok h
    simp [hi, hp]
  | cons st rest ih =>
    intro t t' outs h hst hi hp hlt
    obtain ⟨a, i⟩ := st
    obtain ⟨s1, o, os, hpr, hr, rfl⟩ := rx_run_cons_ok h
    have h0 := hst (a, i) (List.mem_cons_self _ _)
    dsimp only at h0
    obtain ⟨rfl, rfl⟩ := h0
    rw [deliver_quiet] at hpr
    have hN := process_notification hpr
    have hq : o.notification_queued = [] := hN.2.2.2.2.2 hi hp
    rw [hq, List.append_nil, notification_output_lt _ _ hlt] at hN
    dsimp only at hN
    have h1 : s1.notification_buffer = t.notification_buffer.drop i.nframes := by
      rw [hN.2.1, drop_min_length]
    have := ih s1 t' os hr (fun x hx => hst x (List.mem_cons_of_mem _ hx)) hN.2.2.2.1
      hN.2.2.2.2.1 (by rw [h1, List.length_drop]; omega)
    refine ⟨?_, this.2⟩
    rw [this.1, h1, List.drop_drop, List.length_cons, Nat.succ_mul]
    congr 1
    omega

/-- The notification queue over a run of callbacks that returns, for a queue
of fewer than `2^32` samples, block size `B` and no trigger. -/
theorem notification_drain_of_run (C : Converter) (K : Codec σ) (fuel : Nat)
    (t t' : State σ) (B : Nat) (steps : List (Async × Input)) (outs : List Output)
    (hB : 1 ≤ B) (hK : 1 ≤ t.notification_buffer.length)
    (hlt : t.notification_buffer.length < 2 ^ 32)
    (hi : t.initialized = 0) (hp : t.play_wav = 0)
    (hsteps : ∀ st ∈ steps, st.1 = quiet ∧ st.2.nframes = B)
    (hrun : run C K fuel t steps = .ok (t', outs)) :
    t'.notification_buffer = t.notification_buffer.drop (steps.length * B) ∧
    (t'.notification_buffer = [] ↔
      (t.notification_buffer.length + B - 1) / B ≤ steps.length) ∧
    (steps.length = (t.notification_buffer.length + B - 1) / B →
      ∀ last, outs.getLast? = some last →
        last.notification_frames =
          t.notification_buffer.drop ((steps.length - 1) * B) ++
            List.replicate
              (B - (t.notification_buffer.length - (steps.length - 1) * B)) 0) := by
  have hD := run_drains B steps t t' outs hrun hsteps hi hp hlt
  have hceil : ∀ N : Nat, (t.notification_buffer.length + B - 1) / B ≤ N ↔
      t.notification_buffer.length ≤ N * B := by
    intro N
    rw [← Nat.lt_succ_iff, Nat.div_lt_iff_lt_mul (by omega), Nat.succ_mul]
    omega
  refine ⟨hD.1, ?_, ?_⟩
  · rw [hD.1, List.drop_eq_nil_iff, hceil]
  · intro hN last hlast
    rcases List.eq_nil_or_concat steps with hnil | ⟨init, st, hsnoc⟩
    · subst hnil
      obtain ⟨-, rfl⟩ := rx_run_nil_ok hrun
      simp at hlast
    · rw [List.concat_eq_append] at hsnoc
      subst hsnoc
      obtain ⟨smid, os, o, h1, h2, rfl⟩ := run_snoc_ok init st t t' outs hrun
      have hlo : last = o := by
        rw [List.getLast?_append, List.getLast?_singleton] at hlast
        simpa using hlast.symm
      subst hlo
      have hst := hsteps st (by simp)
      obtain ⟨hq1, hq2⟩ := hst
      have hDi := run_drains B init t smid os h1
        (fun x hx => hsteps x (by simp [hx])) hi hp hlt
      rw [hq1, deliver_quiet] at h2
      have hNo := process_notification h2
      have hq : last.notification_queued = [] := hNo.2.2.2.2.2 hDi.2.1 hDi.2.2
      have hlen : smid.notification_buffer.length < 2 ^ 32 := by
        rw [hDi.1, List.length_drop]
        omega
      rw [hq, List.append_nil, notification_output_lt _ _ hlen, hq2] at hNo
      dsimp only at hNo
      have hlen1 : (init ++ [st]).length - 1 = init.length := by simp
      rw [hlen1]
      have hc1 := (hceil (init.length + 1)).1 (by
        have : (init ++ [st]).length = init.length + 1 := by simp
        rw [← this, hN])
      have hc2 : ¬ t.notification_buffer.length ≤ init.length * B := by
        intro hc
        have := (hceil init.length).2 hc
        have hl : (init ++ [st]).length = init.length + 1 := by simp
        rw [← hN, hl] at this
        omega
      rw [Nat.succ_mul] at hc1
      have hsl : smid.notification_buffer.length
          = t.notification_buffer.length - init.length * B := by
        rw [hDi.1, List.length_drop]
      rw [hNo.1, hsl]
      have hm : min B (t.notification_buffer.length - init.length * B)
          = t.notification_buffer.length - init.length * B := by omega
      rw [hm, hDi.1]
      congr 1
      apply List.take_of_length_le
      rw [List.length_drop]

/-- A run of callbacks without triggers leaves a non-empty notification queue
whose length is a multiple of `2^32` as it is and writes only zeros to the
notification port. -/
theorem run_stuck {C : Converter} {K : Codec σ} {fuel : Nat} (q : List Int)
    (hq : q.length % 2 ^ 32 = 0) (hne : q ≠ []) :
    ∀ (steps : List (Async × Input)) (t t' : State σ) (outs : List Output),
      run C K fuel t steps = .ok (t', outs) →
      (∀ st ∈ steps, st.1 = quiet) →
      t.initialized = 0 → t.play_wav = 0 → t.notification_buffer = q →
      t'.notification_buffer = q ∧
      ∀ o ∈ outs, ∀ x ∈ o.notification_frames, x = 0 := by
  intro steps
  induction steps with
  | nil =>
    intro t t' outs h _ _ _ hb
    obtain ⟨rfl, rfl⟩ := rx_run_nil_ok h
    exact ⟨hb, by simp⟩
  | cons st rest ih =>
    intro t t' outs h hst hi hp hb
    obtain ⟨a, i⟩ := st
    obtain ⟨s1, o, os, hpr, hr, rfl⟩ := rx_run_cons_ok h
    have h0 : a = quiet := hst (a, i) (List.mem_cons_self _ _)
    subst h0
    rw [deliver_quiet] at hpr
    have hN := process_notification hpr
    have hqd : o.notification_queued = [] := hN.2.2.2.2.2 hi hp
    rw [hqd, List.append_nil, hb, notification_output_wrapped q _ hq hne] at hN
    dsimp only at hN
    have := ih s1 t' os hr (fun x hx => hst x (List.mem_cons_of_mem _ hx)) hN.2.2.2.1
      hN.2.2.2.2.1 hN.2.1
    refine ⟨this.1, ?_⟩
    intro x hx y hy
    rcases List.mem_cons.1 hx with rfl | hx
    · rw [hN.1] at hy
      exact (List.mem_replicate.1 hy).2
    · exact this.2 x hx y hy

/-! ## The decode loop (C16) -/

/-- For a codec that always asks for at least one sample, and enough loop
tests, the decode loop exits. -/
theorem decode_loop_spec (C : Converter) (K : Codec σ)
    (hpos : ∀ k, 0 < K.needed_modem_samples k) :
    ∀ (fuel nin : Nat) (inr outr : resampler) (k : σ), 0 < nin →
      inr.ready.length < fuel →
      ∃ nin1 inr1 outr1 k1 ev,
        decode_loop C K fuel nin inr outr k = .ok (nin1, inr1, outr1, k1, ev) ∧
        chained nin ev = true ∧
        nin1 = last_nin nin ev ∧
        inr1.available_elems < nin1 ∧
        frames_decoded ev ≤ inr.ready.length := by
  intro fuel
  induction fuel with
  | zero => intro nin inr outr k _ h; omega
  | succ fuel ih =>
    intro nin inr outr k hnin hlt
    unfold decode_loop
    by_cases hge : inr.available_elems ≥ nin
    · rw [if_pos hge, decode_iteration_eq C K nin inr outr k hge]
      dsimp only
      have hav : inr.available_elems = inr.ready.length := rfl
      obtain ⟨nin2, inr2, outr2, k2, ev2, hrec, hch, hlast, hexit, hcount⟩ :=
        ih (K.needed_modem_samples (K.receive k (inr.ready.take nin)).1)
          { inr with ready := inr.ready.drop nin }
          (outr.enqueue C (K.receive k (inr.ready.take nin)).2)
          (K.receive k (inr.ready.take nin)).1 (hpos _)
          (by simp only [List.length_drop]; omega)
      rw [hrec]
      refine ⟨nin2, inr2, outr2, k2, _, rfl, ?_, ?_, hexit, ?_⟩
      · rw [hav] at hge
        have hm : min nin inr.ready.length = nin := Nat.min_eq_left hge
        show chained nin (_ :: _ :: _ :: _ :: ev2) = true
        simp only [chained, beq_self_eq_true, Bool.true_and, List.length_take, hm, hch]
      · show _ = last_nin nin (_ :: _ :: _ :: _ :: ev2)
        exact hlast
      · show frames_decoded (_ :: _ :: _ :: _ :: ev2) ≤ _
        simp only [frames_decoded]
        simp only [List.length_drop] at hcount
        rw [hav] at hge
        omega
    · rw [if_neg hge]
      refine ⟨nin, inr, outr, k, [], rfl, rfl, rfl, by omega, Nat.zero_le _⟩

/-- C16 (amended): for a codec whose `needed_modem_samples()` is always at
least 1, the decode loop entered with a positive `nin` exits for every content
of the input converter once it is given more loop tests than the converter
holds samples: each pass dequeues exactly the `nin` queried before it and
queries `nin` again afterwards, there are at most as many passes as samples
held at entry, and on exit the input converter holds fewer samples than the
most recently queried `nin`. -/
theorem decode_loop_never_blocks (C : Converter) (K : Codec σ) (fuel nin : Nat)
    (inr outr : resampler) (k : σ)
    (hnin : 0 < nin) (hpos : ∀ k, 0 < K.needed_modem_samples k)
    (hfuel : inr.available_elems < fuel) :
    ∃ nin1 inr1 outr1 k1 ev,
      decode_loop C K fuel nin inr outr k = .ok (nin1, inr1, outr1, k1, ev) ∧
      chained nin ev = true ∧
      nin1 = last_nin nin ev ∧
      inr1.available_elems < nin1 ∧
      frames_decoded ev ≤ inr.available_elems :=
  decode_loop_spec C K hpos fuel nin inr outr k hnin hfuel

theorem decode_loop_never_blocks_witness :
    (0 < 2 ∧ (∀ k, 0 < echo.needed_modem_samples k) ∧
      (⟨8000, 8000, [], [1, 2, 3, 4, 5]⟩ : resampler).available_elems < 6) ∧
    ∃ nin1 inr1 outr1 k1 ev,
      decode_loop Tx.passthrough echo 6 2 ⟨8000, 8000, [], [1, 2, 3, 4, 5]⟩
        ⟨8000, 8000, [], []⟩ () = .ok (nin1, inr1, outr1, k1, ev) ∧
      chained 2 ev = true ∧
      nin1 = last_nin 2 ev ∧
      inr1.available_elems < nin1 ∧
      frames_decoded ev ≤
        (⟨8000, 8000, [], [1, 2, 3, 4, 5]⟩ : resampler).available_elems :=
  ⟨⟨by decide, fun _ => Nat.zero_lt_two, by decide⟩,
   decode_loop_never_blocks Tx.passthrough echo 6 2 ⟨8000, 8000, [], [1, 2, 3, 4, 5]⟩
    ⟨8000, 8000, [], []⟩ () (by decide) (fun _ => Nat.zero_lt_two) (by decide)⟩

/-- With a codec whose `needed_modem_samples()` is 0 the loop never exits. -/
theorem decode_loop_stalled_error :
    ∀ (fuel : Nat) (inr outr : resampler),
      decode_loop Tx.passthrough stalled fuel 0 inr outr () = .error .loop_does_not_exit := by
  intro fuel
  induction fuel with
  | zero => intro inr outr; rfl
  | succ fuel ih =>
    intro inr outr
    unfold decode_loop
    have hge : inr.available_elems ≥ 0 := Nat.zero_le _
    rw [if_pos hge, decode_iteration_eq Tx.passthrough stalled 0 inr outr () hge]
    dsimp only
    have h0 : stalled.needed_modem_samples (stalled.receive () (inr.ready.take 0)).1 = 0 := rfl
    rw [h0, ih]

/-- C16 (counterexample): a codec whose `needed_modem_samples()` returns 0
keeps the loop condition `available_elems() >= nin` true for every content of
the input converter. One pass over the empty converter dequeues nothing and
leaves both converters and `nin` as they were, and no number of loop tests
reaches the exit. -/
theorem decode_loop_blocks_on_zero_nin :
    decode_iteration Tx.passthrough stalled 0 ⟨8000, 8000, [], []⟩ ⟨8000, 8000, [], []⟩ ()
      = .ok (0, ⟨8000, 8000, [], []⟩, ⟨8000, 8000, [], []⟩, (),
          [.dequeue .input 0 [], .receive [] [], .enqueue .output [],
           .needed_modem_samples 0]) ∧
    (∀ (fuel : Nat) (inr outr : resampler),
      decode_loop Tx.passthrough stalled fuel 0 inr outr () = .error .loop_does_not_exit) ∧
    (∀ (fuel : Nat) (q : List Int),
      process Tx.passthrough stalled fuel (initial_state q) (block 2)
        = .error .loop_does_not_exit) := by
  refine ⟨rfl, decode_loop_stalled_error, ?_⟩
  intro fuel q
  unfold process decode
  have h0 : stalled.needed_modem_samples (initial_state q).crypto_rx = 0 := rfl
  have e : ∀ a b, decode_loop Tx.passthrough stalled fuel 0 a b (initial_state q).crypto_rx
      = .error .loop_does_not_exit := fun a b => decode_loop_stalled_error fuel a b
  simp only [h0, e]

/-! ## Dequeues within availability, both directions (C12) -/

/-- A receive callback never dequeues more than a converter holds. -/
theorem rx_process_no_dequeue_fault (C : Converter) (K : Codec σ) (fuel : Nat) (s : State σ)
    (i : Input) : process C K fuel s i ≠ .error .dequeue_beyond_available := by
  intro h
  unfold process at h
  dsimp only at h
  split at h
  · rename_i f hf
    injection h with h
    subst h
    unfold decode at hf
    dsimp only at hf
    split at hf
    · rename_i f1 hf1
      injection hf with hf
      subst hf
      exact decode_loop_no_dequeue_fault C K _ _ _ _ _ hf1
    · cases hf
  · rw [voice_output_eq] at h
    cases h

/-! ## Reloading the session, both directions (C15) -/

/-- A reload does not depend on what was installed before it. -/
theorem rx_reload_forgets (C : Converter) (construct : Option σ) (j : Startup)
    (p q : Session σ) : reload C construct j p = reload C construct j q := by
  unfold reload initialize_crypto
  cases construct <;> rfl

/-- C15 (amended): in both programs `initialize_crypto` releases the installed
session and both converters before it constructs anything. When the
constructor of the new session throws, all three pointers are null at that
point, whatever was installed, and the main loop exits with status 1; when it
succeeds, the new session and two new converters are installed. Nothing of the
previous set survives a reload in either case. -/
theorem reload_releases_before_construction (C : Converter) (j : Startup)
    (pt qt : Tx.Session τ) (pr qr : Session σ) (kt : τ) (kr : σ) :
    Tx.initialize_crypto none pt = .error ⟨none, none, none⟩ ∧
    Tx.reload none pt = .exited 1 ⟨none, none, none⟩ ∧
    Tx.reload (some kt) pt
      = .activated ⟨some kt, some ⟨0, 0, [], []⟩, some ⟨0, 0, [], []⟩⟩ ∧
    initialize_crypto C none j pr = .error ⟨none, none, none⟩ ∧
    reload C none j pr = .exited 1 ⟨none, none, none⟩ ∧
    reload C (some kr) j pr
      = .activated ⟨some kr, some ⟨j.jack_sample_rate, j.modem_sample_rate, [], []⟩,
          some ⟨j.speech_sample_rate, j.jack_sample_rate, [], []⟩⟩ ∧
    (∀ construct, Tx.reload construct pt = Tx.reload construct qt) ∧
    (∀ construct, reload C construct j pr = reload C construct j qr) :=
  ⟨rfl, rfl, rfl, rfl, rfl, rfl, fun c => Tx.tx_reload_forgets c pt qt,
   fun c => rx_reload_forgets C c j pr qr⟩

/-- C15 (counterexample): a session and both converters are installed, the
transmit input converter still holding a sample, and the constructor of the
new session throws during a reload. At the point of failure none of the three
is installed any more, in the transmitter and in the receiver, and the process
exits. -/
theorem reload_failure_drops_installed_session :
    Tx.initialize_crypto (none : Option Unit)
        ⟨some (), some ⟨8000, 8000, [], [1]⟩, some ⟨8000, 8000, [], []⟩⟩
      = .error ⟨none, none, none⟩ ∧
    Tx.reload (none : Option Unit)
        ⟨some (), some ⟨8000, 8000, [], [1]⟩, some ⟨8000, 8000, [], []⟩⟩
      = .exited 1 ⟨none, none, none⟩ ∧
    initialize_crypto Tx.passthrough (none : Option Unit) ⟨8000, 8000, 8000, 2, 2⟩
        ⟨some (), some ⟨8000, 8000, [], [1]⟩, some ⟨8000, 8000, [], []⟩⟩
      = .error ⟨none, none, none⟩ ∧
    reload Tx.passthrough (none : Option Unit) ⟨8000, 8000, 8000, 2, 2⟩
        ⟨some (), some ⟨8000, 8000, [], [1]⟩, some ⟨8000, 8000, [], []⟩⟩
      = .exited 1 ⟨none, none, none⟩ :=
  ⟨rfl, rfl, rfl, rfl⟩

/-! ## The decoded frames and the return of the receive callback (C11, C13, C14) -/

theorem decoded_append (a b : List Event) : decoded (a ++ b) = decoded a ++ decoded b := by
  induction a with
  | nil => rfl
  | cons e a ih => cases e <;> simp [decoded, ih]

theorem demodulated_append (a b : List Event) :
    demodulated (a ++ b) = demodulated a ++ demodulated b := by
  induction a with
  | nil => rfl
  | cons e a ih => cases e <;> simp [demodulated, ih]

theorem queue_notifications_no_receive (K : Codec σ) (s : State σ) (a b : Bool) :
    decoded (queue_notifications K s a b).2 = [] ∧
    demodulated (queue_notifications K s a b).2 = [] := by
  unfold queue_notifications
  dsimp only
  split <;> exact ⟨rfl, rfl⟩

/-- The decode loop enqueues every decoded frame into the output converter,
and the frames are those of the codec on the modem frames it was handed. -/
theorem decode_loop_trace (C : Converter) (K : Codec σ) :
    ∀ (fuel nin : Nat) (inr outr : resampler) (k : σ) (nin1 : Nat) (inr1 outr1 : resampler)
      (k1 : σ) (ev : List Event),
      decode_loop C K fuel nin inr outr k = .ok (nin1, inr1, outr1, k1, ev) →
        outr1 = (decoded ev).foldl (fun o x => o.enqueue C x) outr ∧
        decode_all K k (demodulated ev) = (k1, decoded ev) := by
  intro fuel
  induction fuel with
  | zero => intro nin inr outr k nin1 inr1 outr1 k1 ev h; cases h
  | succ fuel ih =>
    intro nin inr outr k nin1 inr1 outr1 k1 ev h
    unfold decode_loop at h
    by_cases hge : inr.available_elems ≥ nin
    · rw [if_pos hge, decode_iteration_eq C K nin inr outr k hge] at h
      dsimp only at h
      split at h
      · cases h
      · rename_i nin2 inr2 outr2 k2 ev2 hrec
        obtain ⟨h1, h2⟩ := ih _ _ _ _ _ _ _ _ _ hrec
        simp only [Except.ok.injEq, Prod.mk.injEq] at h
        obtain ⟨-, -, ho, hk, he⟩ := h
        subst he
        subst ho
        subst hk
        refine ⟨?_, ?_⟩
        · show _ = (decoded (_ :: _ :: _ :: _ :: ev2)).foldl _ outr
          simp only [decoded, List.foldl_cons]
          exact h1
        · show decode_all K k (demodulated (_ :: _ :: _ :: _ :: ev2)) =
            (_, decoded (_ :: _ :: _ :: _ :: ev2))
          simp only [decoded, demodulated, decode_all, h2]
    · rw [if_neg hge] at h
      simp only [Except.ok.injEq, Prod.mk.injEq] at h
      obtain ⟨-, -, ho, hk, he⟩ := h
      subst he
      subst ho
      subst hk
      exact ⟨rfl, rfl⟩

/-- More loop tests do not change the result of a decode loop that exited. -/
theorem decode_loop_mono (C : Converter) (K : Codec σ) :
    ∀ (fuel nin : Nat) (inr outr : resampler) (k : σ)
      (r : Nat × resampler × resampler × σ × List Event),
      decode_loop C K fuel nin inr outr k = .ok r →
      ∀ more, decode_loop C K (fuel + more) nin inr outr k = .ok r := by
  intro fuel
  induction fuel with
  | zero => intro nin inr outr k r h; cases h
  | succ fuel ih =>
    intro nin inr outr k r h more
    have e : fuel + 1 + more = (fuel + more) + 1 := by omega
    rw [e]
    unfold decode_loop at h ⊢
    by_cases hge : inr.available_elems ≥ nin
    · rw [if_pos hge, decode_iteration_eq C K nin inr outr k hge] at h ⊢
      dsimp only at h ⊢
      split at h
      · cases h
      · rename_i nin2 inr2 outr2 k2 ev2 hrec
        rw [ih _ _ _ _ _ hrec more]
        exact h
    · rw [if_neg hge] at h ⊢
      exact h

/-- More loop tests do not change the result of a callback that returned. -/
theorem process_mono {C : Converter} {K : Codec σ} {fuel : Nat} {s : State σ} {i : Input}
    {r : State σ × Output} (h : process C K fuel s i = .ok r) (more : Nat) :
    process C K (fuel + more) s i = .ok r := by
  unfold process decode at h ⊢
  dsimp only at h ⊢
  split at h
  · cases h
  · rename_i s1 ev1 hd
    split at hd
    · cases hd
    · rename_i nin inr1 outr1 k1 ev hl
      rw [decode_loop_mono C K _ _ _ _ _ _ hl more]
      simp only [Except.ok.injEq, Prod.mk.injEq] at hd
      obtain ⟨rfl, rfl⟩ := hd
      exact h

/-- More loop tests do not change the result of a run that returned. -/
theorem run_mono {C : Converter} {K : Codec σ} {fuel : Nat} :
    ∀ (steps : List (Async × Input)) (s : State σ) (r : State σ × List Output),
      run C K fuel s steps = .ok r → ∀ more, run C K (fuel + more) s steps = .ok r := by
  intro steps
  induction steps with
  | nil => intro s r h more; exact h
  | cons st rest ih =>
    intro s r h more
    obtain ⟨a, i⟩ := st
    simp only [run] at h ⊢
    split at h
    · cases h
    · rename_i s1 o hp
      rw [process_mono hp more]
      dsimp only
      split at h
      · cases h
      · rename_i s2 os hr
        rw [ih s1 _ hr more]
        exact h

/-- A receive callback returns when the codec always asks for at least one
sample and the loop is given more tests than the input converter holds
samples. -/
theorem process_total (C : Converter) (K : Codec σ) (fuel : Nat) (s : State σ) (i : Input)
    (hpos : ∀ k, 0 < K.needed_modem_samples k)
    (hfuel : (input_at_loop C s i).available_elems < fuel) :
    ∃ s1 o, process C K fuel s i = .ok (s1, o) := by
  obtain ⟨nin1, inr1, outr1, k1, ev, hl, -⟩ := decode_loop_spec C K hpos fuel
    (K.needed_modem_samples s.crypto_rx) (input_at_loop C s i)
    (s.output_resampler.set_sample_rates i.voice_sample_rate i.jack_sample_rate) s.crypto_rx
    (hpos _) hfuel
  unfold input_at_loop at hl
  cases hpr : process C K fuel s i with
  | ok r => exact ⟨r.1, r.2, rfl⟩
  | error f =>
    exfalso
    unfold process decode at hpr
    dsimp only at hpr
    rw [hl] at hpr
    dsimp only at hpr
    rw [voice_output_eq] at hpr
    cases hpr

/-- A run of receive callbacks returns, for every sufficient number of loop
tests, when the codec always asks for at least one sample. -/
theorem run_total (C : Converter) (K : Codec σ) (hpos : ∀ k, 0 < K.needed_modem_samples k) :
    ∀ (steps : List (Async × Input)) (s : State σ),
      ∃ fuel0 t outs, ∀ fuel, fuel0 ≤ fuel → run C K fuel s steps = .ok (t, outs) := by
  intro steps
  induction steps with
  | nil => intro s; exact ⟨0, s, [], fun fuel _ => rfl⟩
  | cons st rest ih =>
    intro s
    obtain ⟨a, i⟩ := st
    obtain ⟨s1, o, hp⟩ := process_total C K
      ((input_at_loop C (deliver s a) i).available_elems + 1) (deliver s a) i hpos
      (Nat.lt_succ_self _)
    obtain ⟨f1, t, outs, hr⟩ := ih s1
    refine ⟨max ((input_at_loop C (deliver s a) i).available_elems + 1) f1, t, o :: outs, ?_⟩
    intro fuel hfuel
    obtain ⟨m, rfl⟩ : ∃ m, fuel = (input_at_loop C (deliver s a) i).available_elems + 1 + m :=
      ⟨fuel - ((input_at_loop C (deliver s a) i).available_elems + 1), by omega⟩
    simp only [run]
    rw [process_mono hp m]
    dsimp only
    rw [hr _ (by omega)]

/-- With a codec whose `needed_modem_samples()` is always 0 the decode loop
does not exit, whatever the converters hold. -/
theorem decode_loop_zero_nin (C : Converter) (K : Codec σ)
    (h0 : ∀ k, K.needed_modem_samples k = 0) :
    ∀ (fuel : Nat) (inr outr : resampler) (k : σ),
      decode_loop C K fuel 0 inr outr k = .error .loop_does_not_exit := by
  intro fuel
  induction fuel with
  | zero => intro inr outr k; rfl
  | succ fuel ih =>
    intro inr outr k
    unfold decode_loop
    have hge : inr.available_elems ≥ 0 := Nat.zero_le _
    rw [if_pos hge, decode_iteration_eq C K 0 inr outr k hge]
    dsimp only
    rw [h0, ih]

/-- With a codec whose `needed_modem_samples()` is always 0 no receive
callback returns. -/
theorem process_zero_nin (C : Converter) (K : Codec σ) (h0 : ∀ k, K.needed_modem_samples k = 0)
    (fuel : Nat) (s : State σ) (i : Input) :
    process C K fuel s i = .error .loop_does_not_exit := by
  unfold process decode
  dsimp only
  rw [h0, decode_loop_zero_nin C K h0]

/-! ## The voice block in terms of the state at entry (C11) -/

/-- A receive callback that returns, in terms of the state it was entered in:
the decoded frames are those of the codec on the modem frames handed to it,
and with `Q` the queue of the output converter of that state, with the current
rates, after every decoded frame was enqueued, the voice block is the first
`min(|Q|, nframes)` samples of `Q` followed by zeros and the converter keeps
the rest of `Q`. -/
theorem process_voice_stage {C : Converter} {K : Codec σ} {fuel : Nat} {s s1 : State σ}
    {i : Input} {o : Output} (h : process C K fuel s i = .ok (s1, o)) :
    decode_all K s.crypto_rx (demodulated o.events) = (s1.crypto_rx, decoded o.events) ∧
    o.voice_frames =
      ((decoded o.events).foldl (fun r x => r.enqueue C x)
          (s.output_resampler.set_sample_rates i.voice_sample_rate
            i.jack_sample_rate)).ready.take
        (min ((decoded o.events).foldl (fun r x => r.enqueue C x)
          (s.output_resampler.set_sample_rates i.voice_sample_rate
            i.jack_sample_rate)).ready.length i.nframes) ++
      List.replicate (i.nframes -
        min ((decoded o.events).foldl (fun r x => r.enqueue C x)
          (s.output_resampler.set_sample_rates i.voice_sample_rate
            i.jack_sample_rate)).ready.length i.nframes) 0 ∧
    out_dequeued o.events =
      ((decoded o.events).foldl (fun r x => r.enqueue C x)
          (s.output_resampler.set_sample_rates i.voice_sample_rate
            i.jack_sample_rate)).ready.take
        (min ((decoded o.events).foldl (fun r x => r.enqueue C x)
          (s.output_resampler.set_sample_rates i.voice_sample_rate
            i.jack_sample_rate)).ready.length i.nframes) ∧
    s1.output_resampler.ready =
      ((decoded o.events).foldl (fun r x => r.enqueue C x)
          (s.output_resampler.set_sample_rates i.voice_sample_rate
            i.jack_sample_rate)).ready.drop
        (min ((decoded o.events).foldl (fun r x => r.enqueue C x)
          (s.output_resampler.set_sample_rates i.voice_sample_rate
            i.jack_sample_rate)).ready.length i.nframes) := by
  obtain ⟨s2, ev1, hd, hout, -, hk, -, -, -, hvf, -, -, -, hev⟩ := rx_process_ok h
  obtain ⟨nin, inr1, outr1, k1, ev, hl, rfl, rfl⟩ := decode_ok hd
  have hL := decode_loop_ok C K _ _ _ _ _ _ hl
  obtain ⟨ht1, ht2⟩ := decode_loop_trace C K _ _ _ _ _ _ _ _ _ _ hl
  dsimp only at hL hout hvf hev hk ht1 ht2
  have hdec : decoded o.events = decoded ev := by
    rw [hev, decoded_append, decoded_append, decoded_append,
      (queue_notifications_no_receive K _ _ _).1]
    simp [decoded]
  have hdem : demodulated o.events = demodulated ev := by
    rw [hev, demodulated_append, demodulated_append, demodulated_append,
      (queue_notifications_no_receive K _ _ _).2]
    simp [demodulated]
  have hod : out_dequeued o.events =
      outr1.ready.take (min outr1.available_elems i.nframes) := by
    rw [hev, rx_out_dequeued_append, rx_out_dequeued_append, rx_out_dequeued_append,
      queue_notifications_no_dequeue, hL.1]
    simp [out_dequeued]
  have hav : outr1.available_elems = outr1.ready.length := rfl
  rw [hav] at hvf hod hout
  rw [hdec, hdem, ← ht1]
  refine ⟨?_, hvf, hod, hout⟩
  rw [ht2, hk]

/-- C11, as amended. When `needed_modem_samples()` is always at least 1 and the
decode loop is given more tests than the input converter holds samples, the
receive callback returns. Let `Q` be the queue of the output converter of the
state before the callback, with the current rates, after every frame decoded
in the callback was enqueued, the frames being those of the codec on the modem
frames handed to it, and `d = min(|Q|, nframes)`: the voice block has exactly
`nframes` samples, the first `d` samples of `Q` in order followed by
`nframes - d` zeros; exactly those `d` samples, at most `nframes`, leave the
output converter, which keeps the rest of `Q`; and if the converter emits
nothing for an empty input, every decode of the callback gave 0 speech samples
and the output converter was empty at entry, the block is all zeros. -/
theorem voice_block_shape (C : Converter) (K : Codec σ) (fuel : Nat) (s : State σ) (i : Input)
    (hpos : ∀ k, 0 < K.needed_modem_samples k)
    (hfuel : (input_at_loop C s i).available_elems < fuel) :
    ∃ s1 o, process C K fuel s i = .ok (s1, o) ∧
      decode_all K s.crypto_rx (demodulated o.events) = (s1.crypto_rx, decoded o.events) ∧
      o.voice_frames.length = i.nframes ∧
      o.voice_frames =
        ((decoded o.events).foldl (fun r x => r.enqueue C x)
            (s.output_resampler.set_sample_rates i.voice_sample_rate
              i.jack_sample_rate)).ready.take
          (min ((decoded o.events).foldl (fun r x => r.enqueue C x)
            (s.output_resampler.set_sample_rates i.voice_sample_rate
              i.jack_sample_rate)).ready.length i.nframes) ++
        List.replicate (i.nframes -
          min ((decoded o.events).foldl (fun r x => r.enqueue C x)
            (s.output_resampler.set_sample_rates i.voice_sample_rate
              i.jack_sample_rate)).ready.length i.nframes) 0 ∧
      out_dequeued o.events =
        ((decoded o.events).foldl (fun r x => r.enqueue C x)
            (s.output_resampler.set_sample_rates i.voice_sample_rate
              i.jack_sample_rate)).ready.take
          (min ((decoded o.events).foldl (fun r x => r.enqueue C x)
            (s.output_resampler.set_sample_rates i.voice_sample_rate
              i.jack_sample_rate)).ready.length i.nframes) ∧
      s1.output_resampler.ready =
        ((decoded o.events).foldl (fun r x => r.enqueue C x)
            (s.output_resampler.set_sample_rates i.voice_sample_rate
              i.jack_sample_rate)).ready.drop
          (min ((decoded o.events).foldl (fun r x => r.enqueue C x)
            (s.output_resampler.set_sample_rates i.voice_sample_rate
              i.jack_sample_rate)).ready.length i.nframes) ∧
      (out_dequeued o.events).length ≤ i.nframes ∧
      ((∀ f a b, (C.run f a b [] false).2 = []) →
        (∀ d v, Event.receive d v ∈ o.events → v = []) →
        s.output_resampler.ready = [] →
        o.voice_frames = List.replicate i.nframes 0) := by
  obtain ⟨s1, o, h⟩ := process_total C K fuel s i hpos hfuel
  obtain ⟨h1, h2, h3, h4⟩ := process_voice_stage h
  have hold := voice_block_of_return C K fuel s s1 i o h
  exact ⟨s1, o, h, h1, hold.1, h2, h3, h4, hold.2.2.2.2.1, hold.2.2.2.2.2⟩

/-- C11 fails as stated. With the codec `stalled`, whose
`needed_modem_samples()` is 0, the test `available_elems() >= nin` of the
decode loop holds in every pass, since no pass takes a sample out of the input
converter: for every number of tests allowed the callback `block 2` is still in
the loop, and the voice block is never written. -/
theorem voice_block_never_written :
    stalled.needed_modem_samples (initial_state []).crypto_rx = 0 ∧
    (block 2).nframes = 2 ∧
    ∀ fuel, process Tx.passthrough stalled fuel (initial_state []) (block 2)
      = .error .loop_does_not_exit :=
  ⟨rfl, rfl, fun fuel =>
    process_zero_nin Tx.passthrough stalled (fun _ => rfl) fuel (initial_state []) (block 2)⟩

/-! ## The notification queue over callbacks that return (C13, C14) -/

/-- C13, as amended. When `needed_modem_samples()` is always at least 1, the
queue holds `K` samples with `1 <= K < 2^32`, `B >= 1`, and no trigger fires:
every run of callbacks of `B` frames returns once the decode loop is allowed
enough tests, and after `N` callbacks the queue is what remains after dropping
`N * B` samples, so it is empty exactly when `N >= ceil(K / B)`, and at
callback number `ceil(K / B)` the notification block is the remaining samples
followed by zeros up to `B`. -/
theorem notification_drain_count (C : Converter) (K : Codec σ)
    (t : State σ) (B : Nat) (steps : List (Async × Input))
    (hpos : ∀ k, 0 < K.needed_modem_samples k)
    (hB : 1 ≤ B) (hK : 1 ≤ t.notification_buffer.length)
    (hlt : t.notification_buffer.length < 2 ^ 32)
    (hi : t.initialized = 0) (hp : t.play_wav = 0)
    (hsteps : ∀ st ∈ steps, st.1 = quiet ∧ st.2.nframes = B) :
    ∃ fuel0, ∀ fuel, fuel0 ≤ fuel →
      ∃ t1 outs, run C K fuel t steps = .ok (t1, outs) ∧
        t1.notification_buffer = t.notification_buffer.drop (steps.length * B) ∧
        (t1.notification_buffer = [] ↔
          (t.notification_buffer.length + B - 1) / B ≤ steps.length) ∧
        (steps.length = (t.notification_buffer.length + B - 1) / B →
          ∀ last, outs.getLast? = some last →
            last.notification_frames =
              t.notification_buffer.drop ((steps.length - 1) * B) ++
                List.replicate
                  (B - (t.notification_buffer.length - (steps.length - 1) * B)) 0) := by
  obtain ⟨fuel0, t1, outs, hrun⟩ := run_total C K hpos steps t
  exact ⟨fuel0, fun fuel hf => ⟨t1, outs, hrun fuel hf,
    notification_drain_of_run C K fuel t t1 B steps outs hB hK hlt hi hp hsteps (hrun fuel hf)⟩⟩

/-! ## Dequeues within availability, both directions: the statement (C12) -/

/-- C12, as amended. No receive callback ends in a dequeue beyond availability,
and no transmit callback does in which the transmit intent is false or
`required_elems` is at least `nframes`; `required_elems` is at least `nframes`
whenever `nframes > 0`, `get_nom_resampled_frames` gave at least 1 and the
`uint` computation of `required_elems` does not wrap. -/
theorem dequeue_within_availability (C : Converter) (Kr : Codec σ) (Kt : Commsec.Codec τ)
    (fuel : Nat) (sr : State σ) (ir : Input) (st : Tx.State τ) (it : Tx.Input)
    (h : Tx.transmit_intent st it = false ∨ it.nframes ≤ Tx.required_elems it) :
    process C Kr fuel sr ir ≠ .error .dequeue_beyond_available ∧
    Tx.process C Kt st it ≠ .error .dequeue_beyond_available ∧
    (∀ j : Tx.Input, 0 < j.nframes → 1 ≤ j.modem_resampled_frames →
      j.modem_resampled_frames + (j.nframes - 1) < 2 ^ 32 →
      j.nframes * ((j.modem_resampled_frames + (j.nframes - 1)) / j.nframes) < 2 ^ 32 →
      j.nframes ≤ Tx.required_elems j) :=
  ⟨rx_process_no_dequeue_fault C Kr fuel sr ir, Tx.process_no_dequeue_fault C Kt st it h,
    fun j => Tx.required_elems_ge_nframes j⟩

theorem dequeue_within_availability_witness :
    (Tx.transmit_intent (Tx.deliver Tx.initial_state Tx.toggle) Tx.block2 = false ∨
      Tx.block2.nframes ≤ Tx.required_elems Tx.block2) ∧
    process Tx.passthrough echo 3 (initial_state []) (block 2)
      ≠ .error .dequeue_beyond_available ∧
    Tx.process Tx.passthrough Tx.loopback (Tx.deliver Tx.initial_state Tx.toggle) Tx.block2
      ≠ .error .dequeue_beyond_available ∧
    (∀ j : Tx.Input, 0 < j.nframes → 1 ≤ j.modem_resampled_frames →
      j.modem_resampled_frames + (j.nframes - 1) < 2 ^ 32 →
      j.nframes * ((j.modem_resampled_frames + (j.nframes - 1)) / j.nframes) < 2 ^ 32 →
      j.nframes ≤ Tx.required_elems j) :=
  ⟨Or.inr (by decide),
   dequeue_within_availability Tx.passthrough echo Tx.loopback 3 (initial_state []) (block 2)
    (Tx.deliver Tx.initial_state Tx.toggle) Tx.block2 (Or.inr (by decide))⟩

theorem voice_block_shape_witness :
    (∀ k, 0 < echo.needed_modem_samples k) ∧
    (input_at_loop Tx.passthrough (initial_state []) (block 2)).available_elems < 10 ∧
    process Tx.passthrough echo 10 (initial_state []) (block 2)
      = .ok (drained_state [], echo_output [0, 0] 0) ∧
    ∃ s1 o, process Tx.passthrough echo 10 (initial_state []) (block 2) = .ok (s1, o) ∧
      decode_all echo (initial_state []).crypto_rx (demodulated o.events)
        = (s1.crypto_rx, decoded o.events) ∧
      o.voice_frames.length = (block 2).nframes ∧
      o.voice_frames =
        ((decoded o.events).foldl (fun r x => r.enqueue Tx.passthrough x)
            ((initial_state []).output_resampler.set_sample_rates (block 2).voice_sample_rate
              (block 2).jack_sample_rate)).ready.take
          (min ((decoded o.events).foldl (fun r x => r.enqueue Tx.passthrough x)
            ((initial_state []).output_resampler.set_sample_rates (block 2).voice_sample_rate
              (block 2).jack_sample_rate)).ready.length (block 2).nframes) ++
        List.replicate ((block 2).nframes -
          min ((decoded o.events).foldl (fun r x => r.enqueue Tx.passthrough x)
            ((initial_state []).output_resampler.set_sample_rates (block 2).voice_sample_rate
              (block 2).jack_sample_rate)).ready.length (block 2).nframes) 0 ∧
      out_dequeued o.events =
        ((decoded o.events).foldl (fun r x => r.enqueue Tx.passthrough x)
            ((initial_state []).output_resampler.set_sample_rates (block 2).voice_sample_rate
              (block 2).jack_sample_rate)).ready.take
          (min ((decoded o.events).foldl (fun r x => r.enqueue Tx.passthrough x)
            ((initial_state []).output_resampler.set_sample_rates (block 2).voice_sample_rate
              (block 2).jack_sample_rate)).ready.length (block 2).nframes) ∧
      s1.output_resampler.ready =
        ((decoded o.events).foldl (fun r x => r.enqueue Tx.passthrough x)
            ((initial_state []).output_resampler.set_sample_rates (block 2).voice_sample_rate
              (block 2).jack_sample_rate)).ready.drop
          (min ((decoded o.events).foldl (fun r x => r.enqueue Tx.passthrough x)
            ((initial_state []).output_resampler.set_sample_rates (block 2).voice_sample_rate
              (block 2).jack_sample_rate)).ready.length (block 2).nframes) ∧
      (out_dequeued o.events).length ≤ (block 2).nframes ∧
      ((∀ f a b, (Tx.passthrough.run f a b [] false).2 = []) →
        (∀ d v, Event.receive d v ∈ o.events → v = []) →
        (initial_state []).output_resampler.ready = [] →
        o.voice_frames = List.replicate (block 2).nframes 0) :=
  ⟨fun _ => Nat.zero_lt_two, by decide, rfl,
    voice_block_shape Tx.passthrough echo 10 (initial_state []) (block 2)
      (fun _ => Nat.zero_lt_two) (by decide)⟩

theorem notification_drain_count_witness :
    (∀ k, 0 < echo.needed_modem_samples k) ∧
    1 ≤ 2 ∧
    1 ≤ (initial_state [7, 8, 9]).notification_buffer.length ∧
    (initial_state [7, 8, 9]).notification_buffer.length < 2 ^ 32 ∧
    (initial_state [7, 8, 9]).initialized = 0 ∧
    (initial_state [7, 8, 9]).play_wav = 0 ∧
    (∀ st ∈ [(quiet, block 2), (quiet, block 2)], st.1 = quiet ∧ st.2.nframes = 2) ∧
    run Tx.passthrough echo 10 (initial_state [7, 8, 9]) [(quiet, block 2), (quiet, block 2)]
      = .ok (drained_state [], [echo_output [7, 8] 2, echo_output [9, 0] 1]) ∧
    ∃ fuel0, ∀ fuel, fuel0 ≤ fuel →
      ∃ t1 outs, run Tx.passthrough echo fuel (initial_state [7, 8, 9])
          [(quiet, block 2), (quiet, block 2)] = .ok (t1, outs) ∧
        t1.notification_buffer =
          (initial_state [7, 8, 9]).notification_buffer.drop
            ([(quiet, block 2), (quiet, block 2)].length * 2) ∧
        (t1.notification_buffer = [] ↔
          ((initial_state [7, 8, 9]).notification_buffer.length + 2 - 1) / 2
            ≤ [(quiet, block 2), (quiet, block 2)].length) ∧
        ([(quiet, block 2), (quiet, block 2)].length =
            ((initial_state [7, 8, 9]).notification_buffer.length + 2 - 1) / 2 →
          ∀ last, outs.getLast? = some last →
            last.notification_frames =
              (initial_state [7, 8, 9]).notification_buffer.drop
                  (([(quiet, block 2), (quiet, block 2)].length - 1) * 2) ++
                List.replicate
                  (2 - ((initial_state [7, 8, 9]).notification_buffer.length
                    - ([(quiet, block 2), (quiet, block 2)].length - 1) * 2)) 0) :=
  ⟨fun _ => Nat.zero_lt_two, by decide, by decide, by decide, rfl, rfl, by simp [block], rfl,
    notification_drain_count Tx.passthrough echo (initial_state [7, 8, 9]) 2
      [(quiet, block 2), (quiet, block 2)] (fun _ => Nat.zero_lt_two)
      (by decide) (by decide) (by decide) rfl rfl (by simp [block])⟩

/-- A run whose first callback does not leave the decode loop does not return
either. -/
theorem run_zero_nin (C : Converter) (K : Codec σ) (h0 : ∀ k, K.needed_modem_samples k = 0)
    (fuel : Nat) (s : State σ) (st : Async × Input) (rest : List (Async × Input)) :
    run C K fuel s (st :: rest) = .error .loop_does_not_exit := by
  unfold run
  rw [process_zero_nin C K h0]

/-- C13 fails as stated, in two ways. With `K = 2^32` samples queued, a block
size of 1 and no trigger, `static_cast<jack_nframes_t>(notification_buffer.size())`
is 0 in every callback: callbacks do return, and after any number of them, so
also after `ceil(K / B)`, the queue still holds its `2^32` samples and only
zeros were written to the notification port. And with the codec `stalled`,
whose `needed_modem_samples()` is 0, and one sample queued, the first callback
never leaves the decode loop, for any number of tests allowed: the queue is
not emptied after `ceil(1 / 1) = 1` callback. -/
theorem notification_queue_never_drains :
    (run Tx.passthrough mute 10 (initial_state (List.replicate (2 ^ 32) 1))
        [(quiet, block 1), (quiet, block 1), (quiet, block 1)]).isOk = true ∧
    (∀ (steps : List (Async × Input)) (t' : State Unit) (outs : List Output),
      (∀ st ∈ steps, st.1 = quiet ∧ st.2.nframes = 1) →
      run Tx.passthrough mute 10 (initial_state (List.replicate (2 ^ 32) 1)) steps
        = .ok (t', outs) →
      t'.notification_buffer = List.replicate (2 ^ 32) 1 ∧
      t'.notification_buffer ≠ [] ∧
      ∀ o ∈ outs, ∀ x ∈ o.notification_frames, x = 0) ∧
    stalled.needed_modem_samples (initial_state [7]).crypto_rx = 0 ∧
    (∀ fuel, run Tx.passthrough stalled fuel (initial_state [7]) [(quiet, block 1)]
      = .error .loop_does_not_exit) := by
  have hne : List.replicate (2 ^ 32) (1 : Int) ≠ [] := by
    intro hc
    have := congrArg List.length hc
    rw [List.length_replicate] at this
    exact absurd this (by decide)
  refine ⟨rfl, ?_, rfl, fun fuel => run_zero_nin Tx.passthrough stalled (fun _ => rfl) fuel _ _ _⟩
  intro steps t' outs hst hrun
  have := run_stuck (List.replicate (2 ^ 32) (1 : Int))
    (by rw [List.length_replicate]; exact Nat.mod_self _) hne steps
    (initial_state (List.replicate (2 ^ 32) 1)) t' outs hrun (fun st h => (hst st h).1)
    rfl rfl rfl
  exact ⟨this.1, by rw [this.1]; exact hne, this.2⟩

/-- C14 fails as stated, in two ways. With `2^32` samples queued and a block
length of 1, `static_cast<jack_nframes_t>(notification_buffer.size())` is 0:
the callback returns, its notification block is one zero and not the first
queued sample, and the queue is left as it was. And with the codec `stalled`,
whose `needed_modem_samples()` is 0, and one sample queued, the callback never
leaves the decode loop, for any number of tests allowed: no notification block
is written. -/
theorem notification_count_truncated :
    (process Tx.passthrough echo 10 (initial_state (List.replicate (2 ^ 32) 1))
        (block 1)).isOk = true ∧
    (∀ s' o, process Tx.passthrough echo 10 (initial_state (List.replicate (2 ^ 32) 1))
        (block 1) = .ok (s', o) →
      o.notification_frames = [0] ∧
      s'.notification_buffer = List.replicate (2 ^ 32) 1) ∧
    (List.replicate (2 ^ 32) (1 : Int)).take (min 1 (List.replicate (2 ^ 32) (1 : Int)).length)
      = [1] ∧
    stalled.needed_modem_samples (initial_state [7]).crypto_rx = 0 ∧
    (∀ fuel, process Tx.passthrough stalled fuel (initial_state [7]) (block 1)
      = .error .loop_does_not_exit) := by
  refine ⟨rfl, ?_, ?_, rfl,
    fun fuel => process_zero_nin Tx.passthrough stalled (fun _ => rfl) fuel _ _⟩
  · intro s' o h
    have hN := process_notification h
    have hq : o.notification_queued = [] := hN.2.2.2.2.2 rfl rfl
    have hw := notification_output_wrapped (List.replicate (2 ^ 32) (1 : Int)) 1
      (by rw [List.length_replicate]; exact Nat.mod_self _)
      (by
        intro hc
        have := congrArg List.length hc
        rw [List.length_replicate] at this
        exact absurd this (by decide))
    rw [hq] at hN
    have e : (initial_state (List.replicate (2 ^ 32) 1)).notification_buffer ++ []
        = List.replicate (2 ^ 32) (1 : Int) := List.append_nil _
    rw [e] at hN
    have hb : (block 1).nframes = 1 := rfl
    rw [hb, hw] at hN
    exact ⟨hN.1, hN.2.1⟩
  · rw [List.length_replicate]
    have : min 1 (2 ^ 32) = 1 := by decide
    rw [this]
    have e : (2 : Nat) ^ 32 = 4294967295 + 1 := by decide
    rw [e, List.replicate_succ]
    rfl

/-! ## The notification block: the statement (C14) -/

/-- What the triggers of a receive callback that returns appended to the
notification queue, in terms of the state at entry and the session after the
decode loop. -/
theorem process_queued {C : Converter} {K : Codec σ} {fuel : Nat} {s s1 : State σ}
    {i : Input} {o : Output} (h : process C K fuel s i = .ok (s1, o)) :
    o.notification_queued =
      (if s.initialized ≠ 0 then
          (if K.encrypted s1.crypto_rx then s.crypto_startup else s.plain_startup)
        else []) ++ (if s.play_wav ≠ 0 then s.wave_sound else []) := by
  obtain ⟨s2, ev1, hd, -, -, hk, -, -, -, -, -, -, hq, -⟩ := rx_process_ok h
  obtain ⟨nin, inr1, outr1, k1, ev, -, rfl, rfl⟩ := decode_ok hd
  rw [hq, hk]
  unfold queue_notifications
  simp

/-- C14, as amended. When `needed_modem_samples()` is always at least 1 and the
decode loop is given more tests than the input converter holds samples, the
receive callback returns; what its triggers appended is the start-up sound
chosen by the encryption status if `initialized` was set, then the notification
file if `play_wav` was set; with `q` the queue after the triggers of the
callback were appended: for `|q| < 2^32` the notification block is
`take (min B |q|) q` followed by zeros and the queue afterwards is
`drop (min B |q|) q`; for an empty `q` the block is `B` zeros and the queue
stays empty; and every run of callbacks returns once the loop is allowed enough
tests, the copied parts of its blocks, followed by what is still queued, being
the queue at the start followed by everything that was appended. -/
theorem notification_fifo (C : Converter) (K : Codec σ) (fuel : Nat) (s : State σ)
    (i : Input) (hpos : ∀ k, 0 < K.needed_modem_samples k)
    (hfuel : (input_at_loop C s i).available_elems < fuel) :
    ∃ s1 o, process C K fuel s i = .ok (s1, o) ∧
      o.notification_queued =
        (if s.initialized ≠ 0 then
            (if K.encrypted s1.crypto_rx then s.crypto_startup else s.plain_startup)
          else []) ++ (if s.play_wav ≠ 0 then s.wave_sound else []) ∧
      ((s.notification_buffer ++ o.notification_queued).length < 2 ^ 32 →
        o.notification_frames =
          (s.notification_buffer ++ o.notification_queued).take
              (min i.nframes (s.notification_buffer ++ o.notification_queued).length) ++
            List.replicate (i.nframes -
              min i.nframes (s.notification_buffer ++ o.notification_queued).length) 0 ∧
        s1.notification_buffer =
          (s.notification_buffer ++ o.notification_queued).drop
            (min i.nframes (s.notification_buffer ++ o.notification_queued).length)) ∧
      (s.notification_buffer ++ o.notification_queued = [] →
        o.notification_frames = List.replicate i.nframes 0 ∧ s1.notification_buffer = []) ∧
      (∀ (steps : List (Async × Input)) (t : State σ),
        ∃ fuel0, ∀ fuel1, fuel0 ≤ fuel1 →
          ∃ t1 outs, run C K fuel1 t steps = .ok (t1, outs) ∧
            t.notification_buffer ++ (outs.map Output.notification_queued).flatten =
              (outs.map (fun o => o.notification_frames.take o.n_notification_frames)).flatten
                ++ t1.notification_buffer) := by
  obtain ⟨s1, o, h⟩ := process_total C K fuel s i hpos hfuel
  have hold := notification_fifo_of_return C K fuel s s1 i o h
  refine ⟨s1, o, h, process_queued h, hold.1, hold.2.1, ?_⟩
  intro steps t
  obtain ⟨fuel0, t1, outs, hrun⟩ := run_total C K hpos steps t
  exact ⟨fuel0, fun fuel1 hf => ⟨t1, outs, hrun fuel1 hf,
    run_conserves steps t t1 outs (hrun fuel1 hf)⟩⟩

theorem notification_fifo_witness :
    (∀ k, 0 < echo.needed_modem_samples k) ∧
    (input_at_loop Tx.passthrough (initial_state [7, 8, 9]) (block 2)).available_elems < 10 ∧
    process Tx.passthrough echo 10 (initial_state [7, 8, 9]) (block 2)
      = .ok (drained_state [9], echo_output [7, 8] 2) ∧
    run Tx.passthrough echo 10 (initial_state [7, 8, 9])
        [(quiet, block 2), (quiet, block 2), (quiet, block 2)]
      = .ok (drained_state [],
          [echo_output [7, 8] 2, echo_output [9, 0] 1, echo_output [0, 0] 0]) ∧
    ∃ s1 o, process Tx.passthrough echo 10 (initial_state [7, 8, 9]) (block 2) = .ok (s1, o) ∧
      o.notification_queued =
        (if (initial_state [7, 8, 9]).initialized ≠ 0 then
            (if echo.encrypted s1.crypto_rx then (initial_state [7, 8, 9]).crypto_startup
              else (initial_state [7, 8, 9]).plain_startup)
          else []) ++
          (if (initial_state [7, 8, 9]).play_wav ≠ 0 then (initial_state [7, 8, 9]).wave_sound
            else []) ∧
      (((initial_state [7, 8, 9]).notification_buffer ++ o.notification_queued).length
          < 2 ^ 32 →
        o.notification_frames =
          ((initial_state [7, 8, 9]).notification_buffer ++ o.notification_queued).take
              (min (block 2).nframes
                ((initial_state [7, 8, 9]).notification_buffer
                  ++ o.notification_queued).length) ++
            List.replicate ((block 2).nframes -
              min (block 2).nframes
                ((initial_state [7, 8, 9]).notification_buffer
                  ++ o.notification_queued).length) 0 ∧
        s1.notification_buffer =
          ((initial_state [7, 8, 9]).notification_buffer ++ o.notification_queued).drop
            (min (block 2).nframes
              ((initial_state [7, 8, 9]).notification_buffer
                ++ o.notification_queued).length)) ∧
      ((initial_state [7, 8, 9]).notification_buffer ++ o.notification_queued = [] →
        o.notification_frames = List.replicate (block 2).nframes 0 ∧
          s1.notification_buffer = []) ∧
      (∀ (steps : List (Async × Input)) (t : State Unit),
        ∃ fuel0, ∀ fuel1, fuel0 ≤ fuel1 →
          ∃ t1 outs, run Tx.passthrough echo fuel1 t steps = .ok (t1, outs) ∧
            t.notification_buffer ++ (outs.map Output.notification_queued).flatten =
              (outs.map (fun o => o.notification_frames.take o.n_notification_frames)).flatten
                ++ t1.notification_buffer) :=
  ⟨fun _ => Nat.zero_lt_two, by decide, rfl, rfl,
    notification_fifo Tx.passthrough echo 10 (initial_state [7, 8, 9]) (block 2)
      (fun _ => Nat.zero_lt_two) (by decide)⟩

end Rx

namespace Cfg

/-! ## The key file path (C22) -/

/-- With enough fuel the digits of a positive number are those of `Nat.digits`. -/
theorem decimal_digits_eq : ∀ (fuel k : Nat), 0 < k → k < fuel →
    decimal_digits fuel k = Nat.digits 10 k := by
  intro fuel
  induction fuel with
  | zero => intro k _ h; omega
  | succ fuel ih =>
    intro k h0 hlt
    unfold decimal_digits
    by_cases h10 : k < 10
    · rw [if_pos h10, Nat.digits_of_lt 10 k (by omega) h10]
    · rw [if_neg h10, Nat.digits_def' (by decide) h0,
        ih (k / 10) (Nat.div_pos (by omega) (by decide)) (by omega)]

/-- Two positive numbers that print alike are equal. -/
theorem utoa_injective (a b : Nat) (ha : 0 < a) (hb : 0 < b) (h : utoa a = utoa b) : a = b := by
  unfold utoa at h
  rw [decimal_digits_eq _ a ha (Nat.lt_succ_self _),
    decimal_digits_eq _ b hb (Nat.lt_succ_self _)] at h
  have h1 := List.map_injective_iff.2 (fun x y (hxy : 48 + x = 48 + y) => by omega) h
  exact Nat.digits_inj_iff.1 (List.reverse_injective h1)

/-- The printed digits contain no NUL. -/
theorem utoa_no_nul (k : Nat) : ∀ c ∈ utoa k, c ≠ 0 := by
  intro c hc
  unfold utoa at hc
  obtain ⟨d, -, rfl⟩ := List.mem_map.1 hc
  omega

theorem KEY_PREFIX_length : KEY_PREFIX.length = 8 := rfl

theorem KEY_PREFIX_no_nul : ∀ c ∈ KEY_PREFIX, c ≠ 0 := by decide

/-- The C string of an array that holds `w`, without NUL, and then a NUL. -/
theorem c_str_append_nul (w rest : List Nat) (hw : ∀ c ∈ w, c ≠ 0) :
    c_str (w ++ 0 :: rest) = w := by
  induction w with
  | nil => simp [c_str]
  | cons c w ih =>
    have hc : c ≠ 0 := hw c (List.mem_cons_self _ _)
    have := ih (fun x hx => hw x (List.mem_cons_of_mem _ hx))
    unfold c_str at this ⊢
    rw [List.cons_append, List.takeWhile_cons_of_pos (by simpa using hc), this]

/-- A NUL stored behind the first NUL does not change the C string. -/
theorem c_str_set_after (w rest : List Nat) (i : Nat) (hw : ∀ c ∈ w, c ≠ 0)
    (hi : w.length < i) : c_str ((w ++ 0 :: rest).set i 0) = w := by
  obtain ⟨j, rfl⟩ : ∃ j, i = w.length + (j + 1) := ⟨i - w.length - 1, by omega⟩
  have : (w ++ 0 :: rest).set (w.length + (j + 1)) 0 = w ++ 0 :: rest.set j 0 := by
    rw [List.set_append_right _ _ (by omega)]
    simp
  rw [this]
  exact c_str_append_nul w _ hw

/-- A NUL stored right behind `w` ends the C string there. -/
theorem c_str_set_at (w rest : List Nat) (hw : ∀ c ∈ w, c ≠ 0) :
    c_str ((w ++ rest).set w.length 0) = w := by
  cases rest with
  | nil =>
    have : (w ++ []).set w.length 0 = w ++ [] := by
      apply List.set_eq_of_length_le
      simp
    rw [this, List.append_nil]
    unfold c_str
    rw [List.takeWhile_eq_self_iff]
    intro c hc
    simpa using hw c hc
  | cons r rest =>
    have : (w ++ r :: rest).set w.length 0 = w ++ 0 :: rest := by
      rw [List.set_append_right _ _ (le_refl _)]
      simp
    rw [this]
    exact c_str_append_nul w _ hw

theorem size_minus_one (buffer_size : Nat) (h1 : 1 ≤ buffer_size) (h64 : buffer_size < 2 ^ 64) :
    (buffer_size + 2 ^ 64 - 1) % 2 ^ 64 = buffer_size - 1 := by
  have : buffer_size + 2 ^ 64 - 1 = (buffer_size - 1) + 2 ^ 64 := by omega
  rw [this, Nat.add_mod_right, Nat.mod_eq_of_lt (by omega)]

/-- What `get_key_path` leaves in an array of `buffer_size ≥ 1` characters: the
call returns, the last character of the array is a NUL, and the C string in it
is `KEY_PREFIX` cut to `buffer_size - 1` characters for `key_index ≤ 1`, and
`KEY_PREFIX` followed by the digits of `key_index`, cut to `buffer_size - 2`
characters, otherwise. -/
theorem get_key_path_str (buffer : List Nat) (buffer_size key_index : Nat)
    (hlen : buffer.length = buffer_size) (h1 : 1 ≤ buffer_size) (h64 : buffer_size < 2 ^ 64) :
    ∃ b, get_key_path buffer buffer_size key_index = .ok b ∧ b.length = buffer_size ∧
      b[buffer_size - 1]? = some 0 ∧
      c_str b = (if key_index ≤ 1 then KEY_PREFIX.take (buffer_size - 1)
                 else (KEY_PREFIX ++ utoa key_index).take (buffer_size - 2)) := by
  unfold get_key_path
  rw [size_minus_one buffer_size h1 h64]
  dsimp only
  by_cases hk : key_index ≤ 1
  · rw [if_pos hk, if_pos hk]
    unfold strncpy
    rw [if_pos (by omega)]
    dsimp only
    have hl : (List.take (buffer_size - 1) KEY_PREFIX
        ++ List.replicate (buffer_size - 1 - KEY_PREFIX.length) 0
        ++ List.drop (buffer_size - 1) buffer).length = buffer_size := by
      simp only [List.length_append, List.length_take, List.length_replicate, List.length_drop,
        KEY_PREFIX_length, hlen]
      omega
    unfold store
    rw [if_pos (by rw [hl]; omega)]
    refine ⟨_, rfl, by rw [List.length_set, hl], ?_, ?_⟩
    · rw [List.getElem?_set_self (by rw [hl]; omega)]
    · by_cases h8 : buffer_size - 1 ≤ 8
      · have e1 : buffer_size - 1 - KEY_PREFIX.length = 0 := by rw [KEY_PREFIX_length]; omega
        have e2 : (List.take (buffer_size - 1) KEY_PREFIX).length = buffer_size - 1 := by
          rw [List.length_take, KEY_PREFIX_length]; omega
        rw [e1, List.replicate_zero, List.append_nil]
        have := c_str_set_at (List.take (buffer_size - 1) KEY_PREFIX)
          (List.drop (buffer_size - 1) buffer)
          (fun c hc => KEY_PREFIX_no_nul c (List.mem_of_mem_take hc))
        rw [e2] at this
        exact this
      · have e1 : List.take (buffer_size - 1) KEY_PREFIX = KEY_PREFIX :=
          List.take_of_length_le (by rw [KEY_PREFIX_length]; omega)
        obtain ⟨m, hm⟩ : ∃ m, buffer_size - 1 - KEY_PREFIX.length = m + 1 :=
          ⟨buffer_size - 1 - KEY_PREFIX.length - 1, by rw [KEY_PREFIX_length]; omega⟩
        rw [e1, hm, List.replicate_succ, List.append_assoc, List.cons_append]
        exact c_str_set_after KEY_PREFIX _ _ KEY_PREFIX_no_nul
          (by rw [KEY_PREFIX_length]; omega)
  · rw [if_neg hk, if_neg hk]
    unfold snprintf
    by_cases h0 : buffer_size - 1 = 0
    · rw [if_pos h0]
      dsimp only
      unfold store
      rw [if_pos (by omega)]
      refine ⟨_, rfl, by rw [List.length_set, hlen], ?_, ?_⟩
      · rw [List.getElem?_set_self (by omega)]
      · have hb : buffer_size - 2 = 0 := by omega
        rw [hb, List.take_zero, h0]
        cases buffer with
        | nil => simp at hlen; omega
        | cons x rest => simp [c_str]
    · rw [if_neg h0]
      have hw : (List.take (buffer_size - 1 - 1) (KEY_PREFIX ++ utoa key_index)).length
          ≤ buffer_size - 2 := by
        rw [List.length_take]
        omega
      rw [if_pos (by omega)]
      dsimp only
      have hl : (List.take (buffer_size - 1 - 1) (KEY_PREFIX ++ utoa key_index) ++ [0]
          ++ List.drop ((List.take (buffer_size - 1 - 1)
              (KEY_PREFIX ++ utoa key_index)).length + 1) buffer).length = buffer_size := by
        simp only [List.length_append, List.length_drop, List.length_singleton, hlen]
        omega
      unfold store
      rw [if_pos (by rw [hl]; omega)]
      refine ⟨_, rfl, by rw [List.length_set, hl], ?_, ?_⟩
      · rw [List.getElem?_set_self (by rw [hl]; omega)]
      · have e : buffer_size - 1 - 1 = buffer_size - 2 := by omega
        rw [List.append_assoc, List.singleton_append, e]
        rw [e] at hw
        exact c_str_set_after _ _ _
          (fun c hc => by
            rcases List.mem_append.1 (List.mem_of_mem_take hc) with h | h
            · exact KEY_PREFIX_no_nul c h
            · exact utoa_no_nul key_index c h)
          (by omega)

/-- The key indices up to 1 all give the same result. -/
theorem get_key_path_le_one (buffer : List Nat) (buffer_size j k : Nat) (hj : j ≤ 1)
    (hk : k ≤ 1) : get_key_path buffer buffer_size j = get_key_path buffer buffer_size k := by
  unfold get_key_path
  dsimp only
  rw [if_pos hj, if_pos hk]

/-- In an array with room for the path, a character to spare and the NUL,
`get_key_path` leaves the whole path, and distinct indices from 2 on give
distinct paths; indices 0 and 1 give the same array. -/
theorem get_key_path_whole (buffer : List Nat) (buffer_size : Nat)
    (hlen : buffer.length = buffer_size) (h64 : buffer_size < 2 ^ 64) :
    get_key_path buffer buffer_size 0 = get_key_path buffer buffer_size 1 ∧
    (∀ k, k ≤ 1 → 9 ≤ buffer_size →
      ∃ b, get_key_path buffer buffer_size k = .ok b ∧ c_str b = KEY_PREFIX) ∧
    (∀ k, 2 ≤ k → (KEY_PREFIX ++ utoa k).length + 2 ≤ buffer_size →
      ∃ b, get_key_path buffer buffer_size k = .ok b ∧ c_str b = KEY_PREFIX ++ utoa k) ∧
    (∀ j k bj bk, 2 ≤ j → 2 ≤ k → j ≠ k →
      (KEY_PREFIX ++ utoa j).length + 2 ≤ buffer_size →
      (KEY_PREFIX ++ utoa k).length + 2 ≤ buffer_size →
      get_key_path buffer buffer_size j = .ok bj → get_key_path buffer buffer_size k = .ok bk →
      c_str bj ≠ c_str bk) := by
  have hwhole : ∀ k, 2 ≤ k → (KEY_PREFIX ++ utoa k).length + 2 ≤ buffer_size →
      ∃ b, get_key_path buffer buffer_size k = .ok b ∧ c_str b = KEY_PREFIX ++ utoa k := by
    intro k hk hroom
    obtain ⟨b, hb, -, -, hs⟩ := get_key_path_str buffer buffer_size k hlen (by omega) h64
    rw [if_neg (by omega), List.take_of_length_le (by omega)] at hs
    exact ⟨b, hb, hs⟩
  refine ⟨?_, ?_, hwhole, ?_⟩
  · exact get_key_path_le_one buffer buffer_size 0 1 (Nat.zero_le 1) (Nat.le_refl 1)
  · intro k hk hroom
    obtain ⟨b, hb, -, -, hs⟩ := get_key_path_str buffer buffer_size k hlen (by omega) h64
    rw [if_pos hk, List.take_of_length_le (by rw [KEY_PREFIX_length]; omega)] at hs
    exact ⟨b, hb, hs⟩
  · intro j k bj bk hj hk hne hrj hrk hbj hbk heq
    obtain ⟨b1, h1, e1⟩ := hwhole j hj hrj
    obtain ⟨b2, h2, e2⟩ := hwhole k hk hrk
    rw [hbj] at h1
    rw [hbk] at h2
    injection h1 with h1
    injection h2 with h2
    subst h1
    subst h2
    rw [e1, e2] at heq
    exact hne (utoa_injective j k (by omega) (by omega) (List.append_cancel_left heq))

/-- C22 (failing input): an array of 11 characters and key index 10. The path
`/etc/key10` with its NUL takes 11 characters, so the array is large enough to
hold the result, but `snprintf` is given `buffer_size - 1 = 10` and stores nine
characters and a NUL: the C string left in the array is `/etc/key1`, the last
digit is lost, and key index 11 leaves the same string, so two distinct indices
from 2 on select the same file. The `KeyIndex` entry of `ini_callback` does the
same on a `key_file` of 11 characters. With 12 characters the whole path is
written, and `strncpy` in the other branch fills an array of exactly 9
characters with `/etc/key` and its NUL. -/
theorem get_key_path_drops_last_digit :
    (KEY_PREFIX ++ utoa 10 ++ [0]).length = 11 ∧
    KEY_PREFIX ++ utoa 10 = "/etc/key10".toList.map Char.toNat ∧
    get_key_path (List.replicate 11 255) 11 10
      = .ok ("/etc/key1".toList.map Char.toNat ++ [0, 0]) ∧
    (get_key_path (List.replicate 11 255) 11 10).toOption.map c_str
      = some ("/etc/key1".toList.map Char.toNat) ∧
    (get_key_path (List.replicate 11 255) 11 11).toOption.map c_str
      = some ("/etc/key1".toList.map Char.toNat) ∧
    (ini_callback_KeyIndex (List.replicate 11 255) 10).toOption.map c_str
      = some ("/etc/key1".toList.map Char.toNat) ∧
    (get_key_path (List.replicate 12 255) 12 10).toOption.map c_str
      = some ("/etc/key10".toList.map Char.toNat) ∧
    (get_key_path (List.replicate 9 255) 9 1).toOption.map c_str
      = some ("/etc/key".toList.map Char.toNat) :=
  ⟨by decide, by decide, rfl, by decide, by decide, by decide, by decide, by decide⟩

end Cfg

end Commsec
